import Mathlib

/-!
# RingBuffer: a lock free SPSC ring buffer (`Modules/ring_buffer/ring_buffer.c`)

Shallow embedding of the ring buffer engine and proofs of its specified properties.

Modelling conventions.

* `RingBuffer_Counter_t` is `uint32_t`: counters are natural numbers (`Nat`) below `2 ^ 32`, and
  every addition and subtraction of the source is written with the wrapping operations `cadd`,
  `csub`.
* `RingBuffer_Item_t` is `uint8_t`, so one item is one byte and `memcpy` of `n` bytes moves `n`
  items.  Items are only ever copied, never computed on; they are natural numbers here.
* A C function that receives the instance pointer and out pointers becomes a function from the
  instance value and the old contents of the out cells to a record holding the returned error,
  the instance after the call and the out cells after the call.  The instance pointer, the item
  pointers and the out pointers are always non-null here; the storage pointer `data` of the
  instance may be null (`none`).
* `DEBUG_RING_BUFFER` is a build switch; it is the Boolean argument `dbg` of every function.
-/

namespace RingBuffer

/-! ## Types -/

/-- The item type `RingBuffer_Item_t` (`uint8_t`). -/
abbrev RingBuffer_Item_t := Nat

/-- Wrapping addition of `RingBuffer_Counter_t` (`uint32_t`). -/
def cadd (a b : Nat) : Nat :=
  (a + b) % 4294967296

/-- Wrapping subtraction of `RingBuffer_Counter_t` (`uint32_t`). -/
def csub (a b : Nat) : Nat :=
  (a % 4294967296 + 4294967296 - b % 4294967296) % 4294967296

/-- The macro `MIN(a, b)` of `utils.h`. -/
def MIN (a b : Nat) : Nat := if a < b then a else b

/-- The enumeration `RingBuffer_Error_t`. -/
inductive RingBuffer_Error_t where
  | RING_BUFFER_ERROR_NONE
  | RING_BUFFER_ERROR_NULLPTR
  | RING_BUFFER_ERROR_INVALID_PARAM
  | RING_BUFFER_ERROR_EMPTY
  | RING_BUFFER_ERROR_FULL
  | RING_BUFFER_ERROR_INSUFFICIENT_ITEMS
  deriving DecidableEq, Repr

open RingBuffer_Error_t

/-- The structure `RingBuffer_t`; `data = none` is the null storage pointer, `data = some st`
points to the storage array whose current contents are `st`. -/
structure RingBuffer_t where
  data : Option (List RingBuffer_Item_t)
  size : Nat
  head : Nat
  tail : Nat
  deriving DecidableEq, Repr

/-- Outcome of a call that only returns an error and may change the instance. -/
structure StateResult where
  error : RingBuffer_Error_t
  ring_buffer : RingBuffer_t
  deriving DecidableEq, Repr

/-- Outcome of a call with an out pointer to one item. -/
structure ItemResult where
  error : RingBuffer_Error_t
  ring_buffer : RingBuffer_t
  item : RingBuffer_Item_t
  deriving DecidableEq, Repr

/-- Outcome of a call with an out pointer to one counter. -/
structure CounterResult where
  error : RingBuffer_Error_t
  ring_buffer : RingBuffer_t
  counter : Nat
  deriving DecidableEq, Repr

/-- Outcome of a call with a caller array of items and an out pointer to one counter. -/
structure ItemsResult where
  error : RingBuffer_Error_t
  ring_buffer : RingBuffer_t
  items : List RingBuffer_Item_t
  counter : Nat
  deriving DecidableEq, Repr

/-! ## Memory copy -/

/-- Store the items `src` into the consecutive slots of `dst` that start at index `i`. -/
def storeItems (dst : List RingBuffer_Item_t) (i : Nat) :
    List RingBuffer_Item_t → List RingBuffer_Item_t
  | [] => dst
  | x :: xs => storeItems (dst.set i x) (i + 1) xs

/-- The call `memcpy(&dst[d], &src[s], n)` for one-byte items: `n` items of `src` from index `s`
are stored into `dst` from index `d`. -/
def memcpy (dst : List RingBuffer_Item_t) (d : Nat) (src : List RingBuffer_Item_t) (s n : Nat) :
    List RingBuffer_Item_t :=
  storeItems dst d ((src.drop s).take n)

/-! ## Information functions -/

/-- Function `RingBuffer_enItemCount` (ring_buffer.c, lines 448-479). -/
def RingBuffer_enItemCount (dbg : Bool) (ring_buffer : RingBuffer_t)
    (item_count : Nat) : CounterResult :=
  if dbg && ring_buffer.data.isNone then
    ⟨RING_BUFFER_ERROR_NULLPTR, ring_buffer, item_count⟩
  else
    let tail := ring_buffer.tail
    let head := ring_buffer.head
    if tail > head then
      ⟨RING_BUFFER_ERROR_NONE, ring_buffer, csub tail head⟩
    else if tail < head then
      ⟨RING_BUFFER_ERROR_NONE, ring_buffer, csub (cadd tail ring_buffer.size) head⟩
    else
      ⟨RING_BUFFER_ERROR_NONE, ring_buffer, 0⟩

/-- Function `RingBuffer_enFreeCount` (ring_buffer.c, lines 483-514). -/
def RingBuffer_enFreeCount (dbg : Bool) (ring_buffer : RingBuffer_t)
    (free_count : Nat) : CounterResult :=
  if dbg && ring_buffer.data.isNone then
    ⟨RING_BUFFER_ERROR_NULLPTR, ring_buffer, free_count⟩
  else
    let tail := ring_buffer.tail
    let head := ring_buffer.head
    if tail > head then
      ⟨RING_BUFFER_ERROR_NONE, ring_buffer, csub (csub ring_buffer.size (csub tail head)) 1⟩
    else if head > tail then
      ⟨RING_BUFFER_ERROR_NONE, ring_buffer, csub (csub head tail) 1⟩
    else
      ⟨RING_BUFFER_ERROR_NONE, ring_buffer, csub ring_buffer.size 1⟩

/-- Function `RingBuffer_enIsEmpty` (ring_buffer.c, lines 518-532); the `uint8_t` flag is `0` or `1`. -/
def RingBuffer_enIsEmpty (dbg : Bool) (ring_buffer : RingBuffer_t) (is_empty : Nat) :
    CounterResult :=
  if dbg && ring_buffer.data.isNone then
    ⟨RING_BUFFER_ERROR_NULLPTR, ring_buffer, is_empty⟩
  else
    ⟨RING_BUFFER_ERROR_NONE, ring_buffer, if ring_buffer.head = ring_buffer.tail then 1 else 0⟩

/-- Function `RingBuffer_enIsFull` (ring_buffer.c, lines 536-554); the `uint8_t` flag is `0` or `1`. -/
def RingBuffer_enIsFull (dbg : Bool) (ring_buffer : RingBuffer_t) (is_full : Nat) :
    CounterResult :=
  if dbg && ring_buffer.data.isNone then
    ⟨RING_BUFFER_ERROR_NULLPTR, ring_buffer, is_full⟩
  else
    let r := RingBuffer_enItemCount dbg ring_buffer 0
    let ring_buffer := r.ring_buffer
    let count := r.counter
    ⟨RING_BUFFER_ERROR_NONE, ring_buffer, if count = csub ring_buffer.size 1 then 1 else 0⟩

/-! ## Life cycle -/

/-- Function `RingBuffer_enInit` (ring_buffer.c, lines 35-58). -/
def RingBuffer_enInit (dbg : Bool) (ring_buffer : RingBuffer_t)
    (data : Option (List RingBuffer_Item_t)) (size : Nat) : StateResult :=
  if dbg && data.isNone then
    ⟨RING_BUFFER_ERROR_NULLPTR, ring_buffer⟩
  else if dbg && decide (size < 2) then
    ⟨RING_BUFFER_ERROR_INVALID_PARAM, ring_buffer⟩
  else
    ⟨RING_BUFFER_ERROR_NONE, { ring_buffer with data := data, size := size, head := 0, tail := 0 }⟩

/-- Function `RingBuffer_enReset` (ring_buffer.c, lines 62-74). -/
def RingBuffer_enReset (dbg : Bool) (ring_buffer : RingBuffer_t) : StateResult :=
  RingBuffer_enInit dbg ring_buffer ring_buffer.data ring_buffer.size

/-- Function `RingBuffer_enFree` (ring_buffer.c, lines 78-93). -/
def RingBuffer_enFree (_dbg : Bool) (ring_buffer : RingBuffer_t) : StateResult :=
  ⟨RING_BUFFER_ERROR_NONE, { ring_buffer with data := none }⟩

/-! ## Transfer functions -/

/-- Function `RingBuffer_enPutItem` (ring_buffer.c, lines 97-131). -/
def RingBuffer_enPutItem (dbg : Bool) (ring_buffer : RingBuffer_t) (item : RingBuffer_Item_t) :
    StateResult :=
  if dbg && ring_buffer.data.isNone then
    ⟨RING_BUFFER_ERROR_NULLPTR, ring_buffer⟩
  else
    let RingBuffer_tail := cadd ring_buffer.tail 1
    let RingBuffer_tail := if RingBuffer_tail = ring_buffer.size then 0 else RingBuffer_tail
    if RingBuffer_tail = ring_buffer.head then
      ⟨RING_BUFFER_ERROR_FULL, ring_buffer⟩
    else
      let data := ring_buffer.data.map (fun st => memcpy st ring_buffer.tail [item] 0 1)
      ⟨RING_BUFFER_ERROR_NONE, { ring_buffer with data := data, tail := RingBuffer_tail }⟩

/-- Function `RingBuffer_enPutItems` (ring_buffer.c, lines 135-222).  The local `free_count` is not
initialised in the source; it is `0` before `RingBuffer_enFreeCount` stores into it. -/
def RingBuffer_enPutItems (dbg : Bool) (ring_buffer : RingBuffer_t)
    (items : List RingBuffer_Item_t) (len : Nat)
    (item_count : Nat) : CounterResult :=
  if dbg && ring_buffer.data.isNone then
    ⟨RING_BUFFER_ERROR_NULLPTR, ring_buffer, item_count⟩
  else if dbg && decide (len = 0) then
    ⟨RING_BUFFER_ERROR_INVALID_PARAM, ring_buffer, item_count⟩
  else
    let r := RingBuffer_enFreeCount dbg ring_buffer 0
    let ring_buffer := r.ring_buffer
    let free_count := r.counter
    if free_count = 0 then
      ⟨RING_BUFFER_ERROR_FULL, ring_buffer, 0⟩
    else
      let truncated_len := MIN len free_count
      let tail := ring_buffer.tail
      let write_count := MIN (csub ring_buffer.size tail) truncated_len
      let data := ring_buffer.data.map (fun st => memcpy st tail items 0 write_count)
      let tail := cadd tail write_count
      let truncated_len := csub truncated_len write_count
      let data := if truncated_len ≠ 0 then
          data.map (fun st => memcpy st 0 items write_count truncated_len)
        else data
      let tail := if truncated_len ≠ 0 then truncated_len else tail
      let tail := if tail ≥ ring_buffer.size then 0 else tail
      let ring_buffer := { ring_buffer with data := data, tail := tail }
      let item_count := cadd truncated_len write_count
      if free_count < len then
        ⟨RING_BUFFER_ERROR_INSUFFICIENT_ITEMS, ring_buffer, item_count⟩
      else
        ⟨RING_BUFFER_ERROR_NONE, ring_buffer, item_count⟩

/-- Function `RingBuffer_enGetItem` (ring_buffer.c, lines 226-261); `item` is the caller's cell before the
call.  Copying from a null or too short storage leaves the cell as it was. -/
def RingBuffer_enGetItem (dbg : Bool) (ring_buffer : RingBuffer_t) (item : RingBuffer_Item_t) :
    ItemResult :=
  if dbg && ring_buffer.data.isNone then
    ⟨RING_BUFFER_ERROR_NULLPTR, ring_buffer, item⟩
  else
    let RingBuffer_head := ring_buffer.head
    if RingBuffer_head = ring_buffer.tail then
      ⟨RING_BUFFER_ERROR_EMPTY, ring_buffer, item⟩
    else
      let item := (memcpy [item] 0 (ring_buffer.data.getD []) RingBuffer_head 1).headD item
      let RingBuffer_head := cadd RingBuffer_head 1
      let RingBuffer_head := if RingBuffer_head = ring_buffer.size then 0 else RingBuffer_head
      ⟨RING_BUFFER_ERROR_NONE, { ring_buffer with head := RingBuffer_head }, item⟩

/-- Function `RingBuffer_enGetItems` (ring_buffer.c, lines 265-351); `items` is the caller's array before
the call.  The local `available_items` is `0` before `RingBuffer_enItemCount` stores into it. -/
def RingBuffer_enGetItems (dbg : Bool) (ring_buffer : RingBuffer_t)
    (items : List RingBuffer_Item_t) (len : Nat)
    (item_count : Nat) : ItemsResult :=
  if dbg && ring_buffer.data.isNone then
    ⟨RING_BUFFER_ERROR_NULLPTR, ring_buffer, items, item_count⟩
  else if dbg && decide (len = 0) then
    ⟨RING_BUFFER_ERROR_INVALID_PARAM, ring_buffer, items, item_count⟩
  else
    let r := RingBuffer_enItemCount dbg ring_buffer 0
    let ring_buffer := r.ring_buffer
    let available_items := r.counter
    if available_items = 0 then
      ⟨RING_BUFFER_ERROR_EMPTY, ring_buffer, items, 0⟩
    else
      let truncated_len := MIN len available_items
      let head := ring_buffer.head
      let read_count := MIN (csub ring_buffer.size head) truncated_len
      let items := memcpy items 0 (ring_buffer.data.getD []) head read_count
      let head := cadd head read_count
      let truncated_len := csub truncated_len read_count
      let items := if truncated_len ≠ 0 then
          memcpy items read_count (ring_buffer.data.getD []) 0 truncated_len
        else items
      let head := if truncated_len ≠ 0 then truncated_len else head
      let head := if head ≥ ring_buffer.size then 0 else head
      let ring_buffer := { ring_buffer with head := head }
      let item_count := cadd truncated_len read_count
      if available_items < len then
        ⟨RING_BUFFER_ERROR_INSUFFICIENT_ITEMS, ring_buffer, items, item_count⟩
      else
        ⟨RING_BUFFER_ERROR_NONE, ring_buffer, items, item_count⟩

/-- Function `RingBuffer_enPeekItems` (ring_buffer.c, lines 355-444); `sizeof(RingBuffer_Item_t)` is 1. -/
def RingBuffer_enPeekItems (dbg : Bool) (ring_buffer : RingBuffer_t)
    (items : List RingBuffer_Item_t) (len offset : Nat)
    (item_count : Nat) : ItemsResult :=
  if dbg && ring_buffer.data.isNone then
    ⟨RING_BUFFER_ERROR_NULLPTR, ring_buffer, items, item_count⟩
  else if dbg && decide (len = 0) then
    ⟨RING_BUFFER_ERROR_INVALID_PARAM, ring_buffer, items, item_count⟩
  else
    let head := ring_buffer.head
    let tail := ring_buffer.tail
    if head = tail then
      ⟨RING_BUFFER_ERROR_EMPTY, ring_buffer, items, 0⟩
    else
      let r := RingBuffer_enItemCount dbg ring_buffer 0
      let ring_buffer := r.ring_buffer
      let available_items := r.counter
      if offset ≥ available_items then
        ⟨RING_BUFFER_ERROR_INSUFFICIENT_ITEMS, ring_buffer, items, 0⟩
      else
        let items_to_peek := MIN (csub available_items offset) len
        let head := cadd head offset
        let head := if head ≥ ring_buffer.size then csub head ring_buffer.size else head
        let read_count := MIN (csub ring_buffer.size head) items_to_peek
        let items := memcpy items 0 (ring_buffer.data.getD []) head read_count
        let items_to_peek := csub items_to_peek read_count
        let items := if items_to_peek ≠ 0 then
            memcpy items read_count (ring_buffer.data.getD []) 0 items_to_peek
          else items
        let item_count := cadd items_to_peek read_count
        if csub available_items offset < len then
          ⟨RING_BUFFER_ERROR_INSUFFICIENT_ITEMS, ring_buffer, items, item_count⟩
        else
          ⟨RING_BUFFER_ERROR_NONE, ring_buffer, items, item_count⟩

/-! ## Pointer-only commit -/

/-- Function `RingBuffer_enSkipItems` (ring_buffer.c, lines 616-663). -/
def RingBuffer_enSkipItems (dbg : Bool) (ring_buffer : RingBuffer_t)
    (skip_count : Nat) (skipped : Nat) : CounterResult :=
  if dbg && ring_buffer.data.isNone then
    ⟨RING_BUFFER_ERROR_NULLPTR, ring_buffer, skipped⟩
  else if dbg && decide (skip_count = 0) then
    ⟨RING_BUFFER_ERROR_INVALID_PARAM, ring_buffer, skipped⟩
  else
    let r := RingBuffer_enItemCount dbg ring_buffer 0
    let ring_buffer := r.ring_buffer
    let item_count := r.counter
    if item_count = 0 then
      ⟨RING_BUFFER_ERROR_EMPTY, ring_buffer, 0⟩
    else
      let skipped_items := MIN item_count skip_count
      let head := ring_buffer.head
      let head := cadd head skipped_items
      let head := if head ≥ ring_buffer.size then csub head ring_buffer.size else head
      let ring_buffer := { ring_buffer with head := head }
      if skipped_items ≠ skip_count then
        ⟨RING_BUFFER_ERROR_INSUFFICIENT_ITEMS, ring_buffer, skipped_items⟩
      else
        ⟨RING_BUFFER_ERROR_NONE, ring_buffer, skipped_items⟩

/-- Function `RingBuffer_enAdvance` (ring_buffer.c, lines 667-714). -/
def RingBuffer_enAdvance (dbg : Bool) (ring_buffer : RingBuffer_t)
    (advance_count : Nat) (advanced : Nat) : CounterResult :=
  if dbg && ring_buffer.data.isNone then
    ⟨RING_BUFFER_ERROR_NULLPTR, ring_buffer, advanced⟩
  else if dbg && decide (advance_count = 0) then
    ⟨RING_BUFFER_ERROR_INVALID_PARAM, ring_buffer, advanced⟩
  else
    let r := RingBuffer_enFreeCount dbg ring_buffer 0
    let ring_buffer := r.ring_buffer
    let free_count := r.counter
    if free_count = 0 then
      ⟨RING_BUFFER_ERROR_FULL, ring_buffer, 0⟩
    else
      let advanced_items := MIN free_count advance_count
      let tail := ring_buffer.tail
      let tail := cadd tail advance_count
      let tail := if tail ≥ ring_buffer.size then csub tail ring_buffer.size else tail
      let ring_buffer := { ring_buffer with tail := tail }
      if advanced_items ≠ advance_count then
        ⟨RING_BUFFER_ERROR_INSUFFICIENT_ITEMS, ring_buffer, advanced_items⟩
      else
        ⟨RING_BUFFER_ERROR_NONE, ring_buffer, advanced_items⟩

/-! ## Zero-copy block access

An address `&ring_buffer->data[i]` is the index `i` of the slot it designates. -/

/-- Function `RingBuffer_enBlockReadAddress` (ring_buffer.c, lines 718-732). -/
def RingBuffer_enBlockReadAddress (dbg : Bool) (ring_buffer : RingBuffer_t)
    (read_address : Nat) : CounterResult :=
  if dbg && ring_buffer.data.isNone then
    ⟨RING_BUFFER_ERROR_NULLPTR, ring_buffer, read_address⟩
  else
    ⟨RING_BUFFER_ERROR_NONE, ring_buffer, ring_buffer.head⟩

/-- Function `RingBuffer_enBlockReadCount` (ring_buffer.c, lines 736-767). -/
def RingBuffer_enBlockReadCount (dbg : Bool) (ring_buffer : RingBuffer_t)
    (count : Nat) : CounterResult :=
  if dbg && ring_buffer.data.isNone then
    ⟨RING_BUFFER_ERROR_NULLPTR, ring_buffer, count⟩
  else
    let head := ring_buffer.head
    let tail := ring_buffer.tail
    if head < tail then
      ⟨RING_BUFFER_ERROR_NONE, ring_buffer, csub tail head⟩
    else if head > tail then
      ⟨RING_BUFFER_ERROR_NONE, ring_buffer, csub ring_buffer.size head⟩
    else
      ⟨RING_BUFFER_ERROR_NONE, ring_buffer, 0⟩

/-- Function `RingBuffer_enBlockWriteAddress` (ring_buffer.c, lines 771-785). -/
def RingBuffer_enBlockWriteAddress (dbg : Bool) (ring_buffer : RingBuffer_t)
    (write_address : Nat) : CounterResult :=
  if dbg && ring_buffer.data.isNone then
    ⟨RING_BUFFER_ERROR_NULLPTR, ring_buffer, write_address⟩
  else
    ⟨RING_BUFFER_ERROR_NONE, ring_buffer, ring_buffer.tail⟩

/-- Function `RingBuffer_enBlockWriteCount` (ring_buffer.c, lines 789-821). -/
def RingBuffer_enBlockWriteCount (dbg : Bool) (ring_buffer : RingBuffer_t)
    (count : Nat) : CounterResult :=
  if dbg && ring_buffer.data.isNone then
    ⟨RING_BUFFER_ERROR_NULLPTR, ring_buffer, count⟩
  else
    let head := ring_buffer.head
    let tail := ring_buffer.tail
    if head ≤ tail then
      let count := csub ring_buffer.size tail
      let count := if head = 0 then csub count 1 else count
      ⟨RING_BUFFER_ERROR_NONE, ring_buffer, count⟩
    else
      ⟨RING_BUFFER_ERROR_NONE, ring_buffer, csub (csub head tail) 1⟩

/-! ## Specification vocabulary -/

/-- A valid instance: capacity `N ≥ 2` that fits the counter type, both cursors below `N`, and
a storage array of `N` slots. -/
def valid (rb : RingBuffer_t) : Prop :=
  2 ≤ rb.size ∧ rb.size < 4294967296 ∧ rb.head < rb.size ∧ rb.tail < rb.size ∧
    rb.data.map List.length = some rb.size

instance (rb : RingBuffer_t) : Decidable (valid rb) := by
  unfold valid; infer_instance

/-- The value `item_count()` of an instance. -/
def item_count (rb : RingBuffer_t) : Nat := (RingBuffer_enItemCount false rb 0).counter

/-- The value `free_count()` of an instance. -/
def free_count (rb : RingBuffer_t) : Nat := (RingBuffer_enFreeCount false rb 0).counter

/-- The logical contents: the items `storage[(head + i) mod N]` for `i = 0 .. item_count - 1`,
oldest first. -/
def contents (rb : RingBuffer_t) : List RingBuffer_Item_t :=
  (List.range (item_count rb)).map
    (fun i => (rb.data.getD []).getD ((rb.head + i) % rb.size) 0)

/-- The storage after the two copies of `RingBuffer_enPutItems` that store `k` items from write
cursor `t` into a storage of `n` slots: one segment up to the end of the storage, the rest from
slot 0. -/
def putStorage (st items : List RingBuffer_Item_t) (n t k : Nat) : List RingBuffer_Item_t :=
  memcpy (memcpy st t items 0 (min (n - t) k)) 0 items (min (n - t) k) (k - (n - t))

/-- The caller's array after the two copies of `RingBuffer_enGetItems` that read `k` items from
read cursor `h` of a storage of `n` slots. -/
def getOutput (out st : List RingBuffer_Item_t) (n h k : Nat) : List RingBuffer_Item_t :=
  memcpy (memcpy out 0 st h (min (n - h) k)) (min (n - h) k) st 0 (k - (n - h))

/-! ## Reference behaviour of the bulk transfers -/

/-- Repeated single puts, the reference behaviour of a bulk put: `RingBuffer_enPutItem` is
called on `items[0]`, `items[1]`, ... in order, stopping after `len` items or at the first call
that does not return `NONE` (on an initialised instance: `FULL`).  The result is the final
instance and the number of calls that returned `NONE`. -/
def repeated_put (dbg : Bool) : RingBuffer_t → List RingBuffer_Item_t → Nat → RingBuffer_t × Nat
  | rb, _, 0 => (rb, 0)
  | rb, [], _ + 1 => (rb, 0)
  | rb, x :: xs, len + 1 =>
    if (RingBuffer_enPutItem dbg rb x).error = RING_BUFFER_ERROR_NONE then
      ((repeated_put dbg (RingBuffer_enPutItem dbg rb x).ring_buffer xs len).1,
        (repeated_put dbg (RingBuffer_enPutItem dbg rb x).ring_buffer xs len).2 + 1)
    else ((RingBuffer_enPutItem dbg rb x).ring_buffer, 0)

/-- Repeated single gets, the reference behaviour of a bulk get: `RingBuffer_enGetItem` is
called repeatedly, stopping after `len` items or at the first call that does not return `NONE`
(on an initialised instance: `EMPTY`).  The result is the final instance and the items got, in
order; the number of successes is the length of that list. -/
def repeated_get (dbg : Bool) : RingBuffer_t → Nat → RingBuffer_t × List RingBuffer_Item_t
  | rb, 0 => (rb, [])
  | rb, len + 1 =>
    if (RingBuffer_enGetItem dbg rb 0).error = RING_BUFFER_ERROR_NONE then
      ((repeated_get dbg (RingBuffer_enGetItem dbg rb 0).ring_buffer len).1,
        (RingBuffer_enGetItem dbg rb 0).item ::
          (repeated_get dbg (RingBuffer_enGetItem dbg rb 0).ring_buffer len).2)
    else ((RingBuffer_enGetItem dbg rb 0).ring_buffer, [])

/-- Single puts of the items of a list, one call of `RingBuffer_enPutItem` after the other,
whatever each call returns: the status of every call, in order, and the final instance. -/
def put_each (dbg : Bool) :
    RingBuffer_t → List RingBuffer_Item_t → List RingBuffer_Error_t × RingBuffer_t
  | rb, [] => ([], rb)
  | rb, x :: xs =>
    ((RingBuffer_enPutItem dbg rb x).error ::
        (put_each dbg (RingBuffer_enPutItem dbg rb x).ring_buffer xs).1,
      (put_each dbg (RingBuffer_enPutItem dbg rb x).ring_buffer xs).2)

/-! ## Lemmas on the memory copy -/

theorem storeItems_length (src dst : List RingBuffer_Item_t) (i : Nat) :
    (storeItems dst i src).length = dst.length := by
  induction src generalizing dst i with
  | nil => rfl
  | cons x xs ih => simp [storeItems, ih]

theorem storeItems_getElem? (src dst : List RingBuffer_Item_t) (i j : Nat) :
    (storeItems dst i src)[j]? =
      if i ≤ j ∧ j < i + src.length ∧ j < dst.length then src[j - i]? else dst[j]? := by
  induction src generalizing dst i with
  | nil =>
    have h : ¬ (i ≤ j ∧ j < i + ([] : List RingBuffer_Item_t).length ∧ j < dst.length) := by
      simp only [List.length_nil]; omega
    rw [if_neg h]; rfl
  | cons x xs ih =>
    simp only [storeItems, ih, List.length_set, List.getElem?_set, List.length_cons]
    by_cases hij : i = j
    · subst hij
      by_cases hl : i < dst.length
      · simp [hl]
      · have : dst[i]? = none := by simp; omega
        simp [hl, this]
    · by_cases h1 : i + 1 ≤ j ∧ j < i + 1 + xs.length ∧ j < dst.length
      · have h2 : i ≤ j ∧ j < i + (xs.length + 1) ∧ j < dst.length := by omega
        have h3 : j - i = (j - (i + 1)) + 1 := by omega
        rw [if_pos h1, if_pos h2, h3, List.getElem?_cons_succ]
      · have h2 : ¬ (i ≤ j ∧ j < i + (xs.length + 1) ∧ j < dst.length) := by omega
        rw [if_neg h1, if_neg h2, if_neg hij]

theorem memcpy_length (dst src : List RingBuffer_Item_t) (d s n : Nat) :
    (memcpy dst d src s n).length = dst.length := by
  simp [memcpy, storeItems_length]

/-- Slot `j` after `memcpy(&dst[d], &src[s], n)`, when the `n` source items exist and the `n`
destination slots exist. -/
theorem memcpy_getElem? (dst src : List RingBuffer_Item_t) (d s n j : Nat)
    (hs : s + n ≤ src.length) (hd : d + n ≤ dst.length) :
    (memcpy dst d src s n)[j]? = if d ≤ j ∧ j < d + n then src[s + (j - d)]? else dst[j]? := by
  have hlen : ((src.drop s).take n).length = n := by
    simp only [List.length_take, List.length_drop]; omega
  rw [memcpy, storeItems_getElem?, hlen]
  by_cases h : d ≤ j ∧ j < d + n
  · have h2 : d ≤ j ∧ j < d + n ∧ j < dst.length := by omega
    rw [if_pos h, if_pos h2, List.getElem?_take, if_pos (by omega), List.getElem?_drop]
  · have h2 : ¬ (d ≤ j ∧ j < d + n ∧ j < dst.length) := by omega
    rw [if_neg h, if_neg h2]

theorem memcpy_zero (dst src : List RingBuffer_Item_t) (d s : Nat) :
    memcpy dst d src s 0 = dst := by
  simp [memcpy, storeItems]

/-! ## Lemmas on the counts -/

theorem valid_data (rb : RingBuffer_t) (hv : valid rb) :
    ∃ st, rb.data = some st ∧ st.length = rb.size := by
  obtain ⟨_, _, _, _, hd⟩ := hv
  cases h : rb.data with
  | none => simp [h] at hd
  | some st => exact ⟨st, rfl, by simpa [h] using hd⟩

theorem mod_wrap (a n : Nat) (h : a < 2 * n) :
    a % n = if n ≤ a then a - n else a := by
  split
  · next hn =>
    rw [Nat.mod_eq_sub_mod hn, Nat.mod_eq_of_lt (by omega)]
  · next hn => exact Nat.mod_eq_of_lt (by omega)

theorem item_count_eq (rb : RingBuffer_t) (hv : valid rb) :
    item_count rb =
      if rb.head ≤ rb.tail then rb.tail - rb.head else rb.tail + rb.size - rb.head := by
  obtain ⟨h2, hN, hh, ht, _⟩ := hv
  simp only [item_count, RingBuffer_enItemCount, Bool.false_and, Bool.false_eq_true, if_false]
  split_ifs <;> simp only [cadd, csub] <;> omega

theorem free_count_eq (rb : RingBuffer_t) (hv : valid rb) :
    free_count rb = rb.size - 1 - item_count rb := by
  rw [item_count_eq rb hv]
  obtain ⟨h2, hN, hh, ht, _⟩ := hv
  simp only [free_count, RingBuffer_enFreeCount, Bool.false_and, Bool.false_eq_true, if_false]
  split_ifs <;> simp only [cadd, csub] <;> omega

theorem RingBuffer_enItemCount_eq (dbg : Bool) (rb : RingBuffer_t) (c : Nat) (hv : valid rb) :
    RingBuffer_enItemCount dbg rb c = ⟨RING_BUFFER_ERROR_NONE, rb, item_count rb⟩ := by
  obtain ⟨st, hst, _⟩ := valid_data rb hv
  simp only [item_count, RingBuffer_enItemCount, hst, Option.isNone_some, Bool.and_false,
    Bool.false_and, Bool.false_eq_true, if_false]
  split_ifs <;> rfl

theorem RingBuffer_enFreeCount_eq (dbg : Bool) (rb : RingBuffer_t) (c : Nat) (hv : valid rb) :
    RingBuffer_enFreeCount dbg rb c = ⟨RING_BUFFER_ERROR_NONE, rb, free_count rb⟩ := by
  obtain ⟨st, hst, _⟩ := valid_data rb hv
  simp only [free_count, RingBuffer_enFreeCount, hst, Option.isNone_some, Bool.and_false,
    Bool.false_and, Bool.false_eq_true, if_false]
  split_ifs <;> rfl

theorem item_count_of_bounds (rb : RingBuffer_t) (hN : rb.size < 4294967296)
    (hh : rb.head < rb.size) (ht : rb.tail < rb.size) :
    item_count rb =
      if rb.head ≤ rb.tail then rb.tail - rb.head else rb.tail + rb.size - rb.head := by
  simp only [item_count, RingBuffer_enItemCount, Bool.false_and, Bool.false_eq_true, if_false]
  split_ifs <;> simp only [cadd, csub] <;> omega

theorem check_of_pos (dbg : Bool) (len : Nat) (hlen : 1 ≤ len) :
    (dbg && decide (len = 0)) = false := by
  have : decide (len = 0) = false := by simp; omega
  rw [this, Bool.and_false]

/-! ## Arithmetic of the wrapping counters -/

theorem MIN_eq_min (a b : Nat) : MIN a b = min a b := by
  unfold MIN; split_ifs <;> omega

theorem csub_eq_sub (a b : Nat) (hb : b ≤ a) (ha : a < 4294967296) : csub a b = a - b := by
  simp only [csub]; omega

theorem cadd_eq_add (a b : Nat) (h : a + b < 4294967296) : cadd a b = a + b := by
  simp only [cadd]; omega

/-- The single conditional subtraction `if (a >= n) a -= n` computes `a mod n` below `2 n`. -/
theorem wrap_eq_mod (a n : Nat) (h : a < 2 * n) (ha : a < 4294967296) :
    (if a ≥ n then csub a n else a) = a % n := by
  rw [mod_wrap a n h]
  by_cases hn : n ≤ a
  · rw [if_pos hn, if_pos hn, csub_eq_sub a n hn ha]
  · rw [if_neg hn, if_neg hn]

theorem sub_min_self (k a : Nat) : k - min a k = k - a := by omega

theorem sub_add_min (k a : Nat) : k - a + min a k = k := by omega

/-- The cursor after a two segment transfer of `k` items from cursor `t`. -/
theorem cursor_after (t k n : Nat) (ht : t < n) (hk : k < n) :
    (if (if k - (n - t) ≠ 0 then k - (n - t) else t + min (n - t) k) ≥ n then 0
      else if k - (n - t) ≠ 0 then k - (n - t) else t + min (n - t) k) = (t + k) % n := by
  rw [mod_wrap (t + k) n (by omega)]
  split_ifs <;> omega

theorem item_count_le (rb : RingBuffer_t) (hv : valid rb) : item_count rb ≤ rb.size - 1 := by
  have hic := item_count_eq rb hv
  obtain ⟨h2, hN, hh, ht, _⟩ := hv
  split_ifs at hic <;> omega

theorem free_count_le (rb : RingBuffer_t) (hv : valid rb) : free_count rb ≤ rb.size - 1 := by
  rw [free_count_eq rb hv]; omega

theorem ite_memcpy (dst src : List RingBuffer_Item_t) (d s n : Nat) :
    (if n ≠ 0 then memcpy dst d src s n else dst) = memcpy dst d src s n := by
  by_cases h : n = 0
  · subst h; rw [if_neg (by simp), memcpy_zero]
  · rw [if_pos h]

theorem ite_some_memcpy (dst src : List RingBuffer_Item_t) (d s n : Nat) :
    (if n ≠ 0 then some (memcpy dst d src s n) else some dst) = some (memcpy dst d src s n) := by
  by_cases h : n = 0
  · subst h; rw [if_neg (by simp), memcpy_zero]
  · rw [if_pos h]

theorem ite_ItemsResult (p : Prop) [Decidable p] (a b : RingBuffer_Error_t) (r : RingBuffer_t)
    (i : List RingBuffer_Item_t) (k : Nat) :
    (if p then (⟨a, r, i, k⟩ : ItemsResult) else ⟨b, r, i, k⟩) = ⟨if p then a else b, r, i, k⟩ := by
  split_ifs <;> rfl

theorem ite_CounterResult (p : Prop) [Decidable p] (a b : RingBuffer_Error_t) (r : RingBuffer_t)
    (k : Nat) :
    (if p then (⟨a, r, k⟩ : CounterResult) else ⟨b, r, k⟩) = ⟨if p then a else b, r, k⟩ := by
  split_ifs <;> rfl

/-! ## Normal forms of the bulk transfers -/

theorem RingBuffer_enPutItems_eq (dbg : Bool) (rb : RingBuffer_t) (st items : List RingBuffer_Item_t)
    (len c : Nat) (hv : valid rb) (hst : rb.data = some st)
    (hchk : (dbg && decide (len = 0)) = false) :
    RingBuffer_enPutItems dbg rb items len c =
      if free_count rb = 0 then ⟨RING_BUFFER_ERROR_FULL, rb, 0⟩
      else
        ⟨if free_count rb < len then RING_BUFFER_ERROR_INSUFFICIENT_ITEMS
          else RING_BUFFER_ERROR_NONE,
         { rb with
           data := some (putStorage st items rb.size rb.tail (min len (free_count rb))),
           tail := (rb.tail + min len (free_count rb)) % rb.size },
         min len (free_count rb)⟩ := by
  unfold putStorage
  have hFC := RingBuffer_enFreeCount_eq dbg rb 0 hv
  have hfb := free_count_le rb hv
  obtain ⟨h2, hN, hh, ht, _⟩ := hv
  unfold RingBuffer_enPutItems
  simp only [hFC, hst, hchk, Option.isNone_some, Bool.and_false, Bool.false_eq_true, if_false,
    Option.map_some']
  by_cases hf : free_count rb = 0
  · rw [if_pos hf, if_pos hf]
  rw [if_neg hf, if_neg hf]
  have hkb : min len (free_count rb) < rb.size := by omega
  clear hf hfb hFC hh h2
  rw [MIN_eq_min]
  generalize min len (free_count rb) = k at hkb
  have e1 : rb.tail ≤ rb.size := by omega
  have e2 : k < 4294967296 := by omega
  have e3 : rb.tail + min (rb.size - rb.tail) k < 4294967296 := by omega
  have e4 : k - (rb.size - rb.tail) + min (rb.size - rb.tail) k < 4294967296 := by omega
  rw [csub_eq_sub _ _ e1 hN, MIN_eq_min, csub_eq_sub _ _ (Nat.min_le_right _ _) e2,
    sub_min_self, ite_some_memcpy, cadd_eq_add _ _ e3, cadd_eq_add _ _ e4, sub_add_min,
    cursor_after _ _ _ ht hkb, ite_CounterResult]

theorem RingBuffer_enGetItems_eq (dbg : Bool) (rb : RingBuffer_t) (st out : List RingBuffer_Item_t)
    (len c : Nat) (hv : valid rb) (hst : rb.data = some st)
    (hchk : (dbg && decide (len = 0)) = false) :
    RingBuffer_enGetItems dbg rb out len c =
      if item_count rb = 0 then ⟨RING_BUFFER_ERROR_EMPTY, rb, out, 0⟩
      else
        ⟨if item_count rb < len then RING_BUFFER_ERROR_INSUFFICIENT_ITEMS
          else RING_BUFFER_ERROR_NONE,
         { rb with head := (rb.head + min len (item_count rb)) % rb.size },
         getOutput out st rb.size rb.head (min len (item_count rb)),
         min len (item_count rb)⟩ := by
  unfold getOutput
  have hIC := RingBuffer_enItemCount_eq dbg rb 0 hv
  have hib := item_count_le rb hv
  obtain ⟨h2, hN, hh, ht, _⟩ := hv
  unfold RingBuffer_enGetItems
  simp only [hIC, hst, hchk, Option.isNone_some, Bool.and_false, Bool.false_eq_true, if_false,
    Option.getD_some]
  by_cases hf : item_count rb = 0
  · rw [if_pos hf, if_pos hf]
  rw [if_neg hf, if_neg hf]
  have hkb : min len (item_count rb) < rb.size := by omega
  clear hf hib hIC ht h2
  rw [MIN_eq_min]
  generalize min len (item_count rb) = k at hkb
  have e1 : rb.head ≤ rb.size := by omega
  have e2 : k < 4294967296 := by omega
  have e3 : rb.head + min (rb.size - rb.head) k < 4294967296 := by omega
  have e4 : k - (rb.size - rb.head) + min (rb.size - rb.head) k < 4294967296 := by omega
  rw [csub_eq_sub _ _ e1 hN, MIN_eq_min, csub_eq_sub _ _ (Nat.min_le_right _ _) e2,
    sub_min_self, ite_memcpy, cadd_eq_add _ _ e3, cadd_eq_add _ _ e4, sub_add_min,
    cursor_after _ _ _ hh hkb, ite_ItemsResult]

/-! ## Storage and contents -/

/-- Slot `j` of the storage after the two segment copy of `put_many`. -/
theorem put_storage_getElem? (st items : List RingBuffer_Item_t) (n t k j : Nat)
    (hst : st.length = n) (ht : t < n) (hk : k < n) (hi : k ≤ items.length) :
    (putStorage st items n t k)[j]? =
      if t ≤ j ∧ j < t + k ∧ j < n then items[j - t]?
      else if j + n < t + k then items[j + n - t]?
      else st[j]? := by
  unfold putStorage
  rw [memcpy_getElem? _ _ _ _ _ _ (by omega) (by rw [memcpy_length]; omega),
    memcpy_getElem? _ _ _ _ _ _ (by omega) (by omega)]
  by_cases h1 : j + n < t + k
  · have e1 : 0 ≤ j ∧ j < 0 + (k - (n - t)) := by omega
    have e2 : ¬ (t ≤ j ∧ j < t + k ∧ j < n) := by omega
    have e3 : min (n - t) k + (j - 0) = j + n - t := by omega
    rw [if_pos e1, if_neg e2, if_pos h1, e3]
  · have e1 : ¬ (0 ≤ j ∧ j < 0 + (k - (n - t))) := by omega
    rw [if_neg e1, if_neg h1]
    by_cases h2 : t ≤ j ∧ j < t + k ∧ j < n
    · have e2 : t ≤ j ∧ j < t + min (n - t) k := by omega
      rw [if_pos e2, if_pos h2, Nat.zero_add]
    · have e2 : ¬ (t ≤ j ∧ j < t + min (n - t) k) := by omega
      rw [if_neg e2, if_neg h2]

/-- Slot `i` of the caller's array after the two segment copy of `get_many`. -/
theorem get_output_getElem? (st out : List RingBuffer_Item_t) (n h k i : Nat)
    (hst : st.length = n) (hh : h < n) (hk : k < n) (ho : k ≤ out.length) :
    (getOutput out st n h k)[i]? =
      if i < k then (if h + i < n then st[h + i]? else st[h + i - n]?) else out[i]? := by
  unfold getOutput
  rw [memcpy_getElem? _ _ _ _ _ _ (by omega) (by rw [memcpy_length]; omega),
    memcpy_getElem? _ _ _ _ _ _ (by omega) (by omega)]
  by_cases h1 : i < k
  · rw [if_pos h1]
    by_cases h2 : h + i < n
    · have e1 : ¬ (min (n - h) k ≤ i ∧ i < min (n - h) k + (k - (n - h))) := by omega
      have e2 : 0 ≤ i ∧ i < 0 + min (n - h) k := by omega
      rw [if_neg e1, if_pos e2, if_pos h2, Nat.sub_zero]
    · have e1 : min (n - h) k ≤ i ∧ i < min (n - h) k + (k - (n - h)) := by omega
      have e3 : 0 + (i - min (n - h) k) = h + i - n := by omega
      rw [if_pos e1, if_neg h2, e3]
  · have e1 : ¬ (min (n - h) k ≤ i ∧ i < min (n - h) k + (k - (n - h))) := by omega
    have e2 : ¬ (0 ≤ i ∧ i < 0 + min (n - h) k) := by omega
    rw [if_neg e1, if_neg e2, if_neg h1]

theorem contents_getElem? (rb : RingBuffer_t) (i : Nat) :
    (contents rb)[i]? =
      if i < item_count rb then some ((rb.data.getD []).getD ((rb.head + i) % rb.size) 0)
      else none := by
  unfold contents
  rw [List.getElem?_map]
  split
  · next h => rw [List.getElem?_range h]; rfl
  · next h =>
    have : (List.range (item_count rb))[i]? = none := by
      rw [List.getElem?_eq_none_iff, List.length_range]; omega
    rw [this]; rfl

theorem contents_length (rb : RingBuffer_t) : (contents rb).length = item_count rb := by
  simp [contents]

theorem putStorage_length (st items : List RingBuffer_Item_t) (n t k : Nat) :
    (putStorage st items n t k).length = st.length := by
  simp [putStorage, memcpy_length]

theorem putStorage_zero (st items : List RingBuffer_Item_t) (n t : Nat) :
    putStorage st items n t 0 = st := by
  simp [putStorage, memcpy_zero]

/-- The count of items after the write cursor moved forward by `k` free slots. -/
theorem count_after_put (n h t k ic : Nat)
    (hic : ic = if h ≤ t then t - h else t + n - h) (hh : h < n) (ht : t < n)
    (hk : ic + k ≤ n - 1) :
    (if h ≤ (t + k) % n then (t + k) % n - h else (t + k) % n + n - h) = ic + k := by
  rw [mod_wrap (t + k) n (by omega)]
  split_ifs at hic ⊢ <;> omega

/-- A readable slot is not in the two segments written by a put. -/
theorem old_slot_untouched (n h t k ic i : Nat)
    (hic : ic = if h ≤ t then t - h else t + n - h) (hh : h < n) (ht : t < n)
    (hk : ic + k ≤ n - 1) (hi : i < ic) :
    ¬ (t ≤ (h + i) % n ∧ (h + i) % n < t + k ∧ (h + i) % n < n) ∧
      ¬ ((h + i) % n + n < t + k) := by
  rw [mod_wrap (h + i) n (by omega)]
  split_ifs at hic ⊢ <;> omega

/-- The slot of logical position `ic + j` is slot `j` of the two segments written by a put. -/
theorem new_slot_written (n h t k ic i : Nat)
    (hic : ic = if h ≤ t then t - h else t + n - h) (hh : h < n) (ht : t < n)
    (hk : ic + k ≤ n - 1) (hi : ic ≤ i) (hi2 : i < ic + k) :
    ((t ≤ (h + i) % n ∧ (h + i) % n < t + k ∧ (h + i) % n < n) ∧ (h + i) % n - t = i - ic) ∨
      (¬ (t ≤ (h + i) % n ∧ (h + i) % n < t + k ∧ (h + i) % n < n) ∧
        (h + i) % n + n < t + k ∧ (h + i) % n + n - t = i - ic) := by
  rw [mod_wrap (h + i) n (by omega)]
  split_ifs at hic ⊢ <;> omega

/-- The logical contents after a put of `k ≤ free_count` items. -/
theorem contents_put (rb : RingBuffer_t) (st items : List RingBuffer_Item_t) (k : Nat)
    (hv : valid rb) (hst : rb.data = some st) (hk2 : k ≤ free_count rb)
    (hk3 : k ≤ items.length) :
    contents { rb with data := some (putStorage st items rb.size rb.tail k),
                       tail := (rb.tail + k) % rb.size } =
      contents rb ++ items.take k := by
  obtain ⟨st', hst', hstl⟩ := valid_data rb hv
  rw [hst] at hst'
  cases hst'
  have hfc := free_count_eq rb hv
  have hic := item_count_eq rb hv
  have hib := item_count_le rb hv
  obtain ⟨h2, hN, hh, ht, _⟩ := hv
  have hsum : item_count rb + k ≤ rb.size - 1 := by omega
  have hkn : k < rb.size := by omega
  have hcnt : item_count
      { rb with data := some (putStorage st items rb.size rb.tail k),
                tail := (rb.tail + k) % rb.size } = item_count rb + k := by
    have hpos : 0 < rb.size := by omega
    rw [item_count_of_bounds
      { rb with data := some (putStorage st items rb.size rb.tail k),
                tail := (rb.tail + k) % rb.size } hN hh (Nat.mod_lt _ hpos)]
    exact count_after_put rb.size rb.head rb.tail k _ hic hh ht hsum
  apply List.ext_getElem?
  intro i
  rw [contents_getElem?, hcnt, List.getElem?_append, contents_getElem?, contents_length]
  simp only [hst, Option.getD_some, List.getD_eq_getElem?_getD]
  by_cases hi : i < item_count rb
  · have hi2 : i < item_count rb + k := by omega
    obtain ⟨e2, e3⟩ := old_slot_untouched rb.size rb.head rb.tail k _ i hic hh ht hsum hi
    rw [if_pos hi2, if_pos hi, if_pos hi,
      put_storage_getElem? st items rb.size rb.tail k _ hstl ht hkn hk3, if_neg e2, if_neg e3]
  · rw [if_neg hi]
    by_cases hi2 : i < item_count rb + k
    · have hi3 : i - item_count rb < k := by omega
      have hil : i - item_count rb < items.length := by omega
      rw [if_pos hi2, put_storage_getElem? st items rb.size rb.tail k _ hstl ht hkn hk3,
        List.getElem?_take, if_pos hi3]
      have hget : items[i - item_count rb]? = some (items[i - item_count rb]?.getD 0) := by
        rw [List.getElem?_eq_getElem hil]; rfl
      rw [hget]
      rcases new_slot_written rb.size rb.head rb.tail k _ i hic hh ht hsum (by omega) hi2 with
        ⟨e2, e3⟩ | ⟨e2, e3, e4⟩
      · rw [if_pos e2, e3]
      · rw [if_neg e2, if_pos e3, e4]
    · have hi3 : ¬ (i - item_count rb < k) := by omega
      rw [if_neg hi2, List.getElem?_take, if_neg hi3]

/-- The first `k ≤ item_count` items of the caller's array after a get of `k` items. -/
theorem output_get (rb : RingBuffer_t) (st out : List RingBuffer_Item_t) (k : Nat)
    (hv : valid rb) (hst : rb.data = some st) (hk2 : k ≤ item_count rb)
    (hk3 : k ≤ out.length) :
    (getOutput out st rb.size rb.head k).take k = (contents rb).take k := by
  obtain ⟨st', hst', hstl⟩ := valid_data rb hv
  rw [hst] at hst'
  cases hst'
  have hic := item_count_eq rb hv
  obtain ⟨h2, hN, hh, ht, _⟩ := hv
  have hib : item_count rb ≤ rb.size - 1 := by split_ifs at hic <;> omega
  apply List.ext_getElem?
  intro i
  rw [List.getElem?_take, List.getElem?_take]
  by_cases hi : i < k
  · have hi2 : i < item_count rb := by omega
    rw [if_pos hi, if_pos hi, contents_getElem?, if_pos hi2]
    simp only [hst, Option.getD_some, List.getD_eq_getElem?_getD]
    rw [get_output_getElem? st out rb.size rb.head k i hstl hh (by omega) hk3, if_pos hi,
      mod_wrap (rb.head + i) rb.size (by omega)]
    by_cases hw : rb.head + i < rb.size
    · have hw2 : ¬ (rb.size ≤ rb.head + i) := by omega
      rw [if_pos hw, if_neg hw2, List.getElem?_eq_getElem (by omega)]; rfl
    · have hw2 : rb.size ≤ rb.head + i := by omega
      rw [if_neg hw, if_pos hw2, List.getElem?_eq_getElem (by omega)]; rfl
  · rw [if_neg hi, if_neg hi]

/-- The logical contents after a get of `k ≤ item_count` items. -/
theorem contents_get (rb : RingBuffer_t) (k : Nat) (hv : valid rb) (hk2 : k ≤ item_count rb) :
    contents { rb with head := (rb.head + k) % rb.size } = (contents rb).drop k := by
  obtain ⟨st, hst, hstl⟩ := valid_data rb hv
  have hic := item_count_eq rb hv
  obtain ⟨h2, hN, hh, ht, _⟩ := hv
  have hib : item_count rb ≤ rb.size - 1 := by split_ifs at hic <;> omega
  have hmod := mod_wrap (rb.head + k) rb.size (by omega)
  have hic' := item_count_of_bounds { rb with head := (rb.head + k) % rb.size } hN
    (Nat.mod_lt _ (by omega)) ht
  have hcnt : item_count { rb with head := (rb.head + k) % rb.size } = item_count rb - k := by
    rw [hic']; simp only [hmod]; split_ifs at hic ⊢ <;> omega
  apply List.ext_getElem?
  intro i
  rw [contents_getElem?, hcnt, List.getElem?_drop, contents_getElem?]
  simp only [hst, Option.getD_some, Nat.mod_add_mod]
  by_cases hi : i < item_count rb - k
  · have hi2 : k + i < item_count rb := by omega
    rw [if_pos hi, if_pos hi2, Nat.add_assoc]
  · have hi2 : ¬ (k + i < item_count rb) := by omega
    rw [if_neg hi, if_neg hi2]

theorem memcpy_one (dst : List RingBuffer_Item_t) (d : Nat) (x : RingBuffer_Item_t) :
    memcpy dst d [x] 0 1 = dst.set d x := rfl

/-- The state after a put of `k ≤ free_count` items is valid. -/
theorem valid_put (rb : RingBuffer_t) (st items : List RingBuffer_Item_t) (k : Nat)
    (hv : valid rb) (hst : rb.data = some st) :
    valid { rb with data := some (putStorage st items rb.size rb.tail k),
                    tail := (rb.tail + k) % rb.size } := by
  obtain ⟨st', hst', hstl⟩ := valid_data rb hv
  rw [hst] at hst'
  cases hst'
  obtain ⟨h2, hN, hh, ht, _⟩ := hv
  refine ⟨h2, hN, hh, Nat.mod_lt _ (by omega), ?_⟩
  simp [putStorage_length, hstl]

/-- The state after a get of `k` items is valid. -/
theorem valid_get (rb : RingBuffer_t) (k : Nat) (hv : valid rb) :
    valid { rb with head := (rb.head + k) % rb.size } := by
  obtain ⟨h2, hN, hh, ht, hd⟩ := hv
  exact ⟨h2, hN, Nat.mod_lt _ (by omega), ht, hd⟩

/-! ## Invariant preservation of the single operations -/

theorem RingBuffer_enInit_valid (dbg : Bool) (rb : RingBuffer_t) (st : List RingBuffer_Item_t)
    (size : Nat) (h2 : 2 ≤ size) (hN : size < 4294967296) (hl : st.length = size) :
    (RingBuffer_enInit dbg rb (some st) size).error = RING_BUFFER_ERROR_NONE ∧
      (RingBuffer_enInit dbg rb (some st) size).ring_buffer = ⟨some st, size, 0, 0⟩ ∧
      valid (RingBuffer_enInit dbg rb (some st) size).ring_buffer := by
  have h2' : decide (size < 2) = false := by simp; omega
  simp only [RingBuffer_enInit, Option.isNone_some, Bool.and_false, Bool.false_eq_true, if_false,
    h2']
  exact ⟨trivial, trivial, h2, hN, by show 0 < size; omega, by show 0 < size; omega,
    by simp [hl]⟩

theorem RingBuffer_enReset_valid (dbg : Bool) (rb : RingBuffer_t) (hv : valid rb) :
    valid (RingBuffer_enReset dbg rb).ring_buffer ∧
      (RingBuffer_enReset dbg rb).ring_buffer.size = rb.size := by
  obtain ⟨st, hst, _⟩ := valid_data rb hv
  obtain ⟨h2, hN, hh, ht, hd⟩ := hv
  have h2' : decide (rb.size < 2) = false := by simp; omega
  simp only [RingBuffer_enReset, RingBuffer_enInit, hst, Option.isNone_some, Bool.and_false,
    Bool.false_eq_true, if_false, h2']
  rw [hst] at hd
  exact ⟨⟨h2, hN, by show 0 < rb.size; omega, by show 0 < rb.size; omega, hd⟩, trivial⟩

theorem RingBuffer_enPutItem_valid (dbg : Bool) (rb : RingBuffer_t) (item : RingBuffer_Item_t)
    (hv : valid rb) :
    valid (RingBuffer_enPutItem dbg rb item).ring_buffer ∧
      (RingBuffer_enPutItem dbg rb item).ring_buffer.size = rb.size := by
  obtain ⟨st, hst, hstl⟩ := valid_data rb hv
  have hv' := hv
  obtain ⟨h2, hN, hh, ht, hd⟩ := hv
  have hadd : cadd rb.tail 1 = rb.tail + 1 := by simp only [cadd]; omega
  unfold RingBuffer_enPutItem
  simp only [hst, Option.isNone_some, Bool.and_false, Bool.false_eq_true, if_false, hadd,
    Option.map_some', memcpy_one]
  split_ifs <;>
    first
    | exact ⟨hv', rfl⟩
    | exact ⟨⟨h2, hN, hh, by dsimp only; omega, by simp [hstl]⟩, rfl⟩

theorem RingBuffer_enGetItem_valid (dbg : Bool) (rb : RingBuffer_t) (item : RingBuffer_Item_t)
    (hv : valid rb) :
    valid (RingBuffer_enGetItem dbg rb item).ring_buffer ∧
      (RingBuffer_enGetItem dbg rb item).ring_buffer.size = rb.size := by
  obtain ⟨st, hst, hstl⟩ := valid_data rb hv
  have hv' := hv
  obtain ⟨h2, hN, hh, ht, hd⟩ := hv
  have hadd : cadd rb.head 1 = rb.head + 1 := by simp only [cadd]; omega
  unfold RingBuffer_enGetItem
  simp only [hst, Option.isNone_some, Bool.and_false, Bool.false_eq_true, if_false, hadd]
  split_ifs <;>
    first
    | exact ⟨hv', rfl⟩
    | exact ⟨⟨h2, hN, by dsimp only; omega, ht, by simp [hst, hstl]⟩, rfl⟩

theorem RingBuffer_enPutItems_valid (dbg : Bool) (rb : RingBuffer_t)
    (items : List RingBuffer_Item_t) (len c : Nat) (hv : valid rb) :
    valid (RingBuffer_enPutItems dbg rb items len c).ring_buffer ∧
      (RingBuffer_enPutItems dbg rb items len c).ring_buffer.size = rb.size := by
  obtain ⟨st, hst, _⟩ := valid_data rb hv
  cases hchk : (dbg && decide (len = 0))
  · rw [RingBuffer_enPutItems_eq dbg rb st items len c hv hst hchk]
    by_cases hf : free_count rb = 0
    · rw [if_pos hf]; exact ⟨hv, rfl⟩
    · rw [if_neg hf]; exact ⟨valid_put rb st items _ hv hst, rfl⟩
  · unfold RingBuffer_enPutItems
    rw [if_neg (by simp [hst]), if_pos hchk]
    exact ⟨hv, rfl⟩

theorem RingBuffer_enGetItems_valid (dbg : Bool) (rb : RingBuffer_t)
    (out : List RingBuffer_Item_t) (len c : Nat) (hv : valid rb) :
    valid (RingBuffer_enGetItems dbg rb out len c).ring_buffer ∧
      (RingBuffer_enGetItems dbg rb out len c).ring_buffer.size = rb.size := by
  obtain ⟨st, hst, _⟩ := valid_data rb hv
  cases hchk : (dbg && decide (len = 0))
  · rw [RingBuffer_enGetItems_eq dbg rb st out len c hv hst hchk]
    by_cases hf : item_count rb = 0
    · rw [if_pos hf]; exact ⟨hv, rfl⟩
    · rw [if_neg hf]; exact ⟨valid_get rb _ hv, rfl⟩
  · unfold RingBuffer_enGetItems
    rw [if_neg (by simp [hst]), if_pos hchk]
    exact ⟨hv, rfl⟩

theorem RingBuffer_enPeekItems_ring_buffer (dbg : Bool) (rb : RingBuffer_t)
    (out : List RingBuffer_Item_t) (len offset c : Nat) (hv : valid rb) :
    (RingBuffer_enPeekItems dbg rb out len offset c).ring_buffer = rb := by
  unfold RingBuffer_enPeekItems
  simp only [RingBuffer_enItemCount_eq dbg rb 0 hv]
  split_ifs <;> rfl

theorem RingBuffer_enSkipItems_valid (dbg : Bool) (rb : RingBuffer_t) (skip_count c : Nat)
    (hv : valid rb) :
    valid (RingBuffer_enSkipItems dbg rb skip_count c).ring_buffer ∧
      (RingBuffer_enSkipItems dbg rb skip_count c).ring_buffer.size = rb.size := by
  have hic := item_count_eq rb hv
  have hIC := RingBuffer_enItemCount_eq dbg rb 0 hv
  have hv' := hv
  obtain ⟨h2, hN, hh, ht, hd⟩ := hv
  have hib : item_count rb ≤ rb.size - 1 := by split_ifs at hic <;> omega
  have hhead : (if cadd rb.head (MIN (item_count rb) skip_count) ≥ rb.size
      then csub (cadd rb.head (MIN (item_count rb) skip_count)) rb.size
      else cadd rb.head (MIN (item_count rb) skip_count)) < rb.size := by
    simp only [MIN, cadd, csub]
    split_ifs <;> omega
  unfold RingBuffer_enSkipItems
  simp only [hIC]
  by_cases c1 : (dbg && rb.data.isNone) = true
  · rw [if_pos c1]; exact ⟨hv', rfl⟩
  rw [if_neg c1]
  by_cases c2 : (dbg && decide (skip_count = 0)) = true
  · rw [if_pos c2]; exact ⟨hv', rfl⟩
  rw [if_neg c2]
  by_cases c3 : item_count rb = 0
  · rw [if_pos c3]; exact ⟨hv', rfl⟩
  rw [if_neg c3]
  by_cases c4 : MIN (item_count rb) skip_count ≠ skip_count
  · rw [if_pos c4]; exact ⟨⟨h2, hN, hhead, ht, hd⟩, rfl⟩
  · rw [if_neg c4]; exact ⟨⟨h2, hN, hhead, ht, hd⟩, rfl⟩

/-- Function `RingBuffer_enAdvance` keeps the invariants when the requested count fits the free
slots. -/
theorem RingBuffer_enAdvance_valid (dbg : Bool) (rb : RingBuffer_t) (advance_count c : Nat)
    (hv : valid rb) (hle : advance_count ≤ free_count rb) :
    valid (RingBuffer_enAdvance dbg rb advance_count c).ring_buffer ∧
      (RingBuffer_enAdvance dbg rb advance_count c).ring_buffer.size = rb.size := by
  have hic := item_count_eq rb hv
  have hfc := free_count_eq rb hv
  have hFC := RingBuffer_enFreeCount_eq dbg rb 0 hv
  have hv' := hv
  obtain ⟨h2, hN, hh, ht, hd⟩ := hv
  have htail : (if cadd rb.tail advance_count ≥ rb.size
      then csub (cadd rb.tail advance_count) rb.size
      else cadd rb.tail advance_count) < rb.size := by
    simp only [cadd, csub]
    split_ifs <;> omega
  unfold RingBuffer_enAdvance
  simp only [hFC]
  by_cases c1 : (dbg && rb.data.isNone) = true
  · rw [if_pos c1]; exact ⟨hv', rfl⟩
  rw [if_neg c1]
  by_cases c2 : (dbg && decide (advance_count = 0)) = true
  · rw [if_pos c2]; exact ⟨hv', rfl⟩
  rw [if_neg c2]
  by_cases c3 : free_count rb = 0
  · rw [if_pos c3]; exact ⟨hv', rfl⟩
  rw [if_neg c3]
  by_cases c4 : MIN (free_count rb) advance_count ≠ advance_count
  · rw [if_pos c4]; exact ⟨⟨h2, hN, hh, htail, hd⟩, rfl⟩
  · rw [if_neg c4]; exact ⟨⟨h2, hN, hh, htail, hd⟩, rfl⟩


/-! ## Claims -/

/-- C1: for every valid state, every `len ≥ 1` and every input array of at least `len` items,
the logical contents after `RingBuffer_enPutItems` are the old logical contents followed by
the first `min len free_count` input items in their order, wrap around included. -/
theorem putItems_contents (dbg : Bool) (rb : RingBuffer_t) (items : List RingBuffer_Item_t)
    (len c : Nat) (hv : valid rb) (hlen : 1 ≤ len) (hitems : len ≤ items.length) :
    contents (RingBuffer_enPutItems dbg rb items len c).ring_buffer =
      contents rb ++ items.take (min len (free_count rb)) := by
  obtain ⟨st, hst, _⟩ := valid_data rb hv
  rw [RingBuffer_enPutItems_eq dbg rb st items len c hv hst (check_of_pos dbg len hlen)]
  by_cases hf : free_count rb = 0
  · simp [hf]
  · rw [if_neg hf]
    exact contents_put rb st items _ hv hst (by omega) (by omega)

/-- Witness of C1: a put of three items into a five slot buffer holding two items, with two free
slots, split across the end of the storage. -/
theorem putItems_contents_witness :
    valid ⟨some [0, 0, 5, 6, 0], 5, 2, 4⟩ ∧ 1 ≤ 3 ∧ 3 ≤ [7, 8, 9].length ∧
    contents (RingBuffer_enPutItems true ⟨some [0, 0, 5, 6, 0], 5, 2, 4⟩ [7, 8, 9] 3 0).ring_buffer =
      contents ⟨some [0, 0, 5, 6, 0], 5, 2, 4⟩ ++
        [7, 8, 9].take (min 3 (free_count ⟨some [0, 0, 5, 6, 0], 5, 2, 4⟩)) :=
  ⟨by decide, by decide, by decide,
    putItems_contents true ⟨some [0, 0, 5, 6, 0], 5, 2, 4⟩ [7, 8, 9] 3 0
      (by decide) (by decide) (by decide)⟩

/-- C2: for every valid state and every `len ≥ 1`, `RingBuffer_enGetItems` writes to the output
the first `k = min len item_count` items of the logical contents, oldest first, and the
logical contents afterwards are the old contents without their first `k` items, wrap around
included. -/
theorem getItems_contents (dbg : Bool) (rb : RingBuffer_t) (out : List RingBuffer_Item_t)
    (len c : Nat) (hv : valid rb) (hlen : 1 ≤ len) (hout : len ≤ out.length) :
    (RingBuffer_enGetItems dbg rb out len c).items.take (min len (item_count rb)) =
        (contents rb).take (min len (item_count rb)) ∧
      contents (RingBuffer_enGetItems dbg rb out len c).ring_buffer =
        (contents rb).drop (min len (item_count rb)) := by
  obtain ⟨st, hst, _⟩ := valid_data rb hv
  rw [RingBuffer_enGetItems_eq dbg rb st out len c hv hst (check_of_pos dbg len hlen)]
  by_cases hf : item_count rb = 0
  · simp [hf]
  · rw [if_neg hf]
    exact ⟨output_get rb st out _ hv hst (by omega) (by omega), contents_get rb _ hv (by omega)⟩

/-- Witness of C2: a read of four items from a five slot buffer whose three items wrap past the
end of the storage. -/
theorem getItems_contents_witness :
    valid ⟨some [7, 0, 0, 5, 6], 5, 3, 1⟩ ∧ 1 ≤ 4 ∧ 4 ≤ [0, 0, 0, 0].length ∧
    (RingBuffer_enGetItems true ⟨some [7, 0, 0, 5, 6], 5, 3, 1⟩ [0, 0, 0, 0] 4 0).items.take
        (min 4 (item_count ⟨some [7, 0, 0, 5, 6], 5, 3, 1⟩)) =
        (contents ⟨some [7, 0, 0, 5, 6], 5, 3, 1⟩).take
          (min 4 (item_count ⟨some [7, 0, 0, 5, 6], 5, 3, 1⟩)) ∧
      contents (RingBuffer_enGetItems true ⟨some [7, 0, 0, 5, 6], 5, 3, 1⟩ [0, 0, 0, 0] 4 0).ring_buffer =
        (contents ⟨some [7, 0, 0, 5, 6], 5, 3, 1⟩).drop
          (min 4 (item_count ⟨some [7, 0, 0, 5, 6], 5, 3, 1⟩)) :=
  ⟨by decide, by decide, by decide,
    getItems_contents true ⟨some [7, 0, 0, 5, 6], 5, 3, 1⟩ [0, 0, 0, 0] 4 0
      (by decide) (by decide) (by decide)⟩

/-- C3 (failing input): on the valid ten slot instance with `head = 0`, `tail = 5`, a call of
`RingBuffer_enAdvance` with count 20 leaves `tail = 15`, which is not below the capacity: the
resulting state is not valid. -/
theorem advance_breaks_valid :
    valid ⟨some (List.replicate 10 0), 10, 0, 5⟩ ∧
    (RingBuffer_enAdvance true ⟨some (List.replicate 10 0), 10, 0, 5⟩ 20 0).ring_buffer.size = 10 ∧
    (RingBuffer_enAdvance true ⟨some (List.replicate 10 0), 10, 0, 5⟩ 20 0).ring_buffer.tail = 15 ∧
    ¬ valid (RingBuffer_enAdvance true ⟨some (List.replicate 10 0), 10, 0, 5⟩ 20 0).ring_buffer := by
  decide

/-- C4 (failing input): on the valid ten slot instance with `head = 0`, `tail = 5` and four free
slots, `RingBuffer_enAdvance` with count 6 reports 4 with `INSUFFICIENT_ITEMS` but sets
`tail` to `1 = (5 + 6) mod 10`, whereas `(tail + min count free_count) mod N` and the tail
after `RingBuffer_enPutItems` with `len = 6` are both `9`. -/
theorem advance_tail_not_clamped :
    valid ⟨some (List.replicate 10 0), 10, 0, 5⟩ ∧
    free_count ⟨some (List.replicate 10 0), 10, 0, 5⟩ = 4 ∧
    (RingBuffer_enAdvance true ⟨some (List.replicate 10 0), 10, 0, 5⟩ 6 0).counter = 4 ∧
    (RingBuffer_enAdvance true ⟨some (List.replicate 10 0), 10, 0, 5⟩ 6 0).error =
      RING_BUFFER_ERROR_INSUFFICIENT_ITEMS ∧
    (RingBuffer_enAdvance true ⟨some (List.replicate 10 0), 10, 0, 5⟩ 6 0).ring_buffer.tail = 1 ∧
    (5 + min 6 (free_count ⟨some (List.replicate 10 0), 10, 0, 5⟩)) % 10 = 9 ∧
    (RingBuffer_enPutItems true ⟨some (List.replicate 10 0), 10, 0, 5⟩
      [1, 2, 3, 4, 5, 6] 6 0).ring_buffer.tail = 9 := by
  decide

/-- C5: there is a valid state and a count greater than `free_count` for which
`RingBuffer_enAdvance` moves the write cursor by the requested count (modulo the capacity)
and not by the number of free slots, reports the clamped value `min count free_count`, and
leaves a state that breaks the invariants: `item_count` is not the old `item_count` plus the
reported amount, or `tail` is not below the capacity. -/
theorem advance_unclamped_exists :
    ∃ (rb : RingBuffer_t) (count : Nat),
      valid rb ∧ count < 4294967296 ∧ free_count rb < count ∧
      (RingBuffer_enAdvance true rb count 0).ring_buffer.tail = (rb.tail + count) % rb.size ∧
      (RingBuffer_enAdvance true rb count 0).ring_buffer.tail ≠
        (rb.tail + free_count rb) % rb.size ∧
      (RingBuffer_enAdvance true rb count 0).counter = min count (free_count rb) ∧
      (item_count (RingBuffer_enAdvance true rb count 0).ring_buffer ≠
          item_count rb + (RingBuffer_enAdvance true rb count 0).counter ∨
        rb.size ≤ (RingBuffer_enAdvance true rb count 0).ring_buffer.tail) :=
  ⟨⟨some (List.replicate 10 0), 10, 0, 5⟩, 6, by decide⟩

/-- C6: capacity conservation: for every valid state the values stored by
`RingBuffer_enItemCount` and `RingBuffer_enFreeCount` add up to `N - 1`. -/
theorem capacity_conservation (dbg : Bool) (rb : RingBuffer_t) (c₁ c₂ : Nat) (hv : valid rb) :
    (RingBuffer_enItemCount dbg rb c₁).counter + (RingBuffer_enFreeCount dbg rb c₂).counter =
      rb.size - 1 := by
  rw [RingBuffer_enItemCount_eq dbg rb c₁ hv, RingBuffer_enFreeCount_eq dbg rb c₂ hv]
  have hfc := free_count_eq rb hv
  have hic := item_count_eq rb hv
  obtain ⟨h2, hN, hh, ht, _⟩ := hv
  show item_count rb + free_count rb = rb.size - 1
  split_ifs at hic <;> omega

/-- Witness of C6: a ten slot buffer with `head = 7`, `tail = 2` has 5 items and 4 free slots. -/
theorem capacity_conservation_witness :
    valid ⟨some (List.replicate 10 0), 10, 7, 2⟩ ∧
    (RingBuffer_enItemCount true ⟨some (List.replicate 10 0), 10, 7, 2⟩ 0).counter +
      (RingBuffer_enFreeCount true ⟨some (List.replicate 10 0), 10, 7, 2⟩ 0).counter = 10 - 1 :=
  ⟨by decide, capacity_conservation true ⟨some (List.replicate 10 0), 10, 7, 2⟩ 0 0 (by decide)⟩

/-- C7 (counterexample): in the valid four slot buffer holding the item 5 (`head = 0`,
`tail = 1`, two free slots), putting the one item 7 and then getting one item yields 5, not 7,
and leaves `(head, tail) = (1, 2)`, not `(0, 1)`; from the empty four slot buffer the item got
is the item put, yet `(head, tail)` ends at `(1, 1)`, not at `(0, 0)`. -/
theorem put_then_get_not_restoring :
    (valid ⟨some [5, 0, 0, 0], 4, 0, 1⟩ ∧ 1 ≤ free_count ⟨some [5, 0, 0, 0], 4, 0, 1⟩ ∧
      (RingBuffer_enGetItems true
        (RingBuffer_enPutItems true ⟨some [5, 0, 0, 0], 4, 0, 1⟩ [7] 1 0).ring_buffer
        [0] 1 0).items = [5] ∧
      (RingBuffer_enGetItems true
        (RingBuffer_enPutItems true ⟨some [5, 0, 0, 0], 4, 0, 1⟩ [7] 1 0).ring_buffer
        [0] 1 0).items.take 1 ≠ [7].take 1 ∧
      (RingBuffer_enGetItems true
        (RingBuffer_enPutItems true ⟨some [5, 0, 0, 0], 4, 0, 1⟩ [7] 1 0).ring_buffer
        [0] 1 0).ring_buffer.head = 1 ∧
      (RingBuffer_enGetItems true
        (RingBuffer_enPutItems true ⟨some [5, 0, 0, 0], 4, 0, 1⟩ [7] 1 0).ring_buffer
        [0] 1 0).ring_buffer.tail = 2) ∧
    (valid ⟨some [0, 0, 0, 0], 4, 0, 0⟩ ∧ 1 ≤ free_count ⟨some [0, 0, 0, 0], 4, 0, 0⟩ ∧
      (RingBuffer_enGetItems true
        (RingBuffer_enPutItems true ⟨some [0, 0, 0, 0], 4, 0, 0⟩ [7] 1 0).ring_buffer
        [0] 1 0).items = [7] ∧
      ¬ ((RingBuffer_enGetItems true
          (RingBuffer_enPutItems true ⟨some [0, 0, 0, 0], 4, 0, 0⟩ [7] 1 0).ring_buffer
          [0] 1 0).ring_buffer.head = 0 ∧
        (RingBuffer_enGetItems true
          (RingBuffer_enPutItems true ⟨some [0, 0, 0, 0], 4, 0, 0⟩ [7] 1 0).ring_buffer
          [0] 1 0).ring_buffer.tail = 0)) := by
  decide

/-- C7 (amended): for every valid state and every `k` with `1 ≤ k ≤ free_count`, putting `k`
items with `RingBuffer_enPutItems` and then getting `k` items with `RingBuffer_enGetItems`
both return `NONE` with count `k`; the `k` items got are the first `k` items of the old
logical contents followed by the items put, hence exactly the items put, in their order, when
the buffer was empty before the put; afterwards `head` and `tail` are both moved forward by
`k` modulo `N`, the logical contents are the remaining items of that sequence and
`item_count` is back to its value before the put. -/
theorem put_then_get (dbg : Bool) (rb : RingBuffer_t) (items out : List RingBuffer_Item_t)
    (k c c' : Nat) (hv : valid rb) (hk1 : 1 ≤ k) (hk2 : k ≤ free_count rb)
    (hitems : k ≤ items.length) (hout : k ≤ out.length) :
    (RingBuffer_enPutItems dbg rb items k c).error = RING_BUFFER_ERROR_NONE ∧
    (RingBuffer_enPutItems dbg rb items k c).counter = k ∧
    (RingBuffer_enGetItems dbg (RingBuffer_enPutItems dbg rb items k c).ring_buffer
      out k c').error = RING_BUFFER_ERROR_NONE ∧
    (RingBuffer_enGetItems dbg (RingBuffer_enPutItems dbg rb items k c).ring_buffer
      out k c').counter = k ∧
    (RingBuffer_enGetItems dbg (RingBuffer_enPutItems dbg rb items k c).ring_buffer
      out k c').items.take k = (contents rb ++ items.take k).take k ∧
    (item_count rb = 0 →
      (RingBuffer_enGetItems dbg (RingBuffer_enPutItems dbg rb items k c).ring_buffer
        out k c').items.take k = items.take k) ∧
    (RingBuffer_enGetItems dbg (RingBuffer_enPutItems dbg rb items k c).ring_buffer
      out k c').ring_buffer.head = (rb.head + k) % rb.size ∧
    (RingBuffer_enGetItems dbg (RingBuffer_enPutItems dbg rb items k c).ring_buffer
      out k c').ring_buffer.tail = (rb.tail + k) % rb.size ∧
    contents (RingBuffer_enGetItems dbg (RingBuffer_enPutItems dbg rb items k c).ring_buffer
      out k c').ring_buffer = (contents rb ++ items.take k).drop k ∧
    item_count (RingBuffer_enGetItems dbg (RingBuffer_enPutItems dbg rb items k c).ring_buffer
      out k c').ring_buffer = item_count rb := by
  obtain ⟨st, hst, _⟩ := valid_data rb hv
  have hchk := check_of_pos dbg k hk1
  have hf : free_count rb ≠ 0 := by omega
  have hmin : min k (free_count rb) = k := by omega
  have hnlt : ¬ free_count rb < k := by omega
  have hp : RingBuffer_enPutItems dbg rb items k c =
      ⟨RING_BUFFER_ERROR_NONE,
       { rb with data := some (putStorage st items rb.size rb.tail k),
                 tail := (rb.tail + k) % rb.size }, k⟩ := by
    rw [RingBuffer_enPutItems_eq dbg rb st items k c hv hst hchk, if_neg hf, hmin, if_neg hnlt]
  have hv1 := valid_put rb st items k hv hst
  have hc1 := contents_put rb st items k hv hst hk2 hitems
  rw [hp]
  generalize hrb1 : ({ rb with data := some (putStorage st items rb.size rb.tail k),
                               tail := (rb.tail + k) % rb.size } : RingBuffer_t) = rb1
    at hv1 hc1
  have hd1 : rb1.data = some (putStorage st items rb.size rb.tail k) := by rw [← hrb1]
  have hs1 : rb1.size = rb.size := by rw [← hrb1]
  have hh1 : rb1.head = rb.head := by rw [← hrb1]
  have ht1 : rb1.tail = (rb.tail + k) % rb.size := by rw [← hrb1]
  have hl1 : item_count rb1 = item_count rb + k := by
    have := congrArg List.length hc1
    rw [contents_length, List.length_append, contents_length, List.length_take] at this
    omega
  have hf1 : item_count rb1 ≠ 0 := by omega
  have hmin1 : min k (item_count rb1) = k := by omega
  have hnlt1 : ¬ item_count rb1 < k := by omega
  have hg : RingBuffer_enGetItems dbg rb1 out k c' =
      ⟨RING_BUFFER_ERROR_NONE, { rb1 with head := (rb1.head + k) % rb1.size },
       getOutput out (putStorage st items rb.size rb.tail k) rb1.size rb1.head k, k⟩ := by
    rw [RingBuffer_enGetItems_eq dbg rb1 _ out k c' hv1 hd1 hchk, if_neg hf1, hmin1,
      if_neg hnlt1]
  have ho := output_get rb1 _ out k hv1 hd1 (by omega) hout
  have hc2 := contents_get rb1 k hv1 (by omega)
  rw [hg]
  refine ⟨rfl, rfl, rfl, rfl, ?_, ?_, ?_, ?_, ?_, ?_⟩
  · show (getOutput out _ rb1.size rb1.head k).take k = _
    rw [ho, hc1]
  · intro h0
    show (getOutput out _ rb1.size rb1.head k).take k = _
    have hnil : contents rb = [] := List.eq_nil_of_length_eq_zero (by rw [contents_length, h0])
    rw [ho, hc1, hnil, List.nil_append, List.take_take, Nat.min_self]
  · show (rb1.head + k) % rb1.size = _
    rw [hh1, hs1]
  · show rb1.tail = _
    exact ht1
  · show contents { rb1 with head := (rb1.head + k) % rb1.size } = _
    rw [hc2, hc1]
  · show item_count { rb1 with head := (rb1.head + k) % rb1.size } = _
    rw [← contents_length, hc2, List.length_drop, contents_length, hl1]
    omega

/-- Witness of C7 (amended): two items put into and two items got from a five slot buffer
that holds one item and whose write cursor wraps. -/
theorem put_then_get_witness :
    valid ⟨some [0, 0, 0, 5, 0], 5, 3, 4⟩ ∧ 1 ≤ 2 ∧ 2 ≤ free_count ⟨some [0, 0, 0, 5, 0], 5, 3, 4⟩ ∧
    (RingBuffer_enGetItems true
      (RingBuffer_enPutItems true ⟨some [0, 0, 0, 5, 0], 5, 3, 4⟩ [7, 8] 2 0).ring_buffer
      [0, 0] 2 0).items.take 2 = (contents ⟨some [0, 0, 0, 5, 0], 5, 3, 4⟩ ++ [7, 8].take 2).take 2 ∧
    (RingBuffer_enGetItems true
      (RingBuffer_enPutItems true ⟨some [0, 0, 0, 5, 0], 5, 3, 4⟩ [7, 8] 2 0).ring_buffer
      [0, 0] 2 0).ring_buffer.head = (3 + 2) % 5 ∧
    (RingBuffer_enGetItems true
      (RingBuffer_enPutItems true ⟨some [0, 0, 0, 5, 0], 5, 3, 4⟩ [7, 8] 2 0).ring_buffer
      [0, 0] 2 0).ring_buffer.tail = (4 + 2) % 5 :=
  ⟨by decide, by decide, by decide,
    (put_then_get true ⟨some [0, 0, 0, 5, 0], 5, 3, 4⟩ [7, 8] [0, 0] 2 0 0
      (by decide) (by decide) (by decide) (by decide) (by decide)).2.2.2.2.1,
    (put_then_get true ⟨some [0, 0, 0, 5, 0], 5, 3, 4⟩ [7, 8] [0, 0] 2 0 0
      (by decide) (by decide) (by decide) (by decide) (by decide)).2.2.2.2.2.2.1,
    (put_then_get true ⟨some [0, 0, 0, 5, 0], 5, 3, 4⟩ [7, 8] [0, 0] 2 0 0
      (by decide) (by decide) (by decide) (by decide) (by decide)).2.2.2.2.2.2.2.1⟩

/-- C8: for every valid state and item, `RingBuffer_enPutItem` returns `FULL` exactly when
`(tail + 1) mod N = head`, and then leaves the instance unchanged; otherwise it returns `NONE`,
stores the item in slot `tail`, sets `tail` to `(tail + 1) mod N` and leaves `head` and the
capacity unchanged. -/
theorem putItem_spec (dbg : Bool) (rb : RingBuffer_t) (item : RingBuffer_Item_t)
    (hv : valid rb) :
    ((RingBuffer_enPutItem dbg rb item).error = RING_BUFFER_ERROR_FULL ↔
        (rb.tail + 1) % rb.size = rb.head) ∧
      ((rb.tail + 1) % rb.size = rb.head →
        (RingBuffer_enPutItem dbg rb item).error = RING_BUFFER_ERROR_FULL ∧
        (RingBuffer_enPutItem dbg rb item).ring_buffer = rb) ∧
      ((rb.tail + 1) % rb.size ≠ rb.head →
        (RingBuffer_enPutItem dbg rb item).error = RING_BUFFER_ERROR_NONE ∧
        (RingBuffer_enPutItem dbg rb item).ring_buffer.data =
          rb.data.map (fun st => st.set rb.tail item) ∧
        (RingBuffer_enPutItem dbg rb item).ring_buffer.tail = (rb.tail + 1) % rb.size ∧
        (RingBuffer_enPutItem dbg rb item).ring_buffer.head = rb.head ∧
        (RingBuffer_enPutItem dbg rb item).ring_buffer.size = rb.size) := by
  obtain ⟨st, hst, _⟩ := valid_data rb hv
  obtain ⟨h2, hN, hh, ht, _⟩ := hv
  have hadd : cadd rb.tail 1 = rb.tail + 1 := by simp only [cadd]; omega
  have hnext : (if rb.tail + 1 = rb.size then 0 else rb.tail + 1) = (rb.tail + 1) % rb.size := by
    rw [mod_wrap (rb.tail + 1) rb.size (by omega)]; split_ifs <;> omega
  unfold RingBuffer_enPutItem
  simp only [hst, Option.isNone_some, Bool.and_false, Bool.false_eq_true, if_false, hadd, hnext,
    Option.map_some', memcpy_one]
  by_cases h : (rb.tail + 1) % rb.size = rb.head
  · simp [h]
  · simp [h]

/-- Witness of C8: a put into a four slot buffer whose write cursor wraps from slot 3 to 0. -/
theorem putItem_spec_witness :
    valid ⟨some [0, 5, 6, 0], 4, 1, 3⟩ ∧
    ((RingBuffer_enPutItem true ⟨some [0, 5, 6, 0], 4, 1, 3⟩ 7).error = RING_BUFFER_ERROR_NONE ∧
      (RingBuffer_enPutItem true ⟨some [0, 5, 6, 0], 4, 1, 3⟩ 7).ring_buffer.data =
        some [0, 5, 6, 7] ∧
      (RingBuffer_enPutItem true ⟨some [0, 5, 6, 0], 4, 1, 3⟩ 7).ring_buffer.tail = 0 ∧
      (RingBuffer_enPutItem true ⟨some [0, 5, 6, 0], 4, 1, 3⟩ 7).ring_buffer.head = 1 ∧
      (RingBuffer_enPutItem true ⟨some [0, 5, 6, 0], 4, 1, 3⟩ 7).ring_buffer.size = 4) :=
  ⟨by decide,
    (putItem_spec true ⟨some [0, 5, 6, 0], 4, 1, 3⟩ 7 (by decide)).2.2 (by decide)⟩

/-- C9: for every valid state, `RingBuffer_enGetItem` returns `EMPTY` exactly when
`head = tail`, and then leaves the instance and the caller's item unchanged; otherwise it
returns `NONE`, outputs the item stored at slot `head`, which is the oldest item, sets `head` to
`(head + 1) mod N` and leaves `tail`, the capacity and the storage unchanged. -/
theorem getItem_spec (dbg : Bool) (rb : RingBuffer_t) (item : RingBuffer_Item_t)
    (hv : valid rb) :
    ((RingBuffer_enGetItem dbg rb item).error = RING_BUFFER_ERROR_EMPTY ↔ rb.head = rb.tail) ∧
      (rb.head = rb.tail →
        (RingBuffer_enGetItem dbg rb item).error = RING_BUFFER_ERROR_EMPTY ∧
        (RingBuffer_enGetItem dbg rb item).ring_buffer = rb ∧
        (RingBuffer_enGetItem dbg rb item).item = item) ∧
      (rb.head ≠ rb.tail →
        (RingBuffer_enGetItem dbg rb item).error = RING_BUFFER_ERROR_NONE ∧
        (RingBuffer_enGetItem dbg rb item).item = (rb.data.getD []).getD rb.head 0 ∧
        (contents rb)[0]? = some (RingBuffer_enGetItem dbg rb item).item ∧
        (RingBuffer_enGetItem dbg rb item).ring_buffer.head = (rb.head + 1) % rb.size ∧
        (RingBuffer_enGetItem dbg rb item).ring_buffer.tail = rb.tail ∧
        (RingBuffer_enGetItem dbg rb item).ring_buffer.size = rb.size ∧
        (RingBuffer_enGetItem dbg rb item).ring_buffer.data = rb.data) := by
  obtain ⟨st, hst, hstl⟩ := valid_data rb hv
  have hic := item_count_eq rb hv
  obtain ⟨h2, hN, hh, ht, _⟩ := hv
  have hadd : cadd rb.head 1 = rb.head + 1 := by simp only [cadd]; omega
  have hnext : (if rb.head + 1 = rb.size then 0 else rb.head + 1) = (rb.head + 1) % rb.size := by
    rw [mod_wrap (rb.head + 1) rb.size (by omega)]; split_ifs <;> omega
  have hcopy : (memcpy [item] 0 st rb.head 1).headD item = st.getD rb.head 0 := by
    have h0 := memcpy_getElem? [item] st 0 rb.head 1 0 (by omega) (by simp)
    have hl := memcpy_length [item] st 0 rb.head 1
    have hc : 0 ≤ 0 ∧ 0 < 0 + 1 := by omega
    rw [if_pos hc] at h0
    rw [List.getD_eq_getElem?_getD]
    cases hm : memcpy [item] 0 st rb.head 1 with
    | nil => rw [hm] at hl; simp at hl
    | cons x xs =>
      rw [hm] at h0
      simp only [List.getElem?_cons_zero, Nat.sub_self, Nat.add_zero] at h0
      rw [← h0]; rfl
  unfold RingBuffer_enGetItem
  simp only [hst, Option.isNone_some, Bool.and_false, Bool.false_eq_true, if_false, hadd, hnext,
    Option.getD_some, hcopy]
  by_cases h : rb.head = rb.tail
  · simp [h]
  · have hpos : 0 < item_count rb := by split_ifs at hic <;> omega
    have hc := contents_getElem? rb 0
    rw [if_pos hpos, hst, Option.getD_some, Nat.add_zero, Nat.mod_eq_of_lt hh] at hc
    simp [h, hc, hst]

/-- Witness of C9: a get from a four slot buffer whose read cursor wraps from slot 3 to 0. -/
theorem getItem_spec_witness :
    valid ⟨some [8, 0, 0, 7], 4, 3, 1⟩ ∧
    ((RingBuffer_enGetItem true ⟨some [8, 0, 0, 7], 4, 3, 1⟩ 0).error = RING_BUFFER_ERROR_NONE ∧
      (RingBuffer_enGetItem true ⟨some [8, 0, 0, 7], 4, 3, 1⟩ 0).item =
        ((some [8, 0, 0, 7] : Option (List RingBuffer_Item_t)).getD []).getD 3 0 ∧
      (contents ⟨some [8, 0, 0, 7], 4, 3, 1⟩)[0]? =
        some (RingBuffer_enGetItem true ⟨some [8, 0, 0, 7], 4, 3, 1⟩ 0).item ∧
      (RingBuffer_enGetItem true ⟨some [8, 0, 0, 7], 4, 3, 1⟩ 0).ring_buffer.head = (3 + 1) % 4 ∧
      (RingBuffer_enGetItem true ⟨some [8, 0, 0, 7], 4, 3, 1⟩ 0).ring_buffer.tail = 1 ∧
      (RingBuffer_enGetItem true ⟨some [8, 0, 0, 7], 4, 3, 1⟩ 0).ring_buffer.size = 4 ∧
      (RingBuffer_enGetItem true ⟨some [8, 0, 0, 7], 4, 3, 1⟩ 0).ring_buffer.data =
        some [8, 0, 0, 7]) :=
  ⟨by decide,
    (getItem_spec true ⟨some [8, 0, 0, 7], 4, 3, 1⟩ 0 (by decide)).2.2 (by decide)⟩

/-- C10: for every valid state and `len ≥ 1`, `RingBuffer_enPutItems` reports
`count = min len free_count`, sets `tail` to `(tail + count) mod N` and leaves `head`
unchanged; its status is `FULL` when `free_count = 0` (count 0, nothing changed),
`INSUFFICIENT_ITEMS` when `0 < free_count < len`, and `NONE` when `len ≤ free_count`. -/
theorem putItems_report (dbg : Bool) (rb : RingBuffer_t) (items : List RingBuffer_Item_t)
    (len c : Nat) (hv : valid rb) (hlen : 1 ≤ len) :
    (RingBuffer_enPutItems dbg rb items len c).counter = min len (free_count rb) ∧
      (RingBuffer_enPutItems dbg rb items len c).ring_buffer.tail =
        (rb.tail + (RingBuffer_enPutItems dbg rb items len c).counter) % rb.size ∧
      (RingBuffer_enPutItems dbg rb items len c).ring_buffer.head = rb.head ∧
      (free_count rb = 0 →
        (RingBuffer_enPutItems dbg rb items len c).error = RING_BUFFER_ERROR_FULL ∧
        (RingBuffer_enPutItems dbg rb items len c).counter = 0 ∧
        (RingBuffer_enPutItems dbg rb items len c).ring_buffer = rb) ∧
      (0 < free_count rb ∧ free_count rb < len →
        (RingBuffer_enPutItems dbg rb items len c).error =
          RING_BUFFER_ERROR_INSUFFICIENT_ITEMS) ∧
      (len ≤ free_count rb →
        (RingBuffer_enPutItems dbg rb items len c).error = RING_BUFFER_ERROR_NONE) := by
  obtain ⟨st, hst, _⟩ := valid_data rb hv
  rw [RingBuffer_enPutItems_eq dbg rb st items len c hv hst (check_of_pos dbg len hlen)]
  obtain ⟨h2, hN, hh, ht, _⟩ := hv
  by_cases hf : free_count rb = 0
  · rw [if_pos hf]
    refine ⟨by rw [hf, Nat.min_zero], ?_, rfl, fun _ => ⟨rfl, rfl, rfl⟩, ?_, ?_⟩
    · exact (Nat.mod_eq_of_lt ht).symm
    · intro h; omega
    · intro h; omega
  · rw [if_neg hf]
    refine ⟨rfl, rfl, rfl, fun h => absurd h hf, ?_, ?_⟩
    · intro h; exact if_pos h.2
    · intro h; exact if_neg (by omega)

/-- Witness of C10: capacity 10 with 3 free slots and `len = 5`: count 3, the transfer is
committed across the end of the storage and the status is `INSUFFICIENT_ITEMS`. -/
theorem putItems_report_witness :
    valid ⟨some (List.replicate 10 0), 10, 2, 8⟩ ∧ 1 ≤ 5 ∧
    (0 < free_count ⟨some (List.replicate 10 0), 10, 2, 8⟩ ∧
      free_count ⟨some (List.replicate 10 0), 10, 2, 8⟩ < 5) ∧
    (RingBuffer_enPutItems true ⟨some (List.replicate 10 0), 10, 2, 8⟩ [1, 2, 3, 4, 5] 5 0).counter =
      min 5 (free_count ⟨some (List.replicate 10 0), 10, 2, 8⟩) ∧
    (RingBuffer_enPutItems true ⟨some (List.replicate 10 0), 10, 2, 8⟩ [1, 2, 3, 4, 5] 5 0).error =
      RING_BUFFER_ERROR_INSUFFICIENT_ITEMS :=
  ⟨by decide, by decide, by decide,
    (putItems_report true ⟨some (List.replicate 10 0), 10, 2, 8⟩ [1, 2, 3, 4, 5] 5 0
      (by decide) (by decide)).1,
    (putItems_report true ⟨some (List.replicate 10 0), 10, 2, 8⟩ [1, 2, 3, 4, 5] 5 0
      (by decide) (by decide)).2.2.2.2.1 (by decide)⟩

/-! ## Normal forms and lemmas for peek, skip and the block read queries -/

/-- Normal form of `RingBuffer_enSkipItems` on a valid instance when `head + k` does not wrap in
32 bits. -/
theorem RingBuffer_enSkipItems_eq (dbg : Bool) (rb : RingBuffer_t) (n c : Nat) (hv : valid rb)
    (hchk : (dbg && decide (n = 0)) = false)
    (hno : rb.head + min n (item_count rb) < 4294967296) :
    RingBuffer_enSkipItems dbg rb n c =
      if item_count rb = 0 then ⟨RING_BUFFER_ERROR_EMPTY, rb, 0⟩
      else
        ⟨if item_count rb < n then RING_BUFFER_ERROR_INSUFFICIENT_ITEMS
          else RING_BUFFER_ERROR_NONE,
         { rb with head := (rb.head + min n (item_count rb)) % rb.size },
         min n (item_count rb)⟩ := by
  have hic := item_count_eq rb hv
  have hIC := RingBuffer_enItemCount_eq dbg rb 0 hv
  obtain ⟨st, hst, _⟩ := valid_data rb hv
  obtain ⟨h2, hN, hh, ht, _⟩ := hv
  have hib : item_count rb ≤ rb.size - 1 := by split_ifs at hic <;> omega
  unfold RingBuffer_enSkipItems
  simp only [hIC, hst, hchk, Option.isNone_some, Bool.and_false, Bool.false_eq_true, if_false]
  by_cases hf : item_count rb = 0
  · simp only [hf, if_true]
  · simp only [hf, if_false]
    have hMIN : MIN (item_count rb) n = min n (item_count rb) := by
      unfold MIN; split_ifs <;> omega
    rw [hMIN]
    generalize hk : min n (item_count rb) = k at hno
    have hadd : cadd rb.head k = rb.head + k := by simp only [cadd]; omega
    have hmod := mod_wrap (rb.head + k) rb.size (by omega)
    have hhd : (if rb.head + k ≥ rb.size then csub (rb.head + k) rb.size else rb.head + k) =
        (rb.head + k) % rb.size := by
      rw [hmod]; simp only [csub]; split_ifs <;> omega
    rw [hadd, hhd]
    by_cases hlt : item_count rb < n
    · have hne : k ≠ n := by omega
      rw [if_pos hne, if_pos hlt]
    · have hne : ¬ (k ≠ n) := by omega
      rw [if_neg hne, if_neg hlt]

/-- Normal form of `RingBuffer_enPeekItems` on a valid instance when `head + offset` does not
wrap in 32 bits. -/
theorem RingBuffer_enPeekItems_eq (dbg : Bool) (rb : RingBuffer_t)
    (st out : List RingBuffer_Item_t) (len offset c : Nat) (hv : valid rb)
    (hst : rb.data = some st) (hchk : (dbg && decide (len = 0)) = false)
    (hno : offset < item_count rb → rb.head + offset < 4294967296) :
    RingBuffer_enPeekItems dbg rb out len offset c =
      if rb.head = rb.tail then ⟨RING_BUFFER_ERROR_EMPTY, rb, out, 0⟩
      else if item_count rb ≤ offset then ⟨RING_BUFFER_ERROR_INSUFFICIENT_ITEMS, rb, out, 0⟩
      else
        ⟨if item_count rb - offset < len then RING_BUFFER_ERROR_INSUFFICIENT_ITEMS
          else RING_BUFFER_ERROR_NONE,
         rb,
         getOutput out st rb.size ((rb.head + offset) % rb.size)
           (min (item_count rb - offset) len),
         min (item_count rb - offset) len⟩ := by
  unfold getOutput
  have hIC := RingBuffer_enItemCount_eq dbg rb 0 hv
  have hib := item_count_le rb hv
  obtain ⟨h2, hN, hh, ht, _⟩ := hv
  unfold RingBuffer_enPeekItems
  simp only [hIC, hst, hchk, Option.isNone_some, Bool.and_false, Bool.false_eq_true, if_false,
    Option.getD_some]
  by_cases he : rb.head = rb.tail
  · rw [if_pos he, if_pos he]
  rw [if_neg he, if_neg he]
  by_cases ho : item_count rb ≤ offset
  · have ho' : offset ≥ item_count rb := ho
    rw [if_pos ho', if_pos ho]
  have ho' : ¬ (offset ≥ item_count rb) := ho
  rw [if_neg ho', if_neg ho]
  have hno' := hno (by omega)
  have e1 : item_count rb < 4294967296 := by omega
  have e2 : offset ≤ item_count rb := by omega
  have e3 : rb.head + offset < 2 * rb.size := by omega
  rw [csub_eq_sub _ _ e2 e1, MIN_eq_min, cadd_eq_add _ _ hno', wrap_eq_mod _ _ e3 hno']
  have hlt : (rb.head + offset) % rb.size < rb.size := Nat.mod_lt _ (by omega)
  have hkb : min (item_count rb - offset) len < 4294967296 := by omega
  clear hno hno' e1 e2 e3 ho ho' he hib hIC hh ht h2
  generalize min (item_count rb - offset) len = k at hkb
  generalize (rb.head + offset) % rb.size = H at hlt
  have e4 : H ≤ rb.size := by omega
  have e5 : k - (rb.size - H) + min (rb.size - H) k < 4294967296 := by omega
  rw [csub_eq_sub _ _ e4 hN, MIN_eq_min, csub_eq_sub _ _ (Nat.min_le_right _ _) hkb,
    sub_min_self, ite_memcpy, cadd_eq_add _ _ e5, sub_add_min, ite_ItemsResult]

/-- Repeating a pair of stores changes nothing. -/
theorem storeItems_pair_idem (dst s₁ s₂ : List RingBuffer_Item_t) (i₁ i₂ : Nat) :
    storeItems (storeItems (storeItems (storeItems dst i₁ s₁) i₂ s₂) i₁ s₁) i₂ s₂ =
      storeItems (storeItems dst i₁ s₁) i₂ s₂ := by
  apply List.ext_getElem?
  intro j
  simp only [storeItems_getElem?, storeItems_length]
  split_ifs <;> rfl

/-- The form of every result of `RingBuffer_enPeekItems` on a valid instance: the instance is
returned as it was, and either the caller's array and counter are left as they were, or the
counter is set and the array receives two stores that do not depend on its old contents. -/
theorem RingBuffer_enPeekItems_shape (dbg : Bool) (rb : RingBuffer_t) (len offset : Nat)
    (hv : valid rb) :
    (∃ e, ∀ out c, RingBuffer_enPeekItems dbg rb out len offset c = ⟨e, rb, out, c⟩) ∨
    (∃ e k s₁ s₂ r, ∀ out c, RingBuffer_enPeekItems dbg rb out len offset c =
      ⟨e, rb, storeItems (storeItems out 0 s₁) r s₂, k⟩) := by
  have hIC := RingBuffer_enItemCount_eq dbg rb 0 hv
  by_cases c1 : (dbg && rb.data.isNone) = true
  · left
    exact ⟨_, fun out c => by unfold RingBuffer_enPeekItems; rw [if_pos c1]⟩
  by_cases c2 : (dbg && decide (len = 0)) = true
  · left
    exact ⟨_, fun out c => by unfold RingBuffer_enPeekItems; rw [if_neg c1, if_pos c2]⟩
  right
  by_cases c3 : rb.head = rb.tail
  · exact ⟨RING_BUFFER_ERROR_EMPTY, 0, [], [], 0, fun out c => by
      unfold RingBuffer_enPeekItems
      rw [if_neg c1, if_neg c2]
      simp only [hIC]
      rw [if_pos c3]
      rfl⟩
  by_cases c4 : offset ≥ item_count rb
  · exact ⟨RING_BUFFER_ERROR_INSUFFICIENT_ITEMS, 0, [], [], 0, fun out c => by
      unfold RingBuffer_enPeekItems
      rw [if_neg c1, if_neg c2]
      simp only [hIC]
      rw [if_neg c3, if_pos c4]
      rfl⟩
  have key : ∀ out c, RingBuffer_enPeekItems dbg rb out len offset c =
      ⟨if csub (item_count rb) offset < len then RING_BUFFER_ERROR_INSUFFICIENT_ITEMS
        else RING_BUFFER_ERROR_NONE,
       rb,
       (if csub (MIN (csub (item_count rb) offset) len)
            (MIN (csub rb.size (if cadd rb.head offset ≥ rb.size
                then csub (cadd rb.head offset) rb.size else cadd rb.head offset))
              (MIN (csub (item_count rb) offset) len)) ≠ 0 then
          memcpy
            (memcpy out 0 (rb.data.getD [])
              (if cadd rb.head offset ≥ rb.size
                then csub (cadd rb.head offset) rb.size else cadd rb.head offset)
              (MIN (csub rb.size (if cadd rb.head offset ≥ rb.size
                  then csub (cadd rb.head offset) rb.size else cadd rb.head offset))
                (MIN (csub (item_count rb) offset) len)))
            (MIN (csub rb.size (if cadd rb.head offset ≥ rb.size
                then csub (cadd rb.head offset) rb.size else cadd rb.head offset))
              (MIN (csub (item_count rb) offset) len))
            (rb.data.getD []) 0
            (csub (MIN (csub (item_count rb) offset) len)
              (MIN (csub rb.size (if cadd rb.head offset ≥ rb.size
                  then csub (cadd rb.head offset) rb.size else cadd rb.head offset))
                (MIN (csub (item_count rb) offset) len)))
        else
          memcpy out 0 (rb.data.getD [])
            (if cadd rb.head offset ≥ rb.size
              then csub (cadd rb.head offset) rb.size else cadd rb.head offset)
            (MIN (csub rb.size (if cadd rb.head offset ≥ rb.size
                then csub (cadd rb.head offset) rb.size else cadd rb.head offset))
              (MIN (csub (item_count rb) offset) len))),
       cadd
         (csub (MIN (csub (item_count rb) offset) len)
           (MIN (csub rb.size (if cadd rb.head offset ≥ rb.size
               then csub (cadd rb.head offset) rb.size else cadd rb.head offset))
             (MIN (csub (item_count rb) offset) len)))
         (MIN (csub rb.size (if cadd rb.head offset ≥ rb.size
             then csub (cadd rb.head offset) rb.size else cadd rb.head offset))
           (MIN (csub (item_count rb) offset) len))⟩ := by
    intro out c
    unfold RingBuffer_enPeekItems
    rw [if_neg c1, if_neg c2]
    simp only [hIC]
    rw [if_neg c3, if_neg c4]
    split_ifs <;> rfl
  by_cases c5 : csub (MIN (csub (item_count rb) offset) len)
      (MIN (csub rb.size (if cadd rb.head offset ≥ rb.size
          then csub (cadd rb.head offset) rb.size else cadd rb.head offset))
        (MIN (csub (item_count rb) offset) len)) ≠ 0
  · exact ⟨_, _, _, _, _, fun out c => by rw [key out c, if_pos c5]; rfl⟩
  · exact ⟨_, _, _, [], 0, fun out c => by rw [key out c, if_neg c5]; rfl⟩

/-- A call of `RingBuffer_enPeekItems` on its own outputs returns them again. -/
theorem RingBuffer_enPeekItems_fixed (dbg : Bool) (rb : RingBuffer_t)
    (out : List RingBuffer_Item_t) (len offset c : Nat) (hv : valid rb) :
    RingBuffer_enPeekItems dbg rb (RingBuffer_enPeekItems dbg rb out len offset c).items
        len offset (RingBuffer_enPeekItems dbg rb out len offset c).counter =
      RingBuffer_enPeekItems dbg rb out len offset c := by
  rcases RingBuffer_enPeekItems_shape dbg rb len offset hv with ⟨e, h⟩ | ⟨e, k, s₁, s₂, r, h⟩
  · rw [h out c]
    exact h out c
  · rw [h out c]
    show RingBuffer_enPeekItems dbg rb (storeItems (storeItems out 0 s₁) r s₂) len offset k = _
    rw [h, storeItems_pair_idem]

/-- The read cursor moved forward by all the items reaches the write cursor. -/
theorem head_add_item_count (rb : RingBuffer_t) (hv : valid rb) :
    (rb.head + item_count rb) % rb.size = rb.tail := by
  have hic := item_count_eq rb hv
  obtain ⟨h2, hN, hh, ht, _⟩ := hv
  have hib : item_count rb ≤ rb.size - 1 := by split_ifs at hic <;> omega
  rw [mod_wrap _ _ (by omega)]
  split_ifs at hic ⊢ <;> omega

/-- The result of `RingBuffer_enIsFull` on a valid instance. -/
theorem RingBuffer_enIsFull_eq (dbg : Bool) (rb : RingBuffer_t) (c : Nat) (hv : valid rb) :
    RingBuffer_enIsFull dbg rb c =
      ⟨RING_BUFFER_ERROR_NONE, rb, if item_count rb = rb.size - 1 then 1 else 0⟩ := by
  have hIC := RingBuffer_enItemCount_eq dbg rb 0 hv
  obtain ⟨st, hst, _⟩ := valid_data rb hv
  obtain ⟨h2, hN, hh, ht, _⟩ := hv
  have hsub : csub rb.size 1 = rb.size - 1 := by simp only [csub]; omega
  unfold RingBuffer_enIsFull
  simp only [hIC, hst, Option.isNone_some, Bool.and_false, Bool.false_eq_true, if_false, hsub]

/-- The instance of capacity `2 ^ 32 - 1` whose slot 0 holds `x` and whose other slots hold 0
is valid for all cursors below the capacity. -/
theorem valid_big (h t : Nat) (x : RingBuffer_Item_t) (hh : h < 4294967295)
    (ht : t < 4294967295) :
    valid ⟨some (x :: List.replicate 4294967294 0), 4294967295, h, t⟩ :=
  ⟨by show 2 ≤ 4294967295; omega, by show 4294967295 < 4294967296; omega, hh, ht, by
    rw [Option.map_some', List.length_cons, List.length_replicate]⟩

/-- The items and the status of `RingBuffer_enPeekItems` when `offset < item_count` and
`head + offset` does not wrap in 32 bits: output item `i` is `storage[(head + offset + i) mod N]`,
the logical item at position `offset + i`. -/
theorem peek_items_no_wrap (dbg : Bool) (rb : RingBuffer_t) (st out : List RingBuffer_Item_t)
    (len offset c : Nat) (hv : valid rb) (hst : rb.data = some st) (hlen : 1 ≤ len)
    (hoff : offset < item_count rb) (hno : rb.head + offset < 4294967296)
    (hout : min (item_count rb - offset) len ≤ out.length) :
    (RingBuffer_enPeekItems dbg rb out len offset c).counter = min (item_count rb - offset) len ∧
      (∀ i, i < min (item_count rb - offset) len →
        (RingBuffer_enPeekItems dbg rb out len offset c).items[i]? =
          some (st.getD ((rb.head + offset + i) % rb.size) 0)) ∧
      (∀ i, i < min (item_count rb - offset) len →
        (RingBuffer_enPeekItems dbg rb out len offset c).items[i]? =
          (contents rb)[offset + i]?) ∧
      (len ≤ item_count rb - offset →
        (RingBuffer_enPeekItems dbg rb out len offset c).error = RING_BUFFER_ERROR_NONE) ∧
      (item_count rb - offset < len →
        (RingBuffer_enPeekItems dbg rb out len offset c).error =
          RING_BUFFER_ERROR_INSUFFICIENT_ITEMS) := by
  obtain ⟨st', hst', hstl⟩ := valid_data rb hv
  rw [hst] at hst'
  cases hst'
  have hic := item_count_eq rb hv
  rw [RingBuffer_enPeekItems_eq dbg rb st out len offset c hv hst (check_of_pos dbg len hlen)
    (fun _ => hno)]
  obtain ⟨h2, hN, hh, ht, _⟩ := hv
  have hib : item_count rb ≤ rb.size - 1 := by split_ifs at hic <;> omega
  have hne : rb.head ≠ rb.tail := by
    intro h; rw [h] at hic; simp at hic; omega
  rw [if_neg hne, if_neg (by omega)]
  have hlt : (rb.head + offset) % rb.size < rb.size := Nat.mod_lt _ (by omega)
  have hitem : ∀ i, i < min (item_count rb - offset) len →
      (getOutput out st rb.size ((rb.head + offset) % rb.size)
        (min (item_count rb - offset) len))[i]? =
        some (st.getD ((rb.head + offset + i) % rb.size) 0) := by
    intro i hi
    rw [get_output_getElem? st out rb.size _ _ i hstl hlt (by omega) hout, if_pos hi,
      ← Nat.mod_add_mod (rb.head + offset) rb.size i,
      mod_wrap ((rb.head + offset) % rb.size + i) rb.size (by omega),
      List.getD_eq_getElem?_getD]
    by_cases hw : (rb.head + offset) % rb.size + i < rb.size
    · have hw2 : ¬ (rb.size ≤ (rb.head + offset) % rb.size + i) := by omega
      rw [if_pos hw, if_neg hw2, List.getElem?_eq_getElem (by omega)]; rfl
    · have hw2 : rb.size ≤ (rb.head + offset) % rb.size + i := by omega
      rw [if_neg hw, if_pos hw2, List.getElem?_eq_getElem (by omega)]; rfl
  refine ⟨rfl, hitem, ?_, ?_, ?_⟩
  · intro i hi
    have hi2 : offset + i < item_count rb := by omega
    rw [contents_getElem?, if_pos hi2, hst, Option.getD_some, ← Nat.add_assoc]
    exact hitem i hi
  · intro h; exact if_neg (by omega)
  · intro h; exact if_pos h

/-- When `head + k` does not wrap in 32 bits, `RingBuffer_enSkipItems` and
`RingBuffer_enGetItems` leave the same instance and report the same count and status. -/
theorem skip_eq_getItems_no_wrap (dbg : Bool) (rb : RingBuffer_t)
    (out : List RingBuffer_Item_t) (n c c' : Nat) (hv : valid rb) (hn : 1 ≤ n)
    (hno : rb.head + min n (item_count rb) < 4294967296) :
    (RingBuffer_enSkipItems dbg rb n c).ring_buffer =
        (RingBuffer_enGetItems dbg rb out n c').ring_buffer ∧
      (RingBuffer_enSkipItems dbg rb n c).counter =
        (RingBuffer_enGetItems dbg rb out n c').counter ∧
      (RingBuffer_enSkipItems dbg rb n c).error =
        (RingBuffer_enGetItems dbg rb out n c').error := by
  obtain ⟨st, hst, _⟩ := valid_data rb hv
  rw [RingBuffer_enSkipItems_eq dbg rb n c hv (check_of_pos dbg n hn) hno,
    RingBuffer_enGetItems_eq dbg rb st out n c' hv hst (check_of_pos dbg n hn)]
  by_cases hf : item_count rb = 0
  · rw [if_pos hf, if_pos hf]; exact ⟨rfl, rfl, rfl⟩
  · rw [if_neg hf, if_neg hf]; exact ⟨rfl, rfl, rfl⟩

/-- The results of the two block read queries on a valid instance. -/
theorem RingBuffer_enBlockRead_eq (dbg : Bool) (rb : RingBuffer_t) (a c : Nat) (hv : valid rb) :
    RingBuffer_enBlockReadAddress dbg rb a = ⟨RING_BUFFER_ERROR_NONE, rb, rb.head⟩ ∧
      RingBuffer_enBlockReadCount dbg rb c =
        ⟨RING_BUFFER_ERROR_NONE, rb,
          if rb.head < rb.tail then rb.tail - rb.head
          else if rb.head > rb.tail then rb.size - rb.head else 0⟩ := by
  obtain ⟨st, hst, _⟩ := valid_data rb hv
  obtain ⟨h2, hN, hh, ht, _⟩ := hv
  refine ⟨?_, ?_⟩
  · simp only [RingBuffer_enBlockReadAddress, hst, Option.isNone_some, Bool.and_false,
      Bool.false_eq_true, if_false]
  · simp only [RingBuffer_enBlockReadCount, hst, Option.isNone_some, Bool.and_false,
      Bool.false_eq_true, if_false]
    by_cases h1 : rb.head < rb.tail
    · have e : csub rb.tail rb.head = rb.tail - rb.head := by simp only [csub]; omega
      rw [if_pos h1, if_pos h1, e]
    · rw [if_neg h1, if_neg h1]
      by_cases h3 : rb.head > rb.tail
      · have e : csub rb.size rb.head = rb.size - rb.head := by simp only [csub]; omega
        rw [if_pos h3, if_pos h3, e]
      · rw [if_neg h3, if_neg h3]

/-- A skip or a get of zero items on an empty valid instance leaves the instance as it was. -/
theorem zero_request_of_empty (dbg : Bool) (rb : RingBuffer_t) (out : List RingBuffer_Item_t)
    (c c' : Nat) (hv : valid rb) (h0 : item_count rb = 0) :
    (RingBuffer_enSkipItems dbg rb 0 c).ring_buffer = rb ∧
      (RingBuffer_enGetItems dbg rb out 0 c').ring_buffer = rb := by
  obtain ⟨st, hst, _⟩ := valid_data rb hv
  cases dbg
  · rw [RingBuffer_enSkipItems_eq false rb 0 c hv rfl (by
        obtain ⟨_, hN, hh, _, _⟩ := hv; omega),
      RingBuffer_enGetItems_eq false rb st out 0 c' hv hst rfl, if_pos h0, if_pos h0]
    exact ⟨rfl, rfl⟩
  · refine ⟨?_, ?_⟩
    · unfold RingBuffer_enSkipItems
      rw [if_neg (by simp [hst]), if_pos (by simp)]
    · unfold RingBuffer_enGetItems
      rw [if_neg (by simp [hst]), if_pos (by simp)]

/-! ## Claims on get_many, peek, skip and block read -/

/-- C11: for every valid state and `len ≥ 1`, `RingBuffer_enGetItems` reports
`count = min len item_count`, sets `head` to `(head + count) mod N` and leaves `tail`, the
capacity and the storage unchanged; its status is `EMPTY` when `item_count = 0` (count 0,
nothing changed), `INSUFFICIENT_ITEMS` when `0 < item_count < len`, and `NONE` when
`len ≤ item_count`; a request of exactly `item_count` items leaves `head = tail`. -/
theorem getItems_report (dbg : Bool) (rb : RingBuffer_t) (out : List RingBuffer_Item_t)
    (len c : Nat) (hv : valid rb) (hlen : 1 ≤ len) :
    (RingBuffer_enGetItems dbg rb out len c).counter = min len (item_count rb) ∧
      (RingBuffer_enGetItems dbg rb out len c).ring_buffer.head =
        (rb.head + (RingBuffer_enGetItems dbg rb out len c).counter) % rb.size ∧
      (RingBuffer_enGetItems dbg rb out len c).ring_buffer.tail = rb.tail ∧
      (RingBuffer_enGetItems dbg rb out len c).ring_buffer.size = rb.size ∧
      (RingBuffer_enGetItems dbg rb out len c).ring_buffer.data = rb.data ∧
      (item_count rb = 0 →
        (RingBuffer_enGetItems dbg rb out len c).error = RING_BUFFER_ERROR_EMPTY ∧
        (RingBuffer_enGetItems dbg rb out len c).counter = 0 ∧
        (RingBuffer_enGetItems dbg rb out len c).ring_buffer = rb ∧
        (RingBuffer_enGetItems dbg rb out len c).items = out) ∧
      (0 < item_count rb ∧ item_count rb < len →
        (RingBuffer_enGetItems dbg rb out len c).error =
          RING_BUFFER_ERROR_INSUFFICIENT_ITEMS) ∧
      (len ≤ item_count rb →
        (RingBuffer_enGetItems dbg rb out len c).error = RING_BUFFER_ERROR_NONE) ∧
      (len = item_count rb →
        (RingBuffer_enGetItems dbg rb out len c).ring_buffer.head =
          (RingBuffer_enGetItems dbg rb out len c).ring_buffer.tail) := by
  obtain ⟨st, hst, _⟩ := valid_data rb hv
  have hwrap := head_add_item_count rb hv
  rw [RingBuffer_enGetItems_eq dbg rb st out len c hv hst (check_of_pos dbg len hlen)]
  obtain ⟨h2, hN, hh, ht, _⟩ := hv
  by_cases hf : item_count rb = 0
  · rw [if_pos hf]
    refine ⟨by rw [hf, Nat.min_zero], ?_, rfl, rfl, rfl, fun _ => ⟨rfl, rfl, rfl, rfl⟩, ?_, ?_, ?_⟩
    · exact (Nat.mod_eq_of_lt hh).symm
    · intro h; omega
    · intro h; omega
    · intro h; omega
  · rw [if_neg hf]
    refine ⟨rfl, rfl, rfl, rfl, rfl, fun h => absurd h hf, ?_, ?_, ?_⟩
    · intro h; exact if_pos h.2
    · intro h; exact if_neg (by omega)
    · intro h
      show (rb.head + min len (item_count rb)) % rb.size = rb.tail
      rw [h, Nat.min_self, hwrap]

/-- Witness of C11: a read of exactly the three items of a five slot buffer that wrap past the
end of the storage. -/
theorem getItems_report_witness :
    valid ⟨some [7, 0, 0, 5, 6], 5, 3, 1⟩ ∧ 1 ≤ 3 ∧
    3 = item_count ⟨some [7, 0, 0, 5, 6], 5, 3, 1⟩ ∧
    (RingBuffer_enGetItems true ⟨some [7, 0, 0, 5, 6], 5, 3, 1⟩ [0, 0, 0] 3 0).counter =
      min 3 (item_count ⟨some [7, 0, 0, 5, 6], 5, 3, 1⟩) ∧
    (RingBuffer_enGetItems true ⟨some [7, 0, 0, 5, 6], 5, 3, 1⟩ [0, 0, 0] 3 0).error =
      RING_BUFFER_ERROR_NONE ∧
    (RingBuffer_enGetItems true ⟨some [7, 0, 0, 5, 6], 5, 3, 1⟩ [0, 0, 0] 3 0).ring_buffer.head =
      (RingBuffer_enGetItems true ⟨some [7, 0, 0, 5, 6], 5, 3, 1⟩ [0, 0, 0] 3 0).ring_buffer.tail :=
  ⟨by decide, by decide, by decide,
    (getItems_report true ⟨some [7, 0, 0, 5, 6], 5, 3, 1⟩ [0, 0, 0] 3 0
      (by decide) (by decide)).1,
    (getItems_report true ⟨some [7, 0, 0, 5, 6], 5, 3, 1⟩ [0, 0, 0] 3 0
      (by decide) (by decide)).2.2.2.2.2.2.2.1 (by decide),
    (getItems_report true ⟨some [7, 0, 0, 5, 6], 5, 3, 1⟩ [0, 0, 0] 3 0
      (by decide) (by decide)).2.2.2.2.2.2.2.2 (by decide)⟩

/-- C12: partial bulk transfer: for every valid state with `0 < free_count < len`,
`RingBuffer_enPutItems` of `len` items reports the count `free_count` with status
`INSUFFICIENT_ITEMS`, and `RingBuffer_enIsFull` then answers true. -/
theorem putItems_partial (dbg : Bool) (rb : RingBuffer_t) (items : List RingBuffer_Item_t)
    (len c c' : Nat) (hv : valid rb) (hfree : 0 < free_count rb) (hlt : free_count rb < len) :
    (RingBuffer_enPutItems dbg rb items len c).counter = free_count rb ∧
      (RingBuffer_enPutItems dbg rb items len c).error = RING_BUFFER_ERROR_INSUFFICIENT_ITEMS ∧
      (RingBuffer_enIsFull dbg (RingBuffer_enPutItems dbg rb items len c).ring_buffer c').error =
        RING_BUFFER_ERROR_NONE ∧
      (RingBuffer_enIsFull dbg (RingBuffer_enPutItems dbg rb items len c).ring_buffer c').counter =
        1 := by
  obtain ⟨st, hst, _⟩ := valid_data rb hv
  have hfc := free_count_eq rb hv
  have hic := item_count_eq rb hv
  have hmin : min len (free_count rb) = free_count rb := by omega
  have hf : free_count rb ≠ 0 := by omega
  rw [RingBuffer_enPutItems_eq dbg rb st items len c hv hst (check_of_pos dbg len (by omega)),
    if_neg hf, hmin, if_pos hlt]
  have hv1 := valid_put rb st items (free_count rb) hv hst
  rw [RingBuffer_enIsFull_eq dbg _ c' hv1]
  have hib := item_count_le rb hv
  obtain ⟨h2, hN, hh, ht, _⟩ := hv
  have hpos : 0 < rb.size := by omega
  have hsum : item_count rb + free_count rb ≤ rb.size - 1 := by omega
  have hcnt : item_count
      { rb with data := some (putStorage st items rb.size rb.tail (free_count rb)),
                tail := (rb.tail + free_count rb) % rb.size } = rb.size - 1 := by
    rw [item_count_of_bounds
      { rb with data := some (putStorage st items rb.size rb.tail (free_count rb)),
                tail := (rb.tail + free_count rb) % rb.size } hN hh (Nat.mod_lt _ hpos)]
    have h := count_after_put rb.size rb.head rb.tail (free_count rb) _ hic hh ht hsum
    exact h.trans (by omega)
  refine ⟨rfl, rfl, rfl, ?_⟩
  show (if item_count _ = rb.size - 1 then 1 else 0) = 1
  rw [if_pos hcnt]

/-- Witness of C12: capacity 10 with 3 free slots and `len = 5` gives count 3. -/
theorem putItems_partial_witness :
    valid ⟨some (List.replicate 10 0), 10, 2, 8⟩ ∧
    0 < free_count ⟨some (List.replicate 10 0), 10, 2, 8⟩ ∧
    free_count ⟨some (List.replicate 10 0), 10, 2, 8⟩ < 5 ∧
    free_count ⟨some (List.replicate 10 0), 10, 2, 8⟩ = 3 ∧
    ((RingBuffer_enPutItems true ⟨some (List.replicate 10 0), 10, 2, 8⟩
        [1, 2, 3, 4, 5] 5 0).counter = free_count ⟨some (List.replicate 10 0), 10, 2, 8⟩ ∧
      (RingBuffer_enPutItems true ⟨some (List.replicate 10 0), 10, 2, 8⟩
        [1, 2, 3, 4, 5] 5 0).error = RING_BUFFER_ERROR_INSUFFICIENT_ITEMS ∧
      (RingBuffer_enIsFull true (RingBuffer_enPutItems true ⟨some (List.replicate 10 0), 10, 2, 8⟩
        [1, 2, 3, 4, 5] 5 0).ring_buffer 0).error = RING_BUFFER_ERROR_NONE ∧
      (RingBuffer_enIsFull true (RingBuffer_enPutItems true ⟨some (List.replicate 10 0), 10, 2, 8⟩
        [1, 2, 3, 4, 5] 5 0).ring_buffer 0).counter = 1) :=
  ⟨by decide, by decide, by decide, by decide,
    putItems_partial true ⟨some (List.replicate 10 0), 10, 2, 8⟩ [1, 2, 3, 4, 5] 5 0 0
      (by decide) (by decide) (by decide)⟩

/-- C13: peek idempotence: for every valid state and every `len` and `offset`,
`RingBuffer_enPeekItems` returns the instance as it was (head, tail, capacity and storage),
and any number of further calls with the same arguments, each made on the outputs of the
call before, returns the same items, the same count and the same status. -/
theorem peek_idempotent (dbg : Bool) (rb : RingBuffer_t) (out : List RingBuffer_Item_t)
    (len offset c : Nat) (hv : valid rb) :
    (RingBuffer_enPeekItems dbg rb out len offset c).ring_buffer = rb ∧
      ∀ n : Nat,
        (fun r : ItemsResult =>
            RingBuffer_enPeekItems dbg r.ring_buffer r.items len offset r.counter)^[n]
          (RingBuffer_enPeekItems dbg rb out len offset c) =
        RingBuffer_enPeekItems dbg rb out len offset c := by
  have hrb := RingBuffer_enPeekItems_ring_buffer dbg rb out len offset c hv
  refine ⟨hrb, fun n => Function.iterate_fixed ?_ n⟩
  show RingBuffer_enPeekItems dbg (RingBuffer_enPeekItems dbg rb out len offset c).ring_buffer
      (RingBuffer_enPeekItems dbg rb out len offset c).items len offset
      (RingBuffer_enPeekItems dbg rb out len offset c).counter = _
  rw [hrb]
  exact RingBuffer_enPeekItems_fixed dbg rb out len offset c hv

/-- Witness of C13: three further peeks of two items at offset 1 in a five slot buffer whose
three items wrap past the end of the storage. -/
theorem peek_idempotent_witness :
    valid ⟨some [7, 0, 0, 5, 6], 5, 3, 1⟩ ∧
    (fun r : ItemsResult => RingBuffer_enPeekItems true r.ring_buffer r.items 2 1 r.counter)^[3]
        (RingBuffer_enPeekItems true ⟨some [7, 0, 0, 5, 6], 5, 3, 1⟩ [0, 0] 2 1 0) =
      RingBuffer_enPeekItems true ⟨some [7, 0, 0, 5, 6], 5, 3, 1⟩ [0, 0] 2 1 0 :=
  ⟨by decide,
    (peek_idempotent true ⟨some [7, 0, 0, 5, 6], 5, 3, 1⟩ [0, 0] 2 1 0 (by decide)).2 3⟩

/-- C14 (failing input): on the valid instance of capacity `N = 2 ^ 32 - 1` with
`head = N - 1`, `tail = N - 2` (so `item_count = N - 1`), whose slot 0 holds 7 and whose
other slots hold 0, a peek of one item at offset 2 computes `head + offset` modulo `2 ^ 32`,
which is 0, and outputs slot 0, the item 7; the logical item at position 2 is
`storage[(head + 2) mod N] = storage[1] = 0`. -/
theorem peek_wraps_at_32_bits :
    valid ⟨some (7 :: List.replicate 4294967294 0), 4294967295, 4294967294, 4294967293⟩ ∧
    2 < item_count
      ⟨some (7 :: List.replicate 4294967294 0), 4294967295, 4294967294, 4294967293⟩ ∧
    (RingBuffer_enPeekItems true
      ⟨some (7 :: List.replicate 4294967294 0), 4294967295, 4294967294, 4294967293⟩
      [9] 1 2 0).counter = 1 ∧
    (RingBuffer_enPeekItems true
      ⟨some (7 :: List.replicate 4294967294 0), 4294967295, 4294967294, 4294967293⟩
      [9] 1 2 0).items = [7] ∧
    (7 :: List.replicate 4294967294 0).getD ((4294967294 + 2 + 0) % 4294967295) 0 = 0 :=
  ⟨valid_big _ _ _ (by decide) (by decide), by decide, by decide, by decide, by decide⟩

/-- C15 (counterexample): on the valid empty four slot buffer, a peek of one item at offset
`0 ≥ item_count = 0` returns `EMPTY`, not `INSUFFICIENT_ITEMS`. -/
theorem peek_offset_empty_status :
    valid ⟨some [0, 0, 0, 0], 4, 0, 0⟩ ∧ 1 ≤ 1 ∧
    0 ≥ item_count ⟨some [0, 0, 0, 0], 4, 0, 0⟩ ∧
    (RingBuffer_enPeekItems true ⟨some [0, 0, 0, 0], 4, 0, 0⟩ [9] 1 0 5).error =
      RING_BUFFER_ERROR_EMPTY ∧
    (RingBuffer_enPeekItems true ⟨some [0, 0, 0, 0], 4, 0, 0⟩ [9] 1 0 5).error ≠
      RING_BUFFER_ERROR_INSUFFICIENT_ITEMS := by
  decide

/-- C15 (amended): for every valid state, `len ≥ 1` and `offset ≥ item_count`,
`RingBuffer_enPeekItems` reads zero items (count 0, the caller's array and the instance are
left as they were); its result is `INSUFFICIENT_ITEMS` when the buffer is not empty and
`EMPTY` when it is empty. -/
theorem peek_offset_beyond (dbg : Bool) (rb : RingBuffer_t) (out : List RingBuffer_Item_t)
    (len offset c : Nat) (hv : valid rb) (hlen : 1 ≤ len) (hoff : item_count rb ≤ offset) :
    (RingBuffer_enPeekItems dbg rb out len offset c).counter = 0 ∧
      (RingBuffer_enPeekItems dbg rb out len offset c).items = out ∧
      (RingBuffer_enPeekItems dbg rb out len offset c).ring_buffer = rb ∧
      (rb.head ≠ rb.tail →
        (RingBuffer_enPeekItems dbg rb out len offset c).error =
          RING_BUFFER_ERROR_INSUFFICIENT_ITEMS) ∧
      (rb.head = rb.tail →
        (RingBuffer_enPeekItems dbg rb out len offset c).error = RING_BUFFER_ERROR_EMPTY) := by
  obtain ⟨st, hst, _⟩ := valid_data rb hv
  rw [RingBuffer_enPeekItems_eq dbg rb st out len offset c hv hst (check_of_pos dbg len hlen)
    (fun h => absurd h (by omega))]
  by_cases he : rb.head = rb.tail
  · rw [if_pos he]
    exact ⟨rfl, rfl, rfl, fun h => absurd he h, fun _ => rfl⟩
  · rw [if_neg he, if_pos hoff]
    exact ⟨rfl, rfl, rfl, fun _ => rfl, fun h => absurd h he⟩

/-- Witness of C15 (amended): a peek at offset 3 of a five slot buffer that holds three
items. -/
theorem peek_offset_beyond_witness :
    valid ⟨some [7, 0, 0, 5, 6], 5, 3, 1⟩ ∧ 1 ≤ 2 ∧
    item_count ⟨some [7, 0, 0, 5, 6], 5, 3, 1⟩ ≤ 3 ∧
    (RingBuffer_enPeekItems true ⟨some [7, 0, 0, 5, 6], 5, 3, 1⟩ [9, 9] 2 3 5).counter = 0 ∧
    (RingBuffer_enPeekItems true ⟨some [7, 0, 0, 5, 6], 5, 3, 1⟩ [9, 9] 2 3 5).error =
      RING_BUFFER_ERROR_INSUFFICIENT_ITEMS :=
  ⟨by decide, by decide, by decide,
    (peek_offset_beyond true ⟨some [7, 0, 0, 5, 6], 5, 3, 1⟩ [9, 9] 2 3 5
      (by decide) (by decide) (by decide)).1,
    (peek_offset_beyond true ⟨some [7, 0, 0, 5, 6], 5, 3, 1⟩ [9, 9] 2 3 5
      (by decide) (by decide) (by decide)).2.2.2.1 (by decide)⟩

/-- C16: for every valid empty state (`head = tail`), every `len ≥ 1` and every offset,
`RingBuffer_enPeekItems` returns `EMPTY` with count 0 and leaves `head` and `tail` (the whole
instance, and the caller's array) unchanged. -/
theorem peek_empty (dbg : Bool) (rb : RingBuffer_t) (out : List RingBuffer_Item_t)
    (len offset c : Nat) (hv : valid rb) (hempty : rb.head = rb.tail) (hlen : 1 ≤ len) :
    (RingBuffer_enPeekItems dbg rb out len offset c).error = RING_BUFFER_ERROR_EMPTY ∧
      (RingBuffer_enPeekItems dbg rb out len offset c).counter = 0 ∧
      (RingBuffer_enPeekItems dbg rb out len offset c).ring_buffer.head = rb.head ∧
      (RingBuffer_enPeekItems dbg rb out len offset c).ring_buffer.tail = rb.tail ∧
      (RingBuffer_enPeekItems dbg rb out len offset c).ring_buffer = rb ∧
      (RingBuffer_enPeekItems dbg rb out len offset c).items = out := by
  obtain ⟨st, hst, _⟩ := valid_data rb hv
  have hic := item_count_eq rb hv
  have h0 : item_count rb = 0 := by rw [hic, hempty]; simp
  rw [RingBuffer_enPeekItems_eq dbg rb st out len offset c hv hst (check_of_pos dbg len hlen)
    (fun h => absurd h (by omega)), if_pos hempty]
  exact ⟨rfl, rfl, rfl, rfl, rfl, rfl⟩

/-- Witness of C16: a peek of two items at offset 7 in an empty ten slot buffer with
`head = tail = 4`. -/
theorem peek_empty_witness :
    valid ⟨some (List.replicate 10 0), 10, 4, 4⟩ ∧ 1 ≤ 2 ∧
    (RingBuffer_enPeekItems true ⟨some (List.replicate 10 0), 10, 4, 4⟩ [9, 9] 2 7 5).error =
      RING_BUFFER_ERROR_EMPTY ∧
    (RingBuffer_enPeekItems true ⟨some (List.replicate 10 0), 10, 4, 4⟩ [9, 9] 2 7 5).counter = 0 :=
  ⟨by decide, by decide,
    (peek_empty true ⟨some (List.replicate 10 0), 10, 4, 4⟩ [9, 9] 2 7 5
      (by decide) (by decide) (by decide)).1,
    (peek_empty true ⟨some (List.replicate 10 0), 10, 4, 4⟩ [9, 9] 2 7 5
      (by decide) (by decide) (by decide)).2.1⟩

/-- C17 (failing input): on the valid instance of capacity `N = 2 ^ 32 - 1` with
`head = N - 1`, `tail = N - 2` (so `item_count = N - 1`), a skip of `N` items reports
`N - 1` with `INSUFFICIENT_ITEMS`, computes `head + skipped` modulo `2 ^ 32` and leaves
`head = N - 3`, whereas `(head + skipped) mod N = N - 2 = tail`: the buffer is not
empty afterwards. -/
theorem skip_wraps_at_32_bits :
    valid ⟨some (7 :: List.replicate 4294967294 0), 4294967295, 4294967294, 4294967293⟩ ∧
    item_count
      ⟨some (7 :: List.replicate 4294967294 0), 4294967295, 4294967294, 4294967293⟩ =
        4294967294 ∧
    (RingBuffer_enSkipItems true
      ⟨some (7 :: List.replicate 4294967294 0), 4294967295, 4294967294, 4294967293⟩
      4294967295 0).error = RING_BUFFER_ERROR_INSUFFICIENT_ITEMS ∧
    (RingBuffer_enSkipItems true
      ⟨some (7 :: List.replicate 4294967294 0), 4294967295, 4294967294, 4294967293⟩
      4294967295 0).counter = 4294967294 ∧
    (RingBuffer_enSkipItems true
      ⟨some (7 :: List.replicate 4294967294 0), 4294967295, 4294967294, 4294967293⟩
      4294967295 0).ring_buffer.head = 4294967292 ∧
    (4294967294 + 4294967294) % 4294967295 = 4294967293 ∧
    item_count (RingBuffer_enSkipItems true
      ⟨some (7 :: List.replicate 4294967294 0), 4294967295, 4294967294, 4294967293⟩
      4294967295 0).ring_buffer = 1 :=
  ⟨valid_big _ _ _ (by decide) (by decide), by decide, by decide, by decide, by decide,
    by decide, by decide⟩

/-- C18 (failing input): on the valid instance of capacity `N = 2 ^ 32 - 1` with
`head = N - 1`, `tail = 10` (11 items), a skip of 5 items and a get of 5 items both return
`NONE` with count 5, but the skip leaves `head = 3` and the get leaves `head = 4`. -/
theorem skip_differs_from_get :
    valid ⟨some (7 :: List.replicate 4294967294 0), 4294967295, 4294967294, 10⟩ ∧
    (RingBuffer_enSkipItems true
      ⟨some (7 :: List.replicate 4294967294 0), 4294967295, 4294967294, 10⟩ 5 0).error =
        RING_BUFFER_ERROR_NONE ∧
    (RingBuffer_enGetItems true
      ⟨some (7 :: List.replicate 4294967294 0), 4294967295, 4294967294, 10⟩
      [0, 0, 0, 0, 0] 5 0).error = RING_BUFFER_ERROR_NONE ∧
    (RingBuffer_enSkipItems true
      ⟨some (7 :: List.replicate 4294967294 0), 4294967295, 4294967294, 10⟩ 5 0).counter = 5 ∧
    (RingBuffer_enGetItems true
      ⟨some (7 :: List.replicate 4294967294 0), 4294967295, 4294967294, 10⟩
      [0, 0, 0, 0, 0] 5 0).counter = 5 ∧
    (RingBuffer_enSkipItems true
      ⟨some (7 :: List.replicate 4294967294 0), 4294967295, 4294967294, 10⟩
      5 0).ring_buffer.head = 3 ∧
    (RingBuffer_enGetItems true
      ⟨some (7 :: List.replicate 4294967294 0), 4294967295, 4294967294, 10⟩
      [0, 0, 0, 0, 0] 5 0).ring_buffer.head = 4 :=
  ⟨valid_big _ _ _ (by decide) (by decide), by decide, by decide, by decide, by decide,
    by decide, by decide⟩

/-- C19: block access equivalence: for every valid state, with `c` the value of
`RingBuffer_enBlockReadCount` and the block read address the slot given by
`RingBuffer_enBlockReadAddress` (slot `head`), the `c` consecutive storage slots from that
address are the `c` items that `RingBuffer_enGetItems` with `len = c` writes to its output, and
`RingBuffer_enSkipItems` with count `c` leaves the same instance (head, tail, capacity,
storage) as that `RingBuffer_enGetItems`. -/
theorem block_read_then_skip (dbg : Bool) (rb : RingBuffer_t) (out : List RingBuffer_Item_t)
    (a₀ c₀ c₁ c₂ : Nat) (hv : valid rb)
    (hout : (RingBuffer_enBlockReadCount dbg rb c₀).counter ≤ out.length) :
    (RingBuffer_enBlockReadAddress dbg rb a₀).counter = rb.head ∧
      ((rb.data.getD []).drop (RingBuffer_enBlockReadAddress dbg rb a₀).counter).take
          (RingBuffer_enBlockReadCount dbg rb c₀).counter =
        (RingBuffer_enGetItems dbg rb out
          (RingBuffer_enBlockReadCount dbg rb c₀).counter c₁).items.take
          (RingBuffer_enBlockReadCount dbg rb c₀).counter ∧
      (RingBuffer_enSkipItems dbg rb (RingBuffer_enBlockReadCount dbg rb c₀).counter
          c₂).ring_buffer =
        (RingBuffer_enGetItems dbg rb out
          (RingBuffer_enBlockReadCount dbg rb c₀).counter c₁).ring_buffer := by
  obtain ⟨st, hst, hstl⟩ := valid_data rb hv
  have hic := item_count_eq rb hv
  obtain ⟨hA, hC⟩ := RingBuffer_enBlockRead_eq dbg rb a₀ c₀ hv
  have hout2 : (if rb.head < rb.tail then rb.tail - rb.head
      else if rb.head > rb.tail then rb.size - rb.head else 0) ≤ out.length := by
    rw [hC] at hout; exact hout
  rw [hA, hC]
  have hv' := hv
  obtain ⟨h2, hN, hh, ht, _⟩ := hv
  generalize hk : (if rb.head < rb.tail then rb.tail - rb.head
    else if rb.head > rb.tail then rb.size - rb.head else 0) = k at hout2
  have hk1 : k ≤ item_count rb := by split_ifs at hk hic <;> omega
  have hk2 : k ≤ rb.size - rb.head := by split_ifs at hk <;> omega
  have hk3 : k = 0 → item_count rb = 0 := by split_ifs at hk hic <;> omega
  have hib : item_count rb ≤ rb.size - 1 := by split_ifs at hic <;> omega
  refine ⟨rfl, ?_, ?_⟩
  · show ((rb.data.getD []).drop rb.head).take k =
      (RingBuffer_enGetItems dbg rb out k c₁).items.take k
    by_cases hz : k = 0
    · rw [hz, List.take_zero, List.take_zero]
    · have hmin : min k (item_count rb) = k := by omega
      rw [RingBuffer_enGetItems_eq dbg rb st out k c₁ hv' hst (check_of_pos dbg k (by omega)),
        if_neg (by omega), hmin, hst, Option.getD_some]
      apply List.ext_getElem?
      intro i
      rw [List.getElem?_take, List.getElem?_take, List.getElem?_drop,
        get_output_getElem? st out rb.size rb.head k i hstl hh (by omega) hout2]
      by_cases hi : i < k
      · have hw : rb.head + i < rb.size := by omega
        rw [if_pos hi, if_pos hi, if_pos hi, if_pos hw]
      · rw [if_neg hi, if_neg hi]
  · show (RingBuffer_enSkipItems dbg rb k c₂).ring_buffer =
      (RingBuffer_enGetItems dbg rb out k c₁).ring_buffer
    by_cases hz : k = 0
    · obtain ⟨e1, e2⟩ := zero_request_of_empty dbg rb out c₂ c₁ hv' (hk3 hz)
      rw [hz, e1, e2]
    · exact (skip_eq_getItems_no_wrap dbg rb out k c₂ c₁ hv' (by omega) (by omega)).1

/-- Witness of C19: a five slot buffer with `head = 3`, `tail = 1`: the block of two items at
slots 3 and 4, then a skip of 2, against a get of 2. -/
theorem block_read_then_skip_witness :
    valid ⟨some [7, 0, 0, 5, 6], 5, 3, 1⟩ ∧
    (RingBuffer_enBlockReadCount true ⟨some [7, 0, 0, 5, 6], 5, 3, 1⟩ 0).counter ≤
      [0, 0].length ∧
    (RingBuffer_enBlockReadCount true ⟨some [7, 0, 0, 5, 6], 5, 3, 1⟩ 0).counter = 2 ∧
    (((some [7, 0, 0, 5, 6] : Option (List RingBuffer_Item_t)).getD []).drop
          (RingBuffer_enBlockReadAddress true ⟨some [7, 0, 0, 5, 6], 5, 3, 1⟩ 0).counter).take
          (RingBuffer_enBlockReadCount true ⟨some [7, 0, 0, 5, 6], 5, 3, 1⟩ 0).counter =
        (RingBuffer_enGetItems true ⟨some [7, 0, 0, 5, 6], 5, 3, 1⟩ [0, 0]
          (RingBuffer_enBlockReadCount true ⟨some [7, 0, 0, 5, 6], 5, 3, 1⟩ 0).counter
          0).items.take
          (RingBuffer_enBlockReadCount true ⟨some [7, 0, 0, 5, 6], 5, 3, 1⟩ 0).counter ∧
    (RingBuffer_enSkipItems true ⟨some [7, 0, 0, 5, 6], 5, 3, 1⟩
          (RingBuffer_enBlockReadCount true ⟨some [7, 0, 0, 5, 6], 5, 3, 1⟩ 0).counter
          0).ring_buffer =
        (RingBuffer_enGetItems true ⟨some [7, 0, 0, 5, 6], 5, 3, 1⟩ [0, 0]
          (RingBuffer_enBlockReadCount true ⟨some [7, 0, 0, 5, 6], 5, 3, 1⟩ 0).counter
          0).ring_buffer :=
  ⟨by decide, by decide, by decide,
    (block_read_then_skip true ⟨some [7, 0, 0, 5, 6], 5, 3, 1⟩ [0, 0] 0 0 0 0
      (by decide) (by decide)).2.1,
    (block_read_then_skip true ⟨some [7, 0, 0, 5, 6], 5, 3, 1⟩ [0, 0] 0 0 0 0
      (by decide) (by decide)).2.2⟩

/-- C20: for every valid state, `RingBuffer_enBlockReadAddress` designates slot `head` and
`RingBuffer_enBlockReadCount` stores `tail - head` when `head < tail`, `N - head` when
`head > tail`, and 0 when `head = tail`; both return `NONE` and leave the instance as it
was. -/
theorem block_read_spec (dbg : Bool) (rb : RingBuffer_t) (a₀ c₀ : Nat) (hv : valid rb) :
    (RingBuffer_enBlockReadAddress dbg rb a₀).error = RING_BUFFER_ERROR_NONE ∧
      (RingBuffer_enBlockReadAddress dbg rb a₀).counter = rb.head ∧
      (RingBuffer_enBlockReadAddress dbg rb a₀).ring_buffer = rb ∧
      (RingBuffer_enBlockReadCount dbg rb c₀).error = RING_BUFFER_ERROR_NONE ∧
      (RingBuffer_enBlockReadCount dbg rb c₀).ring_buffer = rb ∧
      (rb.head < rb.tail → (RingBuffer_enBlockReadCount dbg rb c₀).counter = rb.tail - rb.head) ∧
      (rb.head > rb.tail → (RingBuffer_enBlockReadCount dbg rb c₀).counter = rb.size - rb.head) ∧
      (rb.head = rb.tail → (RingBuffer_enBlockReadCount dbg rb c₀).counter = 0) := by
  obtain ⟨hA, hC⟩ := RingBuffer_enBlockRead_eq dbg rb a₀ c₀ hv
  rw [hA, hC]
  refine ⟨rfl, rfl, rfl, rfl, rfl, ?_, ?_, ?_⟩
  · intro h; exact if_pos h
  · intro h
    show (if rb.head < rb.tail then rb.tail - rb.head
      else if rb.head > rb.tail then rb.size - rb.head else 0) = rb.size - rb.head
    rw [if_neg (by omega), if_pos h]
  · intro h
    show (if rb.head < rb.tail then rb.tail - rb.head
      else if rb.head > rb.tail then rb.size - rb.head else 0) = 0
    rw [if_neg (by omega), if_neg (by omega)]

/-- Witness of C20: a ten slot buffer with `head = 7`, `tail = 2` has a block of 3 items at
slot 7. -/
theorem block_read_spec_witness :
    valid ⟨some (List.replicate 10 0), 10, 7, 2⟩ ∧ 7 > 2 ∧
    (RingBuffer_enBlockReadAddress true ⟨some (List.replicate 10 0), 10, 7, 2⟩ 0).counter = 7 ∧
    (RingBuffer_enBlockReadCount true ⟨some (List.replicate 10 0), 10, 7, 2⟩ 0).counter =
      10 - 7 :=
  ⟨by decide, by decide,
    (block_read_spec true ⟨some (List.replicate 10 0), 10, 7, 2⟩ 0 0 (by decide)).2.1,
    (block_read_spec true ⟨some (List.replicate 10 0), 10, 7, 2⟩ 0 0 (by decide)).2.2.2.2.2.2.1
      (by decide)⟩

/-! ## Block write queries, flags and counts (C21 to C24) -/

/-- The result of `RingBuffer_enIsEmpty` on a valid instance. -/
theorem RingBuffer_enIsEmpty_eq (dbg : Bool) (rb : RingBuffer_t) (c : Nat) (hv : valid rb) :
    RingBuffer_enIsEmpty dbg rb c =
      ⟨RING_BUFFER_ERROR_NONE, rb, if rb.head = rb.tail then 1 else 0⟩ := by
  obtain ⟨st, hst, _⟩ := valid_data rb hv
  simp only [RingBuffer_enIsEmpty, hst, Option.isNone_some, Bool.and_false, Bool.false_eq_true,
    if_false]

/-- The results of the two block write queries on a valid instance. -/
theorem RingBuffer_enBlockWrite_eq (dbg : Bool) (rb : RingBuffer_t) (a c : Nat) (hv : valid rb) :
    RingBuffer_enBlockWriteAddress dbg rb a = ⟨RING_BUFFER_ERROR_NONE, rb, rb.tail⟩ ∧
      RingBuffer_enBlockWriteCount dbg rb c =
        ⟨RING_BUFFER_ERROR_NONE, rb,
          if rb.head ≤ rb.tail then (if rb.head = 0 then rb.size - rb.tail - 1
            else rb.size - rb.tail)
          else rb.head - rb.tail - 1⟩ := by
  obtain ⟨st, hst, _⟩ := valid_data rb hv
  obtain ⟨h2, hN, hh, ht, _⟩ := hv
  refine ⟨?_, ?_⟩
  · simp only [RingBuffer_enBlockWriteAddress, hst, Option.isNone_some, Bool.and_false,
      Bool.false_eq_true, if_false]
  · simp only [RingBuffer_enBlockWriteCount, hst, Option.isNone_some, Bool.and_false,
      Bool.false_eq_true, if_false]
    by_cases h1 : rb.head ≤ rb.tail
    · have e1 : csub rb.size rb.tail = rb.size - rb.tail := csub_eq_sub _ _ (by omega) hN
      rw [if_pos h1, if_pos h1, e1]
      by_cases h0 : rb.head = 0
      · have e2 : csub (rb.size - rb.tail) 1 = rb.size - rb.tail - 1 :=
          csub_eq_sub _ _ (by omega) (by omega)
        rw [if_pos h0, if_pos h0, e2]
      · rw [if_neg h0, if_neg h0]
    · have e1 : csub rb.head rb.tail = rb.head - rb.tail := csub_eq_sub _ _ (by omega) (by omega)
      have e2 : csub (rb.head - rb.tail) 1 = rb.head - rb.tail - 1 :=
        csub_eq_sub _ _ (by omega) (by omega)
      rw [if_neg h1, if_neg h1, e1, e2]

/-- The write cursor is one slot behind the read cursor exactly when `n - 1` slots are used. -/
theorem full_iff_count (n h t ic : Nat) (hic : ic = if h ≤ t then t - h else t + n - h)
    (h2 : 2 ≤ n) (hh : h < n) (ht : t < n) :
    (t + 1) % n = h ↔ ic = n - 1 := by
  rw [mod_wrap (t + 1) n (by omega)]
  split_ifs at hic ⊢ <;> omega

/-- The buffer is empty exactly when no slot is used. -/
theorem empty_iff_count (n h t ic : Nat) (hic : ic = if h ≤ t then t - h else t + n - h)
    (hh : h < n) :
    h = t ↔ ic = 0 := by
  split_ifs at hic <;> omega

/-- C21: for every valid state, `RingBuffer_enBlockWriteAddress` designates slot `tail` and
`RingBuffer_enBlockWriteCount` stores `N - tail` when `0 < head ≤ tail`, `N - tail - 1` when
`head = 0`, and `head - tail - 1` when `head > tail`; both return `NONE`; the count is 0
whenever the buffer is full. -/
theorem block_write_spec (dbg : Bool) (rb : RingBuffer_t) (a₀ c₀ : Nat) (hv : valid rb) :
    (RingBuffer_enBlockWriteAddress dbg rb a₀).error = RING_BUFFER_ERROR_NONE ∧
      (RingBuffer_enBlockWriteAddress dbg rb a₀).counter = rb.tail ∧
      (RingBuffer_enBlockWriteCount dbg rb c₀).error = RING_BUFFER_ERROR_NONE ∧
      (0 < rb.head ∧ rb.head ≤ rb.tail →
        (RingBuffer_enBlockWriteCount dbg rb c₀).counter = rb.size - rb.tail) ∧
      (rb.head = 0 →
        (RingBuffer_enBlockWriteCount dbg rb c₀).counter = rb.size - rb.tail - 1) ∧
      (rb.head > rb.tail →
        (RingBuffer_enBlockWriteCount dbg rb c₀).counter = rb.head - rb.tail - 1) ∧
      ((rb.tail + 1) % rb.size = rb.head →
        (RingBuffer_enBlockWriteCount dbg rb c₀).counter = 0) := by
  obtain ⟨hA, hC⟩ := RingBuffer_enBlockWrite_eq dbg rb a₀ c₀ hv
  rw [hA, hC]
  obtain ⟨h2, hN, hh, ht, _⟩ := hv
  refine ⟨rfl, rfl, rfl, ?_, ?_, ?_, ?_⟩
  · intro h
    show (if rb.head ≤ rb.tail then (if rb.head = 0 then rb.size - rb.tail - 1
      else rb.size - rb.tail) else rb.head - rb.tail - 1) = rb.size - rb.tail
    rw [if_pos h.2, if_neg (by omega)]
  · intro h
    show (if rb.head ≤ rb.tail then (if rb.head = 0 then rb.size - rb.tail - 1
      else rb.size - rb.tail) else rb.head - rb.tail - 1) = rb.size - rb.tail - 1
    rw [if_pos (by omega), if_pos h]
  · intro h
    show (if rb.head ≤ rb.tail then (if rb.head = 0 then rb.size - rb.tail - 1
      else rb.size - rb.tail) else rb.head - rb.tail - 1) = rb.head - rb.tail - 1
    rw [if_neg (by omega)]
  · intro h
    show (if rb.head ≤ rb.tail then (if rb.head = 0 then rb.size - rb.tail - 1
      else rb.size - rb.tail) else rb.head - rb.tail - 1) = 0
    rw [mod_wrap (rb.tail + 1) rb.size (by omega)] at h
    split_ifs at h ⊢ <;> omega

/-- Witness of C21: a full ten slot buffer with `head = 3`, `tail = 2` has no writable block. -/
theorem block_write_spec_witness :
    valid ⟨some (List.replicate 10 0), 10, 3, 2⟩ ∧ (2 + 1) % 10 = 3 ∧
    (RingBuffer_enBlockWriteAddress true ⟨some (List.replicate 10 0), 10, 3, 2⟩ 0).counter = 2 ∧
    (RingBuffer_enBlockWriteCount true ⟨some (List.replicate 10 0), 10, 3, 2⟩ 5).counter = 0 :=
  ⟨by decide, by decide,
    (block_write_spec true ⟨some (List.replicate 10 0), 10, 3, 2⟩ 0 5 (by decide)).2.1,
    (block_write_spec true ⟨some (List.replicate 10 0), 10, 3, 2⟩ 0 5 (by decide)).2.2.2.2.2.2
      (by decide)⟩

/-- C22: full/empty exclusivity: for every valid state the flags stored by
`RingBuffer_enIsFull` and `RingBuffer_enIsEmpty` are never both true, and the empty flag is
true only when `item_count = 0`. -/
theorem full_empty_exclusive (dbg : Bool) (rb : RingBuffer_t) (c₁ c₂ : Nat) (hv : valid rb) :
    ¬ ((RingBuffer_enIsFull dbg rb c₁).counter = 1 ∧
        (RingBuffer_enIsEmpty dbg rb c₂).counter = 1) ∧
      ((RingBuffer_enIsEmpty dbg rb c₂).counter = 1 → item_count rb = 0) ∧
      ((RingBuffer_enIsEmpty dbg rb c₂).counter = 1 →
        (RingBuffer_enItemCount dbg rb c₁).counter = 0) := by
  rw [RingBuffer_enIsFull_eq dbg rb c₁ hv, RingBuffer_enIsEmpty_eq dbg rb c₂ hv,
    RingBuffer_enItemCount_eq dbg rb c₁ hv]
  have hic := item_count_eq rb hv
  obtain ⟨h2, hN, hh, ht, _⟩ := hv
  have he := empty_iff_count rb.size rb.head rb.tail _ hic hh
  have key : (if rb.head = rb.tail then 1 else 0) = 1 → item_count rb = 0 := by
    intro h
    by_cases e : rb.head = rb.tail
    · exact he.1 e
    · rw [if_neg e] at h; omega
  refine ⟨?_, key, key⟩
  rintro ⟨hf, hem⟩
  have h0 := key hem
  have hf' : (if item_count rb = rb.size - 1 then 1 else 0) = 1 := hf
  rw [if_neg (by omega)] at hf'
  omega

/-- Witness of C22: an empty ten slot buffer is not full. -/
theorem full_empty_exclusive_witness :
    valid ⟨some (List.replicate 10 0), 10, 4, 4⟩ ∧
    (RingBuffer_enIsEmpty true ⟨some (List.replicate 10 0), 10, 4, 4⟩ 0).counter = 1 ∧
    ¬ ((RingBuffer_enIsFull true ⟨some (List.replicate 10 0), 10, 4, 4⟩ 0).counter = 1 ∧
        (RingBuffer_enIsEmpty true ⟨some (List.replicate 10 0), 10, 4, 4⟩ 0).counter = 1) :=
  ⟨by decide, by decide,
    (full_empty_exclusive true ⟨some (List.replicate 10 0), 10, 4, 4⟩ 0 0 (by decide)).1⟩

/-- C23: for every valid state, the flag stored by `RingBuffer_enIsFull` is true if and only if
`(tail + 1) mod N = head`, if and only if `item_count = N - 1`, if and only if
`free_count = 0`; the flag stored by `RingBuffer_enIsEmpty` is true if and only if
`head = tail`. Both calls return `NONE` and the flags are 0 or 1. -/
theorem full_empty_iff (dbg : Bool) (rb : RingBuffer_t) (c₁ c₂ : Nat) (hv : valid rb) :
    ((RingBuffer_enIsFull dbg rb c₁).counter = 1 ↔ (rb.tail + 1) % rb.size = rb.head) ∧
      ((rb.tail + 1) % rb.size = rb.head ↔ item_count rb = rb.size - 1) ∧
      (item_count rb = rb.size - 1 ↔ free_count rb = 0) ∧
      ((RingBuffer_enIsEmpty dbg rb c₂).counter = 1 ↔ rb.head = rb.tail) ∧
      (RingBuffer_enIsFull dbg rb c₁).error = RING_BUFFER_ERROR_NONE ∧
      (RingBuffer_enIsEmpty dbg rb c₂).error = RING_BUFFER_ERROR_NONE ∧
      ((RingBuffer_enIsFull dbg rb c₁).counter = 0 ∨ (RingBuffer_enIsFull dbg rb c₁).counter = 1) ∧
      ((RingBuffer_enIsEmpty dbg rb c₂).counter = 0 ∨
        (RingBuffer_enIsEmpty dbg rb c₂).counter = 1) := by
  rw [RingBuffer_enIsFull_eq dbg rb c₁ hv, RingBuffer_enIsEmpty_eq dbg rb c₂ hv]
  have hic := item_count_eq rb hv
  have hfc := free_count_eq rb hv
  have hib := item_count_le rb hv
  obtain ⟨h2, hN, hh, ht, _⟩ := hv
  have hfull := full_iff_count rb.size rb.head rb.tail _ hic h2 hh ht
  refine ⟨?_, hfull, ?_, ?_, rfl, rfl, ?_, ?_⟩
  · show (if item_count rb = rb.size - 1 then 1 else 0) = 1 ↔ _
    rw [hfull]
    by_cases e : item_count rb = rb.size - 1
    · rw [if_pos e]; exact ⟨fun _ => e, fun _ => rfl⟩
    · rw [if_neg e]; exact ⟨fun h => absurd h (by omega), fun h => absurd h e⟩
  · omega
  · show (if rb.head = rb.tail then 1 else 0) = 1 ↔ _
    by_cases e : rb.head = rb.tail
    · rw [if_pos e]; exact ⟨fun _ => e, fun _ => rfl⟩
    · rw [if_neg e]; exact ⟨fun h => absurd h (by omega), fun h => absurd h e⟩
  · show (if item_count rb = rb.size - 1 then 1 else 0) = 0 ∨
      (if item_count rb = rb.size - 1 then 1 else 0) = 1
    by_cases e : item_count rb = rb.size - 1
    · rw [if_pos e]; exact Or.inr rfl
    · rw [if_neg e]; exact Or.inl rfl
  · show (if rb.head = rb.tail then 1 else 0) = 0 ∨ (if rb.head = rb.tail then 1 else 0) = 1
    by_cases e : rb.head = rb.tail
    · rw [if_pos e]; exact Or.inr rfl
    · rw [if_neg e]; exact Or.inl rfl

/-- Witness of C23: a ten slot buffer with `head = 0`, `tail = 9` is full. -/
theorem full_empty_iff_witness :
    valid ⟨some (List.replicate 10 0), 10, 0, 9⟩ ∧ (9 + 1) % 10 = 0 ∧
    (RingBuffer_enIsFull true ⟨some (List.replicate 10 0), 10, 0, 9⟩ 0).counter = 1 ∧
    item_count ⟨some (List.replicate 10 0), 10, 0, 9⟩ = 10 - 1 :=
  ⟨by decide, by decide,
    (full_empty_iff true ⟨some (List.replicate 10 0), 10, 0, 9⟩ 0 0 (by decide)).1.2 (by decide),
    (full_empty_iff true ⟨some (List.replicate 10 0), 10, 0, 9⟩ 0 0 (by decide)).2.1.1
      (by decide)⟩

/-- The count of used slots is `(tail - head) mod n`, over the integers and over the naturals. -/
theorem count_eq_mod (n h t : Nat) (hh : h < n) (ht : t < n) :
    (if h ≤ t then t - h else t + n - h) = (t + n - h) % n ∧
      (((if h ≤ t then t - h else t + n - h : Nat) : Int) = ((t : Int) - (h : Int)) % (n : Int)) := by
  by_cases hle : h ≤ t
  · rw [if_pos hle]
    refine ⟨?_, ?_⟩
    · rw [mod_wrap (t + n - h) n (by omega), if_pos (by omega)]; omega
    · rw [Int.emod_eq_of_lt (by omega) (by omega)]; omega
  · rw [if_neg hle]
    refine ⟨?_, ?_⟩
    · rw [Nat.mod_eq_of_lt (by omega)]
    · rw [← Int.add_emod_self, Int.emod_eq_of_lt (by omega) (by omega)]; omega

/-- C24: for every valid state, `RingBuffer_enItemCount` returns `NONE` and stores
`(tail - head) mod N`: `tail - head` when `tail > head`, `tail + N - head` when
`tail < head`, and 0 when they are equal. -/
theorem item_count_spec (dbg : Bool) (rb : RingBuffer_t) (c : Nat) (hv : valid rb) :
    (RingBuffer_enItemCount dbg rb c).error = RING_BUFFER_ERROR_NONE ∧
      (RingBuffer_enItemCount dbg rb c).ring_buffer = rb ∧
      (((RingBuffer_enItemCount dbg rb c).counter : Int) =
        ((rb.tail : Int) - (rb.head : Int)) % (rb.size : Int)) ∧
      (RingBuffer_enItemCount dbg rb c).counter = (rb.tail + rb.size - rb.head) % rb.size ∧
      (rb.tail > rb.head → (RingBuffer_enItemCount dbg rb c).counter = rb.tail - rb.head) ∧
      (rb.tail < rb.head →
        (RingBuffer_enItemCount dbg rb c).counter = rb.tail + rb.size - rb.head) ∧
      (rb.tail = rb.head → (RingBuffer_enItemCount dbg rb c).counter = 0) := by
  rw [RingBuffer_enItemCount_eq dbg rb c hv]
  have hic := item_count_eq rb hv
  obtain ⟨h2, hN, hh, ht, _⟩ := hv
  obtain ⟨m1, m2⟩ := count_eq_mod rb.size rb.head rb.tail hh ht
  refine ⟨rfl, rfl, ?_, ?_, ?_, ?_, ?_⟩
  · show ((item_count rb : Nat) : Int) = _
    rw [hic]; exact m2
  · show item_count rb = _
    rw [hic]; exact m1
  · intro h
    show item_count rb = _
    rw [hic, if_pos (by omega)]
  · intro h
    show item_count rb = _
    rw [hic, if_neg (by omega)]
  · intro h
    show item_count rb = _
    rw [hic, if_pos (by omega)]; omega

/-- Witness of C24: a ten slot buffer with `head = 7`, `tail = 2` holds `2 + 10 - 7 = 5`
items. -/
theorem item_count_spec_witness :
    valid ⟨some (List.replicate 10 0), 10, 7, 2⟩ ∧ 2 < 7 ∧
    (RingBuffer_enItemCount true ⟨some (List.replicate 10 0), 10, 7, 2⟩ 9).error =
      RING_BUFFER_ERROR_NONE ∧
    (RingBuffer_enItemCount true ⟨some (List.replicate 10 0), 10, 7, 2⟩ 9).counter =
      2 + 10 - 7 :=
  ⟨by decide, by decide,
    (item_count_spec true ⟨some (List.replicate 10 0), 10, 7, 2⟩ 9 (by decide)).1,
    (item_count_spec true ⟨some (List.replicate 10 0), 10, 7, 2⟩ 9 (by decide)).2.2.2.2.2.1
      (by decide)⟩

/-- C25 (counterexample): in the checked build, `RingBuffer_enInit` with a null storage pointer
and capacity 0 returns `NULLPTR`, not `INVALID_PARAM`. -/
theorem init_null_storage_small_capacity :
    (0 : Nat) < 2 ∧
    (RingBuffer_enInit true ⟨none, 0, 0, 0⟩ none 0).error = RING_BUFFER_ERROR_NULLPTR ∧
    (RingBuffer_enInit true ⟨none, 0, 0, 0⟩ none 0).error ≠ RING_BUFFER_ERROR_INVALID_PARAM := by
  decide

/-- C25 (amended): in the checked build, `RingBuffer_enInit` does not modify the instance and
returns `NULLPTR` when the storage pointer is null, whatever the capacity; with a non-null
storage pointer it returns `INVALID_PARAM` and does not modify the instance when the capacity
is smaller than 2, and returns `NONE` when the capacity is at least 2. -/
theorem init_checked (rb : RingBuffer_t) (data : Option (List RingBuffer_Item_t)) (size : Nat) :
    (data = none →
      (RingBuffer_enInit true rb data size).error = RING_BUFFER_ERROR_NULLPTR ∧
      (RingBuffer_enInit true rb data size).ring_buffer = rb) ∧
    (data ≠ none → size < 2 →
      (RingBuffer_enInit true rb data size).error = RING_BUFFER_ERROR_INVALID_PARAM ∧
      (RingBuffer_enInit true rb data size).ring_buffer = rb) ∧
    (data ≠ none → 2 ≤ size →
      (RingBuffer_enInit true rb data size).error = RING_BUFFER_ERROR_NONE) := by
  refine ⟨?_, ?_, ?_⟩
  · intro h
    subst h
    exact ⟨rfl, rfl⟩
  · intro h hs
    cases data with
    | none => exact absurd rfl h
    | some st =>
      have hd : decide (size < 2) = true := by simpa using hs
      simp only [RingBuffer_enInit, Option.isNone_some, Bool.and_false, Bool.false_eq_true,
        if_false, hd, Bool.and_self, if_true, and_self]
  · intro h hs
    cases data with
    | none => exact absurd rfl h
    | some st =>
      have hd : decide (size < 2) = false := by simp; omega
      simp only [RingBuffer_enInit, Option.isNone_some, Bool.and_false, Bool.false_eq_true,
        if_false, hd]

/-- Witness of C25 (amended): with a four slot storage, capacity 1 is rejected with
`INVALID_PARAM` and capacity 4 is accepted. -/
theorem init_checked_witness :
    ((RingBuffer_enInit true ⟨none, 0, 0, 0⟩ (some [0, 0, 0, 0]) 1).error =
        RING_BUFFER_ERROR_INVALID_PARAM ∧
      (RingBuffer_enInit true ⟨none, 0, 0, 0⟩ (some [0, 0, 0, 0]) 1).ring_buffer =
        ⟨none, 0, 0, 0⟩) ∧
    (RingBuffer_enInit true ⟨none, 0, 0, 0⟩ (some [0, 0, 0, 0]) 4).error =
      RING_BUFFER_ERROR_NONE :=
  ⟨(init_checked ⟨none, 0, 0, 0⟩ (some [0, 0, 0, 0]) 1).2.1 (by decide) (by decide),
    (init_checked ⟨none, 0, 0, 0⟩ (some [0, 0, 0, 0]) 4).2.2 (by decide) (by decide)⟩

/-- The answers of the information functions on a freshly initialised instance. -/
theorem fresh_queries (dbg : Bool) (data : Option (List RingBuffer_Item_t)) (size c : Nat)
    (hd : (dbg && data.isNone) = false) (h2 : 2 ≤ size) (hN : size < 4294967296) :
    RingBuffer_enIsEmpty dbg ⟨data, size, 0, 0⟩ c =
        ⟨RING_BUFFER_ERROR_NONE, ⟨data, size, 0, 0⟩, 1⟩ ∧
      RingBuffer_enItemCount dbg ⟨data, size, 0, 0⟩ c =
        ⟨RING_BUFFER_ERROR_NONE, ⟨data, size, 0, 0⟩, 0⟩ ∧
      RingBuffer_enFreeCount dbg ⟨data, size, 0, 0⟩ c =
        ⟨RING_BUFFER_ERROR_NONE, ⟨data, size, 0, 0⟩, size - 1⟩ := by
  have e : csub size 1 = size - 1 := csub_eq_sub _ _ (by omega) hN
  refine ⟨?_, ?_, ?_⟩
  · unfold RingBuffer_enIsEmpty
    rw [if_neg (by rw [hd]; exact Bool.false_ne_true)]
    rfl
  · unfold RingBuffer_enItemCount
    rw [if_neg (by rw [hd]; exact Bool.false_ne_true)]
    rfl
  · unfold RingBuffer_enFreeCount
    rw [if_neg (by rw [hd]; exact Bool.false_ne_true)]
    show (⟨RING_BUFFER_ERROR_NONE, ⟨data, size, 0, 0⟩, csub size 1⟩ : CounterResult) = _
    rw [e]

/-- A call of `RingBuffer_enInit` that returns `NONE` stores its arguments and clears both
cursors; in the checked build its storage argument is then not null. -/
theorem init_success (dbg : Bool) (rb : RingBuffer_t) (data : Option (List RingBuffer_Item_t))
    (size : Nat) (hok : (RingBuffer_enInit dbg rb data size).error = RING_BUFFER_ERROR_NONE) :
    (RingBuffer_enInit dbg rb data size).ring_buffer = ⟨data, size, 0, 0⟩ ∧
      (dbg && data.isNone) = false := by
  unfold RingBuffer_enInit at hok ⊢
  by_cases c1 : (dbg && data.isNone) = true
  · rw [if_pos c1] at hok; exact RingBuffer_Error_t.noConfusion hok
  · rw [if_neg c1] at hok ⊢
    have c1' : (dbg && data.isNone) = false := Bool.eq_false_iff.mpr c1
    by_cases c2 : (dbg && decide (size < 2)) = true
    · rw [if_pos c2] at hok; exact RingBuffer_Error_t.noConfusion hok
    · rw [if_neg c2]
      exact ⟨rfl, c1'⟩

/-- C26: after a call of `RingBuffer_enInit` with capacity `N ≥ 2` that returns `NONE`, and after
`RingBuffer_enReset` of an initialised instance (storage not null, capacity at least 2), which
returns `NONE`, both cursors are 0, the capacity and the storage with its contents are the
given, respectively the previous, ones, `RingBuffer_enIsEmpty` answers true,
`RingBuffer_enItemCount` stores 0 and `RingBuffer_enFreeCount` stores `N - 1`. -/
theorem init_reset_spec (dbg : Bool) (rb : RingBuffer_t)
    (data : Option (List RingBuffer_Item_t)) (size c : Nat) :
    (2 ≤ size → size < 4294967296 →
      (RingBuffer_enInit dbg rb data size).error = RING_BUFFER_ERROR_NONE →
        (RingBuffer_enInit dbg rb data size).ring_buffer = ⟨data, size, 0, 0⟩ ∧
        (RingBuffer_enIsEmpty dbg (RingBuffer_enInit dbg rb data size).ring_buffer c).counter =
          1 ∧
        (RingBuffer_enItemCount dbg (RingBuffer_enInit dbg rb data size).ring_buffer c).counter =
          0 ∧
        (RingBuffer_enFreeCount dbg (RingBuffer_enInit dbg rb data size).ring_buffer c).counter =
          size - 1) ∧
    (rb.data ≠ none → 2 ≤ rb.size → rb.size < 4294967296 →
        (RingBuffer_enReset dbg rb).error = RING_BUFFER_ERROR_NONE ∧
        (RingBuffer_enReset dbg rb).ring_buffer = ⟨rb.data, rb.size, 0, 0⟩ ∧
        (RingBuffer_enIsEmpty dbg (RingBuffer_enReset dbg rb).ring_buffer c).counter = 1 ∧
        (RingBuffer_enItemCount dbg (RingBuffer_enReset dbg rb).ring_buffer c).counter = 0 ∧
        (RingBuffer_enFreeCount dbg (RingBuffer_enReset dbg rb).ring_buffer c).counter =
          rb.size - 1) := by
  refine ⟨?_, ?_⟩
  · intro h2 hN hok
    obtain ⟨hr, hd⟩ := init_success dbg rb data size hok
    obtain ⟨q1, q2, q3⟩ := fresh_queries dbg data size c hd h2 hN
    rw [hr, q1, q2, q3]
    exact ⟨rfl, rfl, rfl, rfl⟩
  · intro hd h2 hN
    have hnn : (dbg && rb.data.isNone) = false := by
      cases hdat : rb.data with
      | none => exact absurd hdat hd
      | some st => simp
    have hsz : (dbg && decide (rb.size < 2)) = false := by
      have : decide (rb.size < 2) = false := by simp; omega
      rw [this, Bool.and_false]
    have hres : RingBuffer_enReset dbg rb =
        ⟨RING_BUFFER_ERROR_NONE, ⟨rb.data, rb.size, 0, 0⟩⟩ := by
      unfold RingBuffer_enReset RingBuffer_enInit
      rw [if_neg (by rw [hnn]; exact Bool.false_ne_true),
        if_neg (by rw [hsz]; exact Bool.false_ne_true)]
    obtain ⟨q1, q2, q3⟩ := fresh_queries dbg rb.data rb.size c hnn h2 hN
    rw [hres]
    refine ⟨rfl, rfl, ?_, ?_, ?_⟩
    · show (RingBuffer_enIsEmpty dbg ⟨rb.data, rb.size, 0, 0⟩ c).counter = 1
      rw [q1]
    · show (RingBuffer_enItemCount dbg ⟨rb.data, rb.size, 0, 0⟩ c).counter = 0
      rw [q2]
    · show (RingBuffer_enFreeCount dbg ⟨rb.data, rb.size, 0, 0⟩ c).counter = rb.size - 1
      rw [q3]

/-- Witness of C26: the reset of a ten slot buffer with `head = 7`, `tail = 2` and stored
items. -/
theorem init_reset_spec_witness :
    (⟨some [1, 2, 3, 4, 5, 6, 7, 8, 9, 10], 10, 7, 2⟩ : RingBuffer_t).data ≠ none ∧
    (RingBuffer_enReset true ⟨some [1, 2, 3, 4, 5, 6, 7, 8, 9, 10], 10, 7, 2⟩).ring_buffer =
      ⟨some [1, 2, 3, 4, 5, 6, 7, 8, 9, 10], 10, 0, 0⟩ ∧
    (RingBuffer_enInit true ⟨none, 0, 0, 0⟩ (some [0, 0, 0, 0]) 4).ring_buffer =
      ⟨some [0, 0, 0, 0], 4, 0, 0⟩ :=
  ⟨by decide,
    ((init_reset_spec true ⟨some [1, 2, 3, 4, 5, 6, 7, 8, 9, 10], 10, 7, 2⟩ none 0 0).2
      (by decide) (by decide) (by decide)).2.1,
    ((init_reset_spec true ⟨none, 0, 0, 0⟩ (some [0, 0, 0, 0]) 4 0).1
      (by decide) (by decide) (by decide)).1⟩

/-- The null test of the checked build succeeds on an instance without storage. -/
theorem null_check (rb : RingBuffer_t) (h : rb.data = none) :
    (true && rb.data.isNone) = true := by
  rw [h]; rfl

/-- The null test of the checked build fails on an instance with storage. -/
theorem null_check_some (rb : RingBuffer_t) (h : rb.data ≠ none) :
    ¬ (true && rb.data.isNone) = true := by
  cases hd : rb.data with
  | none => exact absurd hd h
  | some st => exact Bool.false_ne_true

/-- C27: in the checked build, on an instance whose storage reference is absent, reset, put,
get, put_many, get_many, peek, skip, advance, the four counting queries and the four block
queries return `NULLPTR` and leave the instance (head, tail, size) and every output cell as they
were; `RingBuffer_enFree` returns `NONE`, detaches the storage and keeps head, tail and size, so
that its result is such an instance. -/
theorem null_storage (rb : RingBuffer_t) (item : RingBuffer_Item_t)
    (items : List RingBuffer_Item_t) (len offset c : Nat) (h : rb.data = none) :
    RingBuffer_enReset true rb = ⟨RING_BUFFER_ERROR_NULLPTR, rb⟩ ∧
    RingBuffer_enPutItem true rb item = ⟨RING_BUFFER_ERROR_NULLPTR, rb⟩ ∧
    RingBuffer_enGetItem true rb item = ⟨RING_BUFFER_ERROR_NULLPTR, rb, item⟩ ∧
    RingBuffer_enPutItems true rb items len c = ⟨RING_BUFFER_ERROR_NULLPTR, rb, c⟩ ∧
    RingBuffer_enGetItems true rb items len c = ⟨RING_BUFFER_ERROR_NULLPTR, rb, items, c⟩ ∧
    RingBuffer_enPeekItems true rb items len offset c =
      ⟨RING_BUFFER_ERROR_NULLPTR, rb, items, c⟩ ∧
    RingBuffer_enSkipItems true rb len c = ⟨RING_BUFFER_ERROR_NULLPTR, rb, c⟩ ∧
    RingBuffer_enAdvance true rb len c = ⟨RING_BUFFER_ERROR_NULLPTR, rb, c⟩ ∧
    RingBuffer_enItemCount true rb c = ⟨RING_BUFFER_ERROR_NULLPTR, rb, c⟩ ∧
    RingBuffer_enFreeCount true rb c = ⟨RING_BUFFER_ERROR_NULLPTR, rb, c⟩ ∧
    RingBuffer_enIsEmpty true rb c = ⟨RING_BUFFER_ERROR_NULLPTR, rb, c⟩ ∧
    RingBuffer_enIsFull true rb c = ⟨RING_BUFFER_ERROR_NULLPTR, rb, c⟩ ∧
    RingBuffer_enBlockReadAddress true rb c = ⟨RING_BUFFER_ERROR_NULLPTR, rb, c⟩ ∧
    RingBuffer_enBlockReadCount true rb c = ⟨RING_BUFFER_ERROR_NULLPTR, rb, c⟩ ∧
    RingBuffer_enBlockWriteAddress true rb c = ⟨RING_BUFFER_ERROR_NULLPTR, rb, c⟩ ∧
    RingBuffer_enBlockWriteCount true rb c = ⟨RING_BUFFER_ERROR_NULLPTR, rb, c⟩ ∧
    (∀ (dbg : Bool) (r : RingBuffer_t),
      RingBuffer_enFree dbg r = ⟨RING_BUFFER_ERROR_NONE, ⟨none, r.size, r.head, r.tail⟩⟩ ∧
      (RingBuffer_enFree dbg r).ring_buffer.data = none) := by
  have hn := null_check rb h
  refine ⟨?_, ?_, ?_, ?_, ?_, ?_, ?_, ?_, ?_, ?_, ?_, ?_, ?_, ?_, ?_, ?_, ?_⟩
  · unfold RingBuffer_enReset RingBuffer_enInit; rw [if_pos hn]
  · unfold RingBuffer_enPutItem; rw [if_pos hn]
  · unfold RingBuffer_enGetItem; rw [if_pos hn]
  · unfold RingBuffer_enPutItems; rw [if_pos hn]
  · unfold RingBuffer_enGetItems; rw [if_pos hn]
  · unfold RingBuffer_enPeekItems; rw [if_pos hn]
  · unfold RingBuffer_enSkipItems; rw [if_pos hn]
  · unfold RingBuffer_enAdvance; rw [if_pos hn]
  · unfold RingBuffer_enItemCount; rw [if_pos hn]
  · unfold RingBuffer_enFreeCount; rw [if_pos hn]
  · unfold RingBuffer_enIsEmpty; rw [if_pos hn]
  · unfold RingBuffer_enIsFull; rw [if_pos hn]
  · unfold RingBuffer_enBlockReadAddress; rw [if_pos hn]
  · unfold RingBuffer_enBlockReadCount; rw [if_pos hn]
  · unfold RingBuffer_enBlockWriteAddress; rw [if_pos hn]
  · unfold RingBuffer_enBlockWriteCount; rw [if_pos hn]
  · intro dbg r
    exact ⟨rfl, rfl⟩

/-- Witness of C27: an instance released by `RingBuffer_enFree` rejects a put and a skip. -/
theorem null_storage_witness :
    (RingBuffer_enFree true ⟨some [1, 2, 3, 4], 4, 1, 3⟩).ring_buffer = ⟨none, 4, 1, 3⟩ ∧
    RingBuffer_enPutItem true ⟨none, 4, 1, 3⟩ 9 = ⟨RING_BUFFER_ERROR_NULLPTR, ⟨none, 4, 1, 3⟩⟩ ∧
    RingBuffer_enSkipItems true ⟨none, 4, 1, 3⟩ 2 5 =
      ⟨RING_BUFFER_ERROR_NULLPTR, ⟨none, 4, 1, 3⟩, 5⟩ :=
  ⟨by decide, (null_storage ⟨none, 4, 1, 3⟩ 9 [] 2 0 5 rfl).2.1,
    (null_storage ⟨none, 4, 1, 3⟩ 9 [] 2 0 5 rfl).2.2.2.2.2.2.1⟩

/-- C28: in the checked build, on every instance with storage (in particular every valid state,
empty, full or in between), put_many, get_many, peek, skip and advance called with a requested
length or count of 0 return `INVALID_PARAM` and leave the instance (head, tail, size, storage),
the caller's count cell and the caller's item array as they were. -/
theorem zero_length_request (rb : RingBuffer_t) (items : List RingBuffer_Item_t)
    (offset c : Nat)
    (h : rb.data ≠ none) :
    RingBuffer_enPutItems true rb items 0 c = ⟨RING_BUFFER_ERROR_INVALID_PARAM, rb, c⟩ ∧
    RingBuffer_enGetItems true rb items 0 c =
      ⟨RING_BUFFER_ERROR_INVALID_PARAM, rb, items, c⟩ ∧
    RingBuffer_enPeekItems true rb items 0 offset c =
      ⟨RING_BUFFER_ERROR_INVALID_PARAM, rb, items, c⟩ ∧
    RingBuffer_enSkipItems true rb 0 c = ⟨RING_BUFFER_ERROR_INVALID_PARAM, rb, c⟩ ∧
    RingBuffer_enAdvance true rb 0 c = ⟨RING_BUFFER_ERROR_INVALID_PARAM, rb, c⟩ := by
  have hn := null_check_some rb h
  have hz : (true && decide ((0 : Nat) = 0)) = true := rfl
  refine ⟨?_, ?_, ?_, ?_, ?_⟩
  · unfold RingBuffer_enPutItems; rw [if_neg hn, if_pos hz]
  · unfold RingBuffer_enGetItems; rw [if_neg hn, if_pos hz]
  · unfold RingBuffer_enPeekItems; rw [if_neg hn, if_pos hz]
  · unfold RingBuffer_enSkipItems; rw [if_neg hn, if_pos hz]
  · unfold RingBuffer_enAdvance; rw [if_neg hn, if_pos hz]

/-- Witness of C28: a full four slot buffer (three items) and an empty one. -/
theorem zero_length_request_witness :
    valid ⟨some [1, 2, 3, 4], 4, 1, 0⟩ ∧ free_count ⟨some [1, 2, 3, 4], 4, 1, 0⟩ = 0 ∧
    RingBuffer_enPutItems true ⟨some [1, 2, 3, 4], 4, 1, 0⟩ [7] 0 5 =
      ⟨RING_BUFFER_ERROR_INVALID_PARAM, ⟨some [1, 2, 3, 4], 4, 1, 0⟩, 5⟩ ∧
    item_count ⟨some [1, 2, 3, 4], 4, 2, 2⟩ = 0 ∧
    RingBuffer_enGetItems true ⟨some [1, 2, 3, 4], 4, 2, 2⟩ [7] 0 5 =
      ⟨RING_BUFFER_ERROR_INVALID_PARAM, ⟨some [1, 2, 3, 4], 4, 2, 2⟩, [7], 5⟩ :=
  ⟨by decide, by decide,
    (zero_length_request ⟨some [1, 2, 3, 4], 4, 1, 0⟩ [7] 0 5 (by decide)).1, by decide,
    (zero_length_request ⟨some [1, 2, 3, 4], 4, 2, 2⟩ [7] 0 5 (by decide)).2.1⟩

/-! ## Ownership frame and advance (C29, C30) -/

/-- Function `RingBuffer_enItemCount` hands back the instance it was given, on every state. -/
theorem RingBuffer_enItemCount_ring_buffer (dbg : Bool) (rb : RingBuffer_t) (c : Nat) :
    (RingBuffer_enItemCount dbg rb c).ring_buffer = rb := by
  unfold RingBuffer_enItemCount
  dsimp only
  split_ifs <;> rfl

/-- Function `RingBuffer_enFreeCount` hands back the instance it was given, on every state. -/
theorem RingBuffer_enFreeCount_ring_buffer (dbg : Bool) (rb : RingBuffer_t) (c : Nat) :
    (RingBuffer_enFreeCount dbg rb c).ring_buffer = rb := by
  unfold RingBuffer_enFreeCount
  dsimp only
  split_ifs <;> rfl

/-- Frame of `RingBuffer_enPutItem`. -/
theorem RingBuffer_enPutItem_frame (dbg : Bool) (rb : RingBuffer_t) (item : RingBuffer_Item_t) :
    (RingBuffer_enPutItem dbg rb item).ring_buffer.head = rb.head ∧
      (RingBuffer_enPutItem dbg rb item).ring_buffer.size = rb.size := by
  unfold RingBuffer_enPutItem
  dsimp only
  split_ifs <;> exact ⟨rfl, rfl⟩

/-- Frame of `RingBuffer_enPutItems`. -/
theorem RingBuffer_enPutItems_frame (dbg : Bool) (rb : RingBuffer_t)
    (items : List RingBuffer_Item_t) (len c : Nat) :
    (RingBuffer_enPutItems dbg rb items len c).ring_buffer.head = rb.head ∧
      (RingBuffer_enPutItems dbg rb items len c).ring_buffer.size = rb.size := by
  unfold RingBuffer_enPutItems
  simp only [RingBuffer_enFreeCount_ring_buffer]
  split_ifs <;> exact ⟨rfl, rfl⟩

/-- Frame of `RingBuffer_enAdvance`. -/
theorem RingBuffer_enAdvance_frame (dbg : Bool) (rb : RingBuffer_t) (n c : Nat) :
    (RingBuffer_enAdvance dbg rb n c).ring_buffer.head = rb.head ∧
      (RingBuffer_enAdvance dbg rb n c).ring_buffer.size = rb.size ∧
      (RingBuffer_enAdvance dbg rb n c).ring_buffer.data = rb.data := by
  unfold RingBuffer_enAdvance
  simp only [RingBuffer_enFreeCount_ring_buffer]
  split_ifs <;> exact ⟨rfl, rfl, rfl⟩

/-- Frame of `RingBuffer_enGetItem`. -/
theorem RingBuffer_enGetItem_frame (dbg : Bool) (rb : RingBuffer_t) (item : RingBuffer_Item_t) :
    (RingBuffer_enGetItem dbg rb item).ring_buffer.tail = rb.tail ∧
      (RingBuffer_enGetItem dbg rb item).ring_buffer.size = rb.size ∧
      (RingBuffer_enGetItem dbg rb item).ring_buffer.data = rb.data := by
  unfold RingBuffer_enGetItem
  dsimp only
  split_ifs <;> exact ⟨rfl, rfl, rfl⟩

/-- Frame of `RingBuffer_enGetItems`. -/
theorem RingBuffer_enGetItems_frame (dbg : Bool) (rb : RingBuffer_t)
    (items : List RingBuffer_Item_t) (len c : Nat) :
    (RingBuffer_enGetItems dbg rb items len c).ring_buffer.tail = rb.tail ∧
      (RingBuffer_enGetItems dbg rb items len c).ring_buffer.size = rb.size ∧
      (RingBuffer_enGetItems dbg rb items len c).ring_buffer.data = rb.data := by
  unfold RingBuffer_enGetItems
  simp only [RingBuffer_enItemCount_ring_buffer]
  split_ifs <;> exact ⟨rfl, rfl, rfl⟩

/-- Frame of `RingBuffer_enSkipItems`. -/
theorem RingBuffer_enSkipItems_frame (dbg : Bool) (rb : RingBuffer_t) (n c : Nat) :
    (RingBuffer_enSkipItems dbg rb n c).ring_buffer.tail = rb.tail ∧
      (RingBuffer_enSkipItems dbg rb n c).ring_buffer.size = rb.size ∧
      (RingBuffer_enSkipItems dbg rb n c).ring_buffer.data = rb.data := by
  unfold RingBuffer_enSkipItems
  simp only [RingBuffer_enItemCount_ring_buffer]
  split_ifs <;> exact ⟨rfl, rfl, rfl⟩

/-- The flag and block queries hand back the instance they were given, on every state. -/
theorem queries_frame (dbg : Bool) (rb : RingBuffer_t) (c : Nat) :
    (RingBuffer_enIsEmpty dbg rb c).ring_buffer = rb ∧
      (RingBuffer_enIsFull dbg rb c).ring_buffer = rb ∧
      (RingBuffer_enBlockReadAddress dbg rb c).ring_buffer = rb ∧
      (RingBuffer_enBlockReadCount dbg rb c).ring_buffer = rb ∧
      (RingBuffer_enBlockWriteAddress dbg rb c).ring_buffer = rb ∧
      (RingBuffer_enBlockWriteCount dbg rb c).ring_buffer = rb := by
  refine ⟨?_, ?_, ?_, ?_, ?_, ?_⟩
  · unfold RingBuffer_enIsEmpty; split_ifs <;> rfl
  · unfold RingBuffer_enIsFull
    simp only [RingBuffer_enItemCount_ring_buffer]
    split_ifs <;> rfl
  · unfold RingBuffer_enBlockReadAddress; split_ifs <;> rfl
  · unfold RingBuffer_enBlockReadCount; dsimp only; split_ifs <;> rfl
  · unfold RingBuffer_enBlockWriteAddress; split_ifs <;> rfl
  · unfold RingBuffer_enBlockWriteCount; dsimp only; split_ifs <;> rfl

/-- Normal form of `RingBuffer_enAdvance` on a valid instance when the request fits into the
free space and `tail + advance_count` does not wrap in 32 bits. -/
theorem RingBuffer_enAdvance_eq (dbg : Bool) (rb : RingBuffer_t) (n c : Nat) (hv : valid rb)
    (hchk : (dbg && decide (n = 0)) = false) (hle : n ≤ free_count rb)
    (hno : rb.tail + n < 4294967296) :
    RingBuffer_enAdvance dbg rb n c =
      if free_count rb = 0 then ⟨RING_BUFFER_ERROR_FULL, rb, 0⟩
      else ⟨RING_BUFFER_ERROR_NONE, { rb with tail := (rb.tail + n) % rb.size }, n⟩ := by
  have hFC := RingBuffer_enFreeCount_eq dbg rb 0 hv
  have hfb := free_count_le rb hv
  obtain ⟨st, hst, _⟩ := valid_data rb hv
  obtain ⟨h2, hN, hh, ht, _⟩ := hv
  unfold RingBuffer_enAdvance
  simp only [hFC, hst, hchk, Option.isNone_some, Bool.and_false, Bool.false_eq_true, if_false]
  by_cases hf : free_count rb = 0
  · simp only [hf, if_true]
  · simp only [hf, if_false]
    have hMIN : MIN (free_count rb) n = n := by
      rw [MIN_eq_min]; exact Nat.min_eq_right hle
    have hadd : cadd rb.tail n = rb.tail + n := cadd_eq_add _ _ hno
    have hwrap := wrap_eq_mod (rb.tail + n) rb.size (by omega) hno
    rw [hMIN, hadd, hwrap, if_neg (fun h => h rfl)]

/-- Function `RingBuffer_enAdvance` on a full valid instance. -/
theorem RingBuffer_enAdvance_full (dbg : Bool) (rb : RingBuffer_t) (n c : Nat) (hv : valid rb)
    (hchk : (dbg && decide (n = 0)) = false) (hfull : free_count rb = 0) :
    RingBuffer_enAdvance dbg rb n c = ⟨RING_BUFFER_ERROR_FULL, rb, 0⟩ := by
  have hFC := RingBuffer_enFreeCount_eq dbg rb 0 hv
  obtain ⟨st, hst, _⟩ := valid_data rb hv
  unfold RingBuffer_enAdvance
  simp only [hFC, hst, hchk, hfull, Option.isNone_some, Bool.and_false, Bool.false_eq_true,
    if_false, if_true]

/-- C29: ownership frame, on every state and for every parameter.  Put, put_many and advance
leave `head` and `size` as they were; get, get_many and skip leave `tail`, `size` and the
storage as they were; `RingBuffer_enItemCount`, `RingBuffer_enFreeCount`, `RingBuffer_enIsEmpty`,
`RingBuffer_enIsFull` and the four block queries leave the whole instance as it was. -/
theorem ownership_frame (dbg : Bool) (rb : RingBuffer_t) (item : RingBuffer_Item_t)
    (items : List RingBuffer_Item_t) (len c : Nat) :
    ((RingBuffer_enPutItem dbg rb item).ring_buffer.head = rb.head ∧
      (RingBuffer_enPutItem dbg rb item).ring_buffer.size = rb.size) ∧
    ((RingBuffer_enPutItems dbg rb items len c).ring_buffer.head = rb.head ∧
      (RingBuffer_enPutItems dbg rb items len c).ring_buffer.size = rb.size) ∧
    ((RingBuffer_enAdvance dbg rb len c).ring_buffer.head = rb.head ∧
      (RingBuffer_enAdvance dbg rb len c).ring_buffer.size = rb.size) ∧
    ((RingBuffer_enGetItem dbg rb item).ring_buffer.tail = rb.tail ∧
      (RingBuffer_enGetItem dbg rb item).ring_buffer.size = rb.size ∧
      (RingBuffer_enGetItem dbg rb item).ring_buffer.data = rb.data) ∧
    ((RingBuffer_enGetItems dbg rb items len c).ring_buffer.tail = rb.tail ∧
      (RingBuffer_enGetItems dbg rb items len c).ring_buffer.size = rb.size ∧
      (RingBuffer_enGetItems dbg rb items len c).ring_buffer.data = rb.data) ∧
    ((RingBuffer_enSkipItems dbg rb len c).ring_buffer.tail = rb.tail ∧
      (RingBuffer_enSkipItems dbg rb len c).ring_buffer.size = rb.size ∧
      (RingBuffer_enSkipItems dbg rb len c).ring_buffer.data = rb.data) ∧
    (RingBuffer_enItemCount dbg rb c).ring_buffer = rb ∧
    (RingBuffer_enFreeCount dbg rb c).ring_buffer = rb ∧
    (RingBuffer_enIsEmpty dbg rb c).ring_buffer = rb ∧
    (RingBuffer_enIsFull dbg rb c).ring_buffer = rb ∧
    (RingBuffer_enBlockReadAddress dbg rb c).ring_buffer = rb ∧
    (RingBuffer_enBlockReadCount dbg rb c).ring_buffer = rb ∧
    (RingBuffer_enBlockWriteAddress dbg rb c).ring_buffer = rb ∧
    (RingBuffer_enBlockWriteCount dbg rb c).ring_buffer = rb :=
  ⟨RingBuffer_enPutItem_frame dbg rb item, RingBuffer_enPutItems_frame dbg rb items len c,
    ⟨(RingBuffer_enAdvance_frame dbg rb len c).1, (RingBuffer_enAdvance_frame dbg rb len c).2.1⟩,
    RingBuffer_enGetItem_frame dbg rb item, RingBuffer_enGetItems_frame dbg rb items len c,
    RingBuffer_enSkipItems_frame dbg rb len c,
    RingBuffer_enItemCount_ring_buffer dbg rb c, RingBuffer_enFreeCount_ring_buffer dbg rb c,
    queries_frame dbg rb c⟩

/-- Function `RingBuffer_enAdvance` when `1 ≤ count ≤ free_count` and `tail + count` does not
wrap in 32 bits (in particular whenever `N ≤ 2 ^ 31`): the status is `NONE`, the reported
amount is `count`, `tail` becomes `(tail + count) mod N`, nothing else changes and the number
of stored items grows by `count`. -/
theorem advance_no_wrap (dbg : Bool) (rb : RingBuffer_t) (count c : Nat) (hv : valid rb)
    (h1 : 1 ≤ count) (hle : count ≤ free_count rb) (hno : rb.tail + count < 4294967296) :
    RingBuffer_enAdvance dbg rb count c =
        ⟨RING_BUFFER_ERROR_NONE, { rb with tail := (rb.tail + count) % rb.size }, count⟩ ∧
      item_count (RingBuffer_enAdvance dbg rb count c).ring_buffer = item_count rb + count := by
  have hne : free_count rb ≠ 0 := by omega
  have hA := RingBuffer_enAdvance_eq dbg rb count c hv (check_of_pos dbg count h1) hle hno
  rw [if_neg hne] at hA
  have hic := item_count_eq rb hv
  have hfc := free_count_eq rb hv
  have hib := item_count_le rb hv
  obtain ⟨h2, hN, hh, ht, _⟩ := hv
  have hcnt : item_count ({ rb with tail := (rb.tail + count) % rb.size } : RingBuffer_t) =
      item_count rb + count := by
    rw [item_count_of_bounds ({ rb with tail := (rb.tail + count) % rb.size } : RingBuffer_t)
      hN hh (Nat.mod_lt _ (by omega))]
    exact count_after_put rb.size rb.head rb.tail count (item_count rb) hic hh ht (by omega)
  rw [hA]
  exact ⟨rfl, hcnt⟩

/-- C30 (failing input): on the valid, empty instance of capacity `N = 2 ^ 32 - 1` with
`head = tail = N - 1` (`free_count = N - 1`), an advance by `count = 5` returns `NONE` and
reports 5, but computes `tail + count` modulo `2 ^ 32` and leaves `tail = 3`, whereas
`(tail + count) mod N = 4`, the tail that `RingBuffer_enPutItems` produces for five items;
the number of stored items grows by 4, not by 5. -/
theorem advance_wraps_at_32_bits :
    valid ⟨some (7 :: List.replicate 4294967294 0), 4294967295, 4294967294, 4294967294⟩ ∧
    item_count
      ⟨some (7 :: List.replicate 4294967294 0), 4294967295, 4294967294, 4294967294⟩ = 0 ∧
    free_count
      ⟨some (7 :: List.replicate 4294967294 0), 4294967295, 4294967294, 4294967294⟩ =
        4294967294 ∧
    (RingBuffer_enAdvance true
      ⟨some (7 :: List.replicate 4294967294 0), 4294967295, 4294967294, 4294967294⟩
      5 0).error = RING_BUFFER_ERROR_NONE ∧
    (RingBuffer_enAdvance true
      ⟨some (7 :: List.replicate 4294967294 0), 4294967295, 4294967294, 4294967294⟩
      5 0).counter = 5 ∧
    (RingBuffer_enAdvance true
      ⟨some (7 :: List.replicate 4294967294 0), 4294967295, 4294967294, 4294967294⟩
      5 0).ring_buffer.tail = 3 ∧
    (4294967294 + 5) % 4294967295 = 4 ∧
    (RingBuffer_enPutItems true
      ⟨some (7 :: List.replicate 4294967294 0), 4294967295, 4294967294, 4294967294⟩
      [1, 2, 3, 4, 5] 5 0).ring_buffer.tail = 4 ∧
    item_count (RingBuffer_enAdvance true
      ⟨some (7 :: List.replicate 4294967294 0), 4294967295, 4294967294, 4294967294⟩
      5 0).ring_buffer = 4 :=
  ⟨valid_big _ _ _ (by decide) (by decide), by decide, by decide, by decide, by decide,
    by decide, by decide, by decide, by decide⟩

/-! ## Scenarios (C31, C32) -/

/-- Step 0 of the wraparound scenario: init on a four slot storage. -/
theorem wrap_step_init (dbg : Bool) (rb₀ : RingBuffer_t) (x₀ x₁ x₂ x₃ : RingBuffer_Item_t) :
    RingBuffer_enInit dbg rb₀ (some [x₀, x₁, x₂, x₃]) 4 =
      ⟨RING_BUFFER_ERROR_NONE, ⟨some [x₀, x₁, x₂, x₃], 4, 0, 0⟩⟩ := by
  cases dbg <;> rfl

/-- A four slot instance with cursors below 4 is valid. -/
theorem valid_four (x₀ x₁ x₂ x₃ : RingBuffer_Item_t) (h t : Nat) (hh : h < 4) (ht : t < 4) :
    valid ⟨some [x₀, x₁, x₂, x₃], 4, h, t⟩ :=
  ⟨by show 2 ≤ 4; omega, by show 4 < 4294967296; omega, hh, ht, rfl⟩

/-- Step 1 of the wraparound scenario: three items into the fresh buffer. -/
theorem wrap_step_put (dbg : Bool) (a b c x₀ x₁ x₂ x₃ : RingBuffer_Item_t) :
    RingBuffer_enPutItems dbg ⟨some [x₀, x₁, x₂, x₃], 4, 0, 0⟩ [a, b, c] 3 0 =
      ⟨RING_BUFFER_ERROR_NONE, ⟨some [a, b, c, x₃], 4, 0, 3⟩, 3⟩ := by
  have hv := valid_four x₀ x₁ x₂ x₃ 0 0 (by omega) (by omega)
  have hf : free_count ⟨some [x₀, x₁, x₂, x₃], 4, 0, 0⟩ = 3 := by
    rw [free_count_eq _ hv, item_count_eq _ hv]; rfl
  rw [RingBuffer_enPutItems_eq dbg _ _ [a, b, c] 3 0 hv rfl (check_of_pos dbg 3 (by omega)), hf]
  rfl

/-- Step 2 of the wraparound scenario: two items out. -/
theorem wrap_step_get (dbg : Bool) (a b c x₃ o₀ o₁ : RingBuffer_Item_t) :
    RingBuffer_enGetItems dbg ⟨some [a, b, c, x₃], 4, 0, 3⟩ [o₀, o₁] 2 0 =
      ⟨RING_BUFFER_ERROR_NONE, ⟨some [a, b, c, x₃], 4, 2, 3⟩, [a, b], 2⟩ := by
  have hv := valid_four a b c x₃ 0 3 (by omega) (by omega)
  have hf : item_count ⟨some [a, b, c, x₃], 4, 0, 3⟩ = 3 := by
    rw [item_count_eq _ hv]; rfl
  rw [RingBuffer_enGetItems_eq dbg _ _ [o₀, o₁] 2 0 hv rfl (check_of_pos dbg 2 (by omega)), hf]
  rfl

/-- Step 3 of the wraparound scenario: three items offered, two free slots, across the end
of the storage. -/
theorem wrap_step_put2 (dbg : Bool) (a b c d e f x₃ : RingBuffer_Item_t) :
    free_count ⟨some [a, b, c, x₃], 4, 2, 3⟩ = 2 ∧
    RingBuffer_enPutItems dbg ⟨some [a, b, c, x₃], 4, 2, 3⟩ [d, e, f] 3 0 =
      ⟨RING_BUFFER_ERROR_INSUFFICIENT_ITEMS, ⟨some [e, b, c, d], 4, 2, 1⟩, 2⟩ := by
  have hv := valid_four a b c x₃ 2 3 (by omega) (by omega)
  have hf : free_count ⟨some [a, b, c, x₃], 4, 2, 3⟩ = 2 := by
    rw [free_count_eq _ hv, item_count_eq _ hv]; rfl
  refine ⟨hf, ?_⟩
  rw [RingBuffer_enPutItems_eq dbg _ _ [d, e, f] 3 0 hv rfl (check_of_pos dbg 3 (by omega)), hf]
  simp [putStorage, memcpy, storeItems]

/-- The logical contents at the end of the wraparound scenario. -/
theorem wrap_step_contents (b c d e : RingBuffer_Item_t) :
    contents ⟨some [e, b, c, d], 4, 2, 1⟩ = [c, d, e] := by
  have hv := valid_four e b c d 2 1 (by omega) (by omega)
  have hf : item_count ⟨some [e, b, c, d], 4, 2, 1⟩ = 3 := by
    rw [item_count_eq _ hv]; rfl
  unfold contents
  rw [hf]
  simp [List.range, List.range.loop]

/-- C31: wraparound for `N = 4`.  From a freshly initialised buffer, a put of the three items
`a, b, c`, a get of two items and a put of the three items `d, e, f`: the second put stores
`min 3 free_count = 2` items, reports 2 with `INSUFFICIENT_ITEMS`, leaves `head = 2`,
`tail = 1` and the storage `[e, b, c, d]`, so the logical contents are `c, d, e`. -/
theorem wraparound_four (dbg : Bool) (rb₀ : RingBuffer_t)
    (a b c d e f x₀ x₁ x₂ x₃ o₀ o₁ : RingBuffer_Item_t) :
    RingBuffer_enInit dbg rb₀ (some [x₀, x₁, x₂, x₃]) 4 =
      ⟨RING_BUFFER_ERROR_NONE, ⟨some [x₀, x₁, x₂, x₃], 4, 0, 0⟩⟩ ∧
    RingBuffer_enPutItems dbg ⟨some [x₀, x₁, x₂, x₃], 4, 0, 0⟩ [a, b, c] 3 0 =
      ⟨RING_BUFFER_ERROR_NONE, ⟨some [a, b, c, x₃], 4, 0, 3⟩, 3⟩ ∧
    RingBuffer_enGetItems dbg ⟨some [a, b, c, x₃], 4, 0, 3⟩ [o₀, o₁] 2 0 =
      ⟨RING_BUFFER_ERROR_NONE, ⟨some [a, b, c, x₃], 4, 2, 3⟩, [a, b], 2⟩ ∧
    free_count ⟨some [a, b, c, x₃], 4, 2, 3⟩ = 2 ∧
    RingBuffer_enPutItems dbg ⟨some [a, b, c, x₃], 4, 2, 3⟩ [d, e, f] 3 0 =
      ⟨RING_BUFFER_ERROR_INSUFFICIENT_ITEMS, ⟨some [e, b, c, d], 4, 2, 1⟩,
        min 3 (free_count ⟨some [a, b, c, x₃], 4, 2, 3⟩)⟩ ∧
    RingBuffer_enPutItems dbg
        (RingBuffer_enGetItems dbg
          (RingBuffer_enPutItems dbg
            (RingBuffer_enInit dbg rb₀ (some [x₀, x₁, x₂, x₃]) 4).ring_buffer
            [a, b, c] 3 0).ring_buffer
          [o₀, o₁] 2 0).ring_buffer
        [d, e, f] 3 0 =
      ⟨RING_BUFFER_ERROR_INSUFFICIENT_ITEMS, ⟨some [e, b, c, d], 4, 2, 1⟩, 2⟩ ∧
    contents ⟨some [e, b, c, d], 4, 2, 1⟩ = [c, d, e] := by
  have h₀ := wrap_step_init dbg rb₀ x₀ x₁ x₂ x₃
  have h₁ := wrap_step_put dbg a b c x₀ x₁ x₂ x₃
  have h₂ := wrap_step_get dbg a b c x₃ o₀ o₁
  obtain ⟨hf, h₃⟩ := wrap_step_put2 dbg a b c d e f x₃
  refine ⟨h₀, h₁, h₂, hf, ?_, ?_, wrap_step_contents b c d e⟩
  · rw [hf]; exact h₃
  · rw [h₀, h₁, h₂]; exact h₃

/-- C32: end-to-end scenario for capacity 10, with the items `'a'..'i'` as their codes
`97..105`.  After init, nine single puts all return `NONE`; `RingBuffer_enIsFull` then stores
1; a get of 4 returns `"abcd"` with count 4 and `NONE`; a peek of 3 at offset 2 on the
remaining five items returns the three items 2 positions after the new head, `'g', 'h', 'i'`,
with count 3 and `NONE`, and `RingBuffer_enItemCount` then stores 5. -/
theorem end_to_end_scenario (dbg : Bool) :
    (RingBuffer_enInit dbg ⟨none, 0, 0, 0⟩ (some (List.replicate 10 0)) 10).error =
      RING_BUFFER_ERROR_NONE ∧
    (put_each dbg
      (RingBuffer_enInit dbg ⟨none, 0, 0, 0⟩ (some (List.replicate 10 0)) 10).ring_buffer
      [97, 98, 99, 100, 101, 102, 103, 104, 105]).1 =
      List.replicate 9 RING_BUFFER_ERROR_NONE ∧
    (put_each dbg
      (RingBuffer_enInit dbg ⟨none, 0, 0, 0⟩ (some (List.replicate 10 0)) 10).ring_buffer
      [97, 98, 99, 100, 101, 102, 103, 104, 105]).2 =
      ⟨some [97, 98, 99, 100, 101, 102, 103, 104, 105, 0], 10, 0, 9⟩ ∧
    (RingBuffer_enIsFull dbg
      ⟨some [97, 98, 99, 100, 101, 102, 103, 104, 105, 0], 10, 0, 9⟩ 0).counter = 1 ∧
    RingBuffer_enGetItems dbg
        ⟨some [97, 98, 99, 100, 101, 102, 103, 104, 105, 0], 10, 0, 9⟩ [0, 0, 0, 0] 4 0 =
      ⟨RING_BUFFER_ERROR_NONE, ⟨some [97, 98, 99, 100, 101, 102, 103, 104, 105, 0], 10, 4, 9⟩,
        [97, 98, 99, 100], 4⟩ ∧
    item_count ⟨some [97, 98, 99, 100, 101, 102, 103, 104, 105, 0], 10, 4, 9⟩ = 5 ∧
    RingBuffer_enPeekItems dbg
        ⟨some [97, 98, 99, 100, 101, 102, 103, 104, 105, 0], 10, 4, 9⟩ [0, 0, 0] 3 2 0 =
      ⟨RING_BUFFER_ERROR_NONE, ⟨some [97, 98, 99, 100, 101, 102, 103, 104, 105, 0], 10, 4, 9⟩,
        [103, 104, 105], 3⟩ ∧
    ((contents ⟨some [97, 98, 99, 100, 101, 102, 103, 104, 105, 0], 10, 4, 9⟩).drop 2).take 3 =
      [103, 104, 105] ∧
    (RingBuffer_enItemCount dbg
      ⟨some [97, 98, 99, 100, 101, 102, 103, 104, 105, 0], 10, 4, 9⟩ 0).counter = 5 := by
  cases dbg <;> decide

/-! ## Written and readable slots (C34, C35) -/

/-- Normal form of `RingBuffer_enPutItem` on a valid instance. -/
theorem RingBuffer_enPutItem_eq (dbg : Bool) (rb : RingBuffer_t) (st : List RingBuffer_Item_t)
    (item : RingBuffer_Item_t) (hv : valid rb) (hst : rb.data = some st) :
    RingBuffer_enPutItem dbg rb item =
      if (rb.tail + 1) % rb.size = rb.head then ⟨RING_BUFFER_ERROR_FULL, rb⟩
      else ⟨RING_BUFFER_ERROR_NONE,
        ⟨some (st.set rb.tail item), rb.size, rb.head, (rb.tail + 1) % rb.size⟩⟩ := by
  obtain ⟨h2, hN, hh, ht, _⟩ := hv
  have hadd : cadd rb.tail 1 = rb.tail + 1 := cadd_eq_add _ _ (by omega)
  have hnext : (if rb.tail + 1 = rb.size then 0 else rb.tail + 1) = (rb.tail + 1) % rb.size := by
    rw [mod_wrap (rb.tail + 1) rb.size (by omega)]; split_ifs <;> omega
  unfold RingBuffer_enPutItem
  simp only [hst, Option.isNone_some, Bool.and_false, Bool.false_eq_true, if_false, hadd, hnext,
    Option.map_some', memcpy_one]

/-- The storage and the reported count of `RingBuffer_enPutItems` on a valid instance, in both
the full and the non-full case. -/
theorem RingBuffer_enPutItems_data (dbg : Bool) (rb : RingBuffer_t)
    (st items : List RingBuffer_Item_t) (len c : Nat) (hv : valid rb) (hst : rb.data = some st)
    (hlen : 1 ≤ len) :
    (RingBuffer_enPutItems dbg rb items len c).ring_buffer.data =
        some (putStorage st items rb.size rb.tail (min len (free_count rb))) ∧
      (RingBuffer_enPutItems dbg rb items len c).counter = min len (free_count rb) := by
  rw [RingBuffer_enPutItems_eq dbg rb st items len c hv hst (check_of_pos dbg len hlen)]
  by_cases hf : free_count rb = 0
  · rw [if_pos hf, hf, Nat.min_zero, putStorage_zero]
    exact ⟨hst, rfl⟩
  · rw [if_neg hf]
    exact ⟨rfl, rfl⟩

/-- Slot `(t + i) mod n`, `i < k`, lies in one of the two written segments, at position `i`. -/
theorem written_slot (n t k i : Nat) (ht : t < n) (hk : k < n) (hi : i < k) :
    ((t ≤ (t + i) % n ∧ (t + i) % n < t + k ∧ (t + i) % n < n) ∧ (t + i) % n - t = i) ∨
      (¬ (t ≤ (t + i) % n ∧ (t + i) % n < t + k ∧ (t + i) % n < n) ∧
        (t + i) % n + n < t + k ∧ (t + i) % n + n - t = i) := by
  rw [mod_wrap (t + i) n (by omega)]
  split_ifs <;> omega

/-- A slot that is no `(t + i) mod n`, `i < k`, lies in neither written segment. -/
theorem unwritten_slot (n t k p : Nat) (ht : t < n) (hp : p < n)
    (hne : ∀ i, i < k → p ≠ (t + i) % n) :
    ¬ (t ≤ p ∧ p < t + k ∧ p < n) ∧ ¬ (p + n < t + k) := by
  refine ⟨?_, ?_⟩
  · intro h
    refine hne (p - t) (by omega) ?_
    rw [Nat.add_sub_cancel' h.1, Nat.mod_eq_of_lt hp]
  · intro h
    refine hne (p + n - t) (by omega) ?_
    have e : t + (p + n - t) = p + n := by omega
    rw [e, Nat.add_mod_right, Nat.mod_eq_of_lt hp]

/-- The slots written by a put of `k` free slots are not readable slots. -/
theorem written_not_readable (n h t k ic i j : Nat)
    (hic : ic = if h ≤ t then t - h else t + n - h) (hh : h < n) (ht : t < n)
    (hk : ic + k ≤ n - 1) (hi : i < k) (hj : j < ic) : (t + i) % n ≠ (h + j) % n := by
  rw [mod_wrap (t + i) n (by omega), mod_wrap (h + j) n (by omega)]
  split_ifs at hic ⊢ <;> omega

/-- C34: for every valid state, put and put_many write only free slots.  With `k` the reported
count of `RingBuffer_enPutItems`, slot `(tail + i) mod N` holds `items[i]` for `i < k`, every
other slot holds what it held, every readable slot `(head + j) mod N`, `j < item_count`, holds
what it held, and no written slot is a readable slot; `RingBuffer_enPutItem` writes slot `tail`
only, and only when it returns `NONE`, and slot `tail` is no readable slot. -/
theorem put_writes_free_slots (dbg : Bool) (rb : RingBuffer_t)
    (st items : List RingBuffer_Item_t) (item : RingBuffer_Item_t) (len c : Nat)
    (hv : valid rb) (hst : rb.data = some st) (hlen : 1 ≤ len) (hitems : len ≤ items.length) :
    (∃ st', (RingBuffer_enPutItems dbg rb items len c).ring_buffer.data = some st' ∧
      st'.length = rb.size ∧
      (∀ i, i < (RingBuffer_enPutItems dbg rb items len c).counter →
        st'[(rb.tail + i) % rb.size]? = items[i]?) ∧
      (∀ p, p < rb.size →
        (∀ i, i < (RingBuffer_enPutItems dbg rb items len c).counter →
          p ≠ (rb.tail + i) % rb.size) → st'[p]? = st[p]?) ∧
      (∀ j, j < item_count rb →
        st'[(rb.head + j) % rb.size]? = st[(rb.head + j) % rb.size]?)) ∧
    (∀ i j, i < (RingBuffer_enPutItems dbg rb items len c).counter → j < item_count rb →
      (rb.tail + i) % rb.size ≠ (rb.head + j) % rb.size) ∧
    (∃ st', (RingBuffer_enPutItem dbg rb item).ring_buffer.data = some st' ∧
      st'.length = rb.size ∧
      ((RingBuffer_enPutItem dbg rb item).error = RING_BUFFER_ERROR_NONE →
        st'[rb.tail]? = some item) ∧
      ((RingBuffer_enPutItem dbg rb item).error ≠ RING_BUFFER_ERROR_NONE → st' = st) ∧
      (∀ p, p ≠ rb.tail → st'[p]? = st[p]?) ∧
      (∀ j, j < item_count rb →
        st'[(rb.head + j) % rb.size]? = st[(rb.head + j) % rb.size]?)) ∧
    (∀ j, j < item_count rb → rb.tail ≠ (rb.head + j) % rb.size) := by
  obtain ⟨hD, hC⟩ := RingBuffer_enPutItems_data dbg rb st items len c hv hst hlen
  have hP := RingBuffer_enPutItem_eq dbg rb st item hv hst
  have hic := item_count_eq rb hv
  have hfc := free_count_eq rb hv
  have hib := item_count_le rb hv
  have hfb := free_count_le rb hv
  obtain ⟨st₀, hst₀, hstl⟩ := valid_data rb hv
  have hstl' : st.length = rb.size := by
    rw [hst] at hst₀; rw [Option.some.inj hst₀]; exact hstl
  obtain ⟨h2, hN, hh, ht, _⟩ := hv
  have htail : ∀ j, j < item_count rb → rb.tail ≠ (rb.head + j) % rb.size := by
    intro j hj
    rw [mod_wrap (rb.head + j) rb.size (by omega)]
    split_ifs at hic ⊢ <;> omega
  rw [hC]
  generalize hk : min len (free_count rb) = k at hD
  have hk1 : k ≤ free_count rb := by omega
  have hk2 : k < rb.size := by omega
  have hk3 : k ≤ items.length := by omega
  have hk4 : item_count rb + k ≤ rb.size - 1 := by omega
  have hget := fun p => put_storage_getElem? st items rb.size rb.tail k p hstl' ht hk2 hk3
  refine ⟨⟨_, hD, ?_, ?_, ?_, ?_⟩, ?_, ?_, htail⟩
  · rw [putStorage_length, hstl']
  · intro i hi
    rw [hget]
    rcases written_slot rb.size rb.tail k i ht hk2 hi with ⟨c1, e⟩ | ⟨c1, c2, e⟩
    · rw [if_pos c1, e]
    · rw [if_neg c1, if_pos c2, e]
  · intro p hp hne
    obtain ⟨c1, c2⟩ := unwritten_slot rb.size rb.tail k p ht hp hne
    rw [hget, if_neg c1, if_neg c2]
  · intro j hj
    obtain ⟨c1, c2⟩ :=
      old_slot_untouched rb.size rb.head rb.tail k (item_count rb) j hic hh ht hk4 hj
    rw [hget, if_neg c1, if_neg c2]
  · intro i j hi hj
    exact written_not_readable rb.size rb.head rb.tail k (item_count rb) i j hic hh ht hk4 hi hj
  · by_cases hfull : (rb.tail + 1) % rb.size = rb.head
    · rw [if_pos hfull] at hP
      rw [hP]
      exact ⟨st, hst, hstl', fun h => RingBuffer_Error_t.noConfusion h, fun _ => rfl, fun _ _ => rfl,
        fun _ _ => rfl⟩
    · rw [if_neg hfull] at hP
      rw [hP]
      refine ⟨_, rfl, ?_, ?_, ?_, ?_, ?_⟩
      · rw [List.length_set, hstl']
      · intro _
        rw [List.getElem?_set_self (by omega)]
      · intro h
        exact absurd rfl h
      · intro p hp
        rw [List.getElem?_set_ne (Ne.symm hp)]
      · intro j hj
        rw [List.getElem?_set_ne (htail j hj)]

/-- Witness of C34: three items put into a five slot buffer with `head = 2`, `tail = 4` (two
items, two free slots): slots 4 and 0 are written, slots 2 and 3 keep their items. -/
theorem put_writes_free_slots_witness :
    valid ⟨some [1, 2, 3, 4, 5], 5, 2, 4⟩ ∧
    (RingBuffer_enPutItems true ⟨some [1, 2, 3, 4, 5], 5, 2, 4⟩ [7, 8, 9] 3 0).counter = 2 ∧
    (RingBuffer_enPutItems true ⟨some [1, 2, 3, 4, 5], 5, 2, 4⟩ [7, 8, 9] 3 0).ring_buffer.data =
      some [8, 2, 3, 4, 7] ∧
    (∀ i j, i < (RingBuffer_enPutItems true ⟨some [1, 2, 3, 4, 5], 5, 2, 4⟩ [7, 8, 9] 3
        0).counter → j < item_count ⟨some [1, 2, 3, 4, 5], 5, 2, 4⟩ →
      (4 + i) % 5 ≠ (2 + j) % 5) :=
  ⟨by decide, by decide, by decide,
    (put_writes_free_slots true ⟨some [1, 2, 3, 4, 5], 5, 2, 4⟩ [1, 2, 3, 4, 5] [7, 8, 9] 0 3 0
      (by decide) rfl (by decide) (by decide)).2.1⟩

/-- The block read counts before and after consuming the first block, over the cursors. -/
theorem block_remainder_arith (n h t : Nat) (hh : h < n) (ht : t < n) :
    (if h < t then t - h else if h > t then n - h else 0) +
        (if (h + (if h < t then t - h else if h > t then n - h else 0)) % n < t then
            t - (h + (if h < t then t - h else if h > t then n - h else 0)) % n
          else if (h + (if h < t then t - h else if h > t then n - h else 0)) % n > t then
            n - (h + (if h < t then t - h else if h > t then n - h else 0)) % n
          else 0) =
        (if h ≤ t then t - h else t + n - h) ∧
      (h > t →
        (h + (if h < t then t - h else if h > t then n - h else 0)) % n = 0 ∧
        (if (h + (if h < t then t - h else if h > t then n - h else 0)) % n < t then
            t - (h + (if h < t then t - h else if h > t then n - h else 0)) % n
          else if (h + (if h < t then t - h else if h > t then n - h else 0)) % n > t then
            n - (h + (if h < t then t - h else if h > t then n - h else 0)) % n
          else 0) = t) := by
  rcases Nat.lt_trichotomy h t with hlt | heq | hgt
  · have e : (h + (if h < t then t - h else if h > t then n - h else 0)) % n = t := by
      rw [if_pos hlt, Nat.add_sub_cancel' (Nat.le_of_lt hlt), Nat.mod_eq_of_lt ht]
    rw [e, if_pos hlt, if_neg (Nat.lt_irrefl t), if_neg (Nat.lt_irrefl t),
      if_pos (Nat.le_of_lt hlt)]
    exact ⟨rfl, fun hgt => absurd hlt (Nat.lt_asymm hgt)⟩
  · subst heq
    have e : (h + (if h < h then h - h else if h > h then n - h else 0)) % n = h := by
      rw [if_neg (Nat.lt_irrefl h), if_neg (Nat.lt_irrefl h), Nat.add_zero, Nat.mod_eq_of_lt hh]
    rw [e, if_neg (Nat.lt_irrefl h), if_neg (Nat.lt_irrefl h), if_pos (Nat.le_refl h)]
    exact ⟨by omega, fun hgt => absurd hgt (Nat.lt_irrefl h)⟩
  · have e : (h + (if h < t then t - h else if h > t then n - h else 0)) % n = 0 := by
      rw [if_neg (Nat.lt_asymm hgt), if_pos hgt, Nat.add_sub_cancel' (Nat.le_of_lt hh),
        Nat.mod_self]
    rw [e, if_neg (Nat.lt_asymm hgt), if_pos hgt, if_neg (Nat.not_le.mpr hgt)]
    have e2 : (if 0 < t then t - 0 else if 0 > t then n - 0 else 0) = t := by
      split_ifs <;> omega
    rw [e2]
    exact ⟨by omega, fun _ => ⟨rfl, rfl⟩⟩

/-- The state after `RingBuffer_enSkipItems` of exactly the first readable block. -/
theorem skip_block_state (dbg : Bool) (rb : RingBuffer_t) (c : Nat) (hv : valid rb) :
    (RingBuffer_enSkipItems dbg rb
        (if rb.head < rb.tail then rb.tail - rb.head
          else if rb.head > rb.tail then rb.size - rb.head else 0) c).ring_buffer =
      { rb with head := (rb.head + (if rb.head < rb.tail then rb.tail - rb.head
          else if rb.head > rb.tail then rb.size - rb.head else 0)) % rb.size } := by
  have hic := item_count_eq rb hv
  have hv' := hv
  obtain ⟨h2, hN, hh, ht, _⟩ := hv
  generalize hk : (if rb.head < rb.tail then rb.tail - rb.head
    else if rb.head > rb.tail then rb.size - rb.head else 0) = k
  have hk1 : k ≤ item_count rb := by split_ifs at hk hic <;> omega
  have hk2 : k ≤ rb.size - rb.head := by split_ifs at hk <;> omega
  have hk3 : k = 0 → item_count rb = 0 := by split_ifs at hk hic <;> omega
  by_cases hz : k = 0
  · rw [hz, (zero_request_of_empty dbg rb [] c 0 hv' (hk3 hz)).1, Nat.add_zero,
      Nat.mod_eq_of_lt hh]
  · have hmin : min k (item_count rb) = k := Nat.min_eq_left hk1
    rw [RingBuffer_enSkipItems_eq dbg rb k c hv' (check_of_pos dbg k (by omega))
      (by rw [hmin]; omega), if_neg (by omega), hmin]

/-- C35: a second block read exposes the remainder.  For every valid state the block read
count plus the block read count of the state after skipping that first block equals
`item_count`; when `head > tail` the first block has `N - head` items, the skip wraps `head`
to 0 and the second block has `tail` items. -/
theorem block_read_remainder (dbg : Bool) (rb : RingBuffer_t) (c₀ c₁ c₂ : Nat)
    (hv : valid rb) :
    (RingBuffer_enBlockReadCount dbg rb c₀).counter +
        (RingBuffer_enBlockReadCount dbg
          (RingBuffer_enSkipItems dbg rb (RingBuffer_enBlockReadCount dbg rb c₀).counter
            c₁).ring_buffer c₂).counter = item_count rb ∧
      (rb.head > rb.tail →
        (RingBuffer_enBlockReadCount dbg rb c₀).counter = rb.size - rb.head ∧
        (RingBuffer_enSkipItems dbg rb (RingBuffer_enBlockReadCount dbg rb c₀).counter
          c₁).ring_buffer.head = 0 ∧
        (RingBuffer_enBlockReadCount dbg
          (RingBuffer_enSkipItems dbg rb (RingBuffer_enBlockReadCount dbg rb c₀).counter
            c₁).ring_buffer c₂).counter = rb.tail) := by
  have hC := (RingBuffer_enBlockRead_eq dbg rb 0 c₀ hv).2
  have hS := skip_block_state dbg rb c₁ hv
  have hv2 := valid_get rb (if rb.head < rb.tail then rb.tail - rb.head
    else if rb.head > rb.tail then rb.size - rb.head else 0) hv
  have hC2 := (RingBuffer_enBlockRead_eq dbg _ 0 c₂ hv2).2
  have hic := item_count_eq rb hv
  obtain ⟨h2, hN, hh, ht, _⟩ := hv
  obtain ⟨a1, a2⟩ := block_remainder_arith rb.size rb.head rb.tail hh ht
  rw [hC]
  show _ + (RingBuffer_enBlockReadCount dbg (RingBuffer_enSkipItems dbg rb
    (if rb.head < rb.tail then rb.tail - rb.head
      else if rb.head > rb.tail then rb.size - rb.head else 0) c₁).ring_buffer c₂).counter = _ ∧ _
  rw [hS, hC2, hic]
  refine ⟨a1, fun hgt => ⟨?_, (a2 hgt).1, (a2 hgt).2⟩⟩
  show (if rb.head < rb.tail then rb.tail - rb.head
    else if rb.head > rb.tail then rb.size - rb.head else 0) = rb.size - rb.head
  rw [if_neg (Nat.lt_asymm hgt), if_pos hgt]

/-- Witness of C35: a ten slot buffer with `head = 7`, `tail = 2` (five items): blocks of 3
and 2. -/
theorem block_read_remainder_witness :
    valid ⟨some (List.replicate 10 0), 10, 7, 2⟩ ∧
    (RingBuffer_enBlockReadCount true ⟨some (List.replicate 10 0), 10, 7, 2⟩ 0).counter = 3 ∧
    (RingBuffer_enBlockReadCount true ⟨some (List.replicate 10 0), 10, 7, 2⟩ 0).counter +
      (RingBuffer_enBlockReadCount true
        (RingBuffer_enSkipItems true ⟨some (List.replicate 10 0), 10, 7, 2⟩
          (RingBuffer_enBlockReadCount true ⟨some (List.replicate 10 0), 10, 7, 2⟩ 0).counter
          0).ring_buffer 0).counter =
      item_count ⟨some (List.replicate 10 0), 10, 7, 2⟩ :=
  ⟨by decide, by decide,
    (block_read_remainder true ⟨some (List.replicate 10 0), 10, 7, 2⟩ 0 0 0 (by decide)).1⟩

/-! ## Bulk transfers against repeated single transfers (C36, C37) -/

/-- An item of a list with a first element, past the first. -/
theorem getElem?_cons_pred (x : RingBuffer_Item_t) (xs : List RingBuffer_Item_t) (a : Nat)
    (ha : 1 ≤ a) : (x :: xs)[a]? = xs[a - 1]? := by
  obtain ⟨b, rfl⟩ : ∃ b, a = b + 1 := ⟨a - 1, by omega⟩
  rw [List.getElem?_cons_succ, Nat.add_sub_cancel]

/-- Equal indices read equal items. -/
theorem getElem?_congr (xs : List RingBuffer_Item_t) (a b : Nat) (h : a = b) :
    xs[a]? = xs[b]? := by rw [h]

/-- A put of `x` followed by a two segment transfer of `m` items is the two segment transfer
of the `m + 1` items. -/
theorem putStorage_cons (st xs : List RingBuffer_Item_t) (x : RingBuffer_Item_t) (n t m : Nat)
    (hst : st.length = n) (ht : t < n) (hm : m + 1 < n) (hxs : m ≤ xs.length) :
    putStorage (st.set t x) xs n ((t + 1) % n) m = putStorage st (x :: xs) n t (m + 1) := by
  apply List.ext_getElem?
  intro j
  have hl : (x :: xs).length = xs.length + 1 := rfl
  rw [put_storage_getElem? (st.set t x) xs n ((t + 1) % n) m j
      (by rw [List.length_set]; exact hst) (Nat.mod_lt _ (by omega)) (by omega) hxs,
    put_storage_getElem? st (x :: xs) n t (m + 1) j hst ht hm (by rw [hl]; omega),
    mod_wrap (t + 1) n (by omega)]
  by_cases hjt : j = t
  · subst hjt
    have c1 : j ≤ j ∧ j < j + (m + 1) ∧ j < n := by omega
    rw [if_pos c1, Nat.sub_self, List.getElem?_cons_zero, List.getElem?_set_self (by omega)]
    by_cases hw : n ≤ j + 1
    · rw [if_pos hw]
      have d1 : ¬ (j + 1 - n ≤ j ∧ j < j + 1 - n + m ∧ j < n) := by omega
      have d2 : ¬ (j + n < j + 1 - n + m) := by omega
      rw [if_neg d1, if_neg d2]
    · rw [if_neg hw]
      have d1 : ¬ (j + 1 ≤ j ∧ j < j + 1 + m ∧ j < n) := by omega
      have d2 : ¬ (j + n < j + 1 + m) := by omega
      rw [if_neg d1, if_neg d2]
  · rw [List.getElem?_set_ne (Ne.symm hjt)]
    by_cases hw : n ≤ t + 1
    · rw [if_pos hw]
      have hc1 : ¬ (t ≤ j ∧ j < t + (m + 1) ∧ j < n) := by omega
      rw [if_neg hc1]
      by_cases hj : j < m
      · have d1 : t + 1 - n ≤ j ∧ j < t + 1 - n + m ∧ j < n := by omega
        have d2 : j + n < t + (m + 1) := by omega
        rw [if_pos d1, if_pos d2, getElem?_cons_pred x xs _ (by omega)]
        exact getElem?_congr xs _ _ (by omega)
      · have d1 : ¬ (t + 1 - n ≤ j ∧ j < t + 1 - n + m ∧ j < n) := by omega
        have d2 : ¬ (j + n < t + 1 - n + m) := by omega
        have d3 : ¬ (j + n < t + (m + 1)) := by omega
        rw [if_neg d1, if_neg d2, if_neg d3]
    · rw [if_neg hw]
      by_cases hc1 : t ≤ j ∧ j < t + (m + 1) ∧ j < n
      · have d1 : t + 1 ≤ j ∧ j < t + 1 + m ∧ j < n := by omega
        rw [if_pos hc1, if_pos d1, getElem?_cons_pred x xs _ (by omega)]
        exact getElem?_congr xs _ _ (by omega)
      · have d1 : ¬ (t + 1 ≤ j ∧ j < t + 1 + m ∧ j < n) := by omega
        rw [if_neg hc1, if_neg d1]
        by_cases hc2 : j + n < t + (m + 1)
        · have d2 : j + n < t + 1 + m := by omega
          rw [if_pos hc2, if_pos d2, getElem?_cons_pred x xs _ (by omega)]
          exact getElem?_congr xs _ _ (by omega)
        · have d2 : ¬ (j + n < t + 1 + m) := by omega
          rw [if_neg hc2, if_neg d2]

/-- The cursor after one step and `m` further steps. -/
theorem cursor_step (t m n : Nat) : ((t + 1) % n + m) % n = (t + (m + 1)) % n := by
  rw [Nat.add_mod, Nat.mod_mod, ← Nat.add_mod]
  exact congrArg (fun a => a % n) (by omega)

/-- The free space after one put, over the cursors. -/
theorem free_after_put (n h t : Nat) (hh : h < n) (ht : t < n) (hnf : (t + 1) % n ≠ h) :
    (n - 1 - if h ≤ (t + 1) % n then (t + 1) % n - h else (t + 1) % n + n - h) + 1 =
      n - 1 - if h ≤ t then t - h else t + n - h := by
  rw [mod_wrap (t + 1) n (by omega)] at hnf ⊢
  split_ifs at hnf ⊢ <;> omega

/-- A buffer is full exactly when the next write cursor is the read cursor, over the cursors. -/
theorem full_iff_free (n h t : Nat) (h2 : 2 ≤ n) (hh : h < n) (ht : t < n) :
    (t + 1) % n = h ↔ (n - 1 - if h ≤ t then t - h else t + n - h) = 0 := by
  rw [mod_wrap (t + 1) n (by omega)]
  split_ifs <;> omega

/-- Repeated single puts on a valid instance: the storage, the write cursor and the number of
successes are those of one two segment transfer of `min len free_count` items. -/
theorem repeated_put_eq (dbg : Bool) (len : Nat) :
    ∀ (rb : RingBuffer_t) (st items : List RingBuffer_Item_t), valid rb → rb.data = some st →
      len ≤ items.length →
      repeated_put dbg rb items len =
        (⟨some (putStorage st items rb.size rb.tail (min len (free_count rb))), rb.size,
          rb.head, (rb.tail + min len (free_count rb)) % rb.size⟩, min len (free_count rb)) := by
  induction len with
  | zero =>
    intro rb st items hv hst _
    obtain ⟨h2, hN, hh, ht, _⟩ := hv
    rw [Nat.zero_min, putStorage_zero, Nat.add_zero, Nat.mod_eq_of_lt ht, ← hst]
    cases items <;> rfl
  | succ len ih =>
    intro rb st items hv hst hlen
    cases items with
    | nil => exact absurd hlen (by simp)
    | cons x xs =>
      have hxs : len ≤ xs.length := by
        have : (x :: xs).length = xs.length + 1 := rfl
        omega
      have hP := RingBuffer_enPutItem_eq dbg rb st x hv hst
      have hic := item_count_eq rb hv
      have hfc := free_count_eq rb hv
      have hfb := free_count_le rb hv
      obtain ⟨st₀, hst₀, hstl⟩ := valid_data rb hv
      have hstl' : st.length = rb.size := by
        rw [hst] at hst₀; rw [Option.some.inj hst₀]; exact hstl
      have hv' := hv
      obtain ⟨h2, hN, hh, ht, _⟩ := hv
      have hfull := full_iff_free rb.size rb.head rb.tail h2 hh ht
      rw [← hic, ← hfc] at hfull
      unfold repeated_put
      by_cases hf : (rb.tail + 1) % rb.size = rb.head
      · have hf0 : free_count rb = 0 := hfull.mp hf
        rw [if_pos hf] at hP
        rw [hP, if_neg (fun h => RingBuffer_Error_t.noConfusion h), hf0, Nat.min_zero,
          putStorage_zero, Nat.add_zero, Nat.mod_eq_of_lt ht, ← hst]
      · have hfpos : free_count rb ≠ 0 := fun h => hf (hfull.mpr h)
        rw [if_neg hf] at hP
        have hv1 : valid ⟨some (st.set rb.tail x), rb.size, rb.head,
            (rb.tail + 1) % rb.size⟩ :=
          ⟨h2, hN, hh, Nat.mod_lt _ (by omega), by
            rw [Option.map_some', List.length_set, hstl']⟩
        have hf1 : free_count ⟨some (st.set rb.tail x), rb.size, rb.head,
            (rb.tail + 1) % rb.size⟩ + 1 = free_count rb := by
          rw [free_count_eq _ hv1, item_count_eq _ hv1, hfc, hic]
          exact free_after_put rb.size rb.head rb.tail hh ht hf
        have hI := ih _ (st.set rb.tail x) xs hv1 rfl hxs
        rw [hP, if_pos rfl, hI]
        generalize hm : min len (free_count ⟨some (st.set rb.tail x), rb.size, rb.head,
            (rb.tail + 1) % rb.size⟩) = m
        have hm1 : min (len + 1) (free_count rb) = m + 1 := by omega
        rw [hm1, cursor_step,
          putStorage_cons st xs x rb.size rb.tail m hstl' ht (by omega) (by omega)]

/-- C36: put_many is equivalent to repeated put.  For every valid state, `len ≥ 1` and at
least `len` input items, the instance (head, tail, size, storage) after
`RingBuffer_enPutItems` equals the instance after calling `RingBuffer_enPutItem` on
`items[0]`, `items[1]`, ... in order, stopping after `len` items or at the first `FULL`, and
the reported count equals the number of single puts that returned `NONE`. -/
theorem putItems_refines_repeated_put (dbg : Bool) (rb : RingBuffer_t)
    (items : List RingBuffer_Item_t) (len c : Nat) (hv : valid rb) (hlen : 1 ≤ len)
    (hitems : len ≤ items.length) :
    (RingBuffer_enPutItems dbg rb items len c).ring_buffer =
        (repeated_put dbg rb items len).1 ∧
      (RingBuffer_enPutItems dbg rb items len c).counter = (repeated_put dbg rb items len).2 := by
  obtain ⟨st, hst, _⟩ := valid_data rb hv
  rw [repeated_put_eq dbg len rb st items hv hst hitems,
    RingBuffer_enPutItems_eq dbg rb st items len c hv hst (check_of_pos dbg len hlen)]
  by_cases hf : free_count rb = 0
  · have ht := hv.2.2.2.1
    rw [if_pos hf, hf, Nat.min_zero, putStorage_zero, Nat.add_zero, Nat.mod_eq_of_lt ht, ← hst]
    exact ⟨rfl, rfl⟩
  · rw [if_neg hf]
    exact ⟨rfl, rfl⟩

/-- Witness of C36: three items offered to a five slot buffer with two free slots. -/
theorem putItems_refines_repeated_put_witness :
    valid ⟨some [1, 2, 3, 4, 5], 5, 2, 4⟩ ∧
    (repeated_put true ⟨some [1, 2, 3, 4, 5], 5, 2, 4⟩ [7, 8, 9] 3).2 = 2 ∧
    (RingBuffer_enPutItems true ⟨some [1, 2, 3, 4, 5], 5, 2, 4⟩ [7, 8, 9] 3 0).ring_buffer =
      (repeated_put true ⟨some [1, 2, 3, 4, 5], 5, 2, 4⟩ [7, 8, 9] 3).1 :=
  ⟨by decide, by decide,
    (putItems_refines_repeated_put true ⟨some [1, 2, 3, 4, 5], 5, 2, 4⟩ [7, 8, 9] 3 0
      (by decide) (by decide) (by decide)).1⟩

/-- Normal form of `RingBuffer_enGetItem` on a valid instance. -/
theorem RingBuffer_enGetItem_eq (dbg : Bool) (rb : RingBuffer_t) (st : List RingBuffer_Item_t)
    (item : RingBuffer_Item_t) (hv : valid rb) (hst : rb.data = some st) :
    RingBuffer_enGetItem dbg rb item =
      if rb.head = rb.tail then ⟨RING_BUFFER_ERROR_EMPTY, rb, item⟩
      else ⟨RING_BUFFER_ERROR_NONE, { rb with head := (rb.head + 1) % rb.size },
        st.getD rb.head 0⟩ := by
  obtain ⟨st₀, hst₀, hstl₀⟩ := valid_data rb hv
  have hstl : st.length = rb.size := by
    rw [hst] at hst₀; rw [Option.some.inj hst₀]; exact hstl₀
  obtain ⟨h2, hN, hh, ht, _⟩ := hv
  have hadd : cadd rb.head 1 = rb.head + 1 := cadd_eq_add _ _ (by omega)
  have hnext : (if rb.head + 1 = rb.size then 0 else rb.head + 1) = (rb.head + 1) % rb.size := by
    rw [mod_wrap (rb.head + 1) rb.size (by omega)]; split_ifs <;> omega
  have hcopy : (memcpy [item] 0 st rb.head 1).headD item = st.getD rb.head 0 := by
    have h0 := memcpy_getElem? [item] st 0 rb.head 1 0 (by omega) (by simp)
    have hl := memcpy_length [item] st 0 rb.head 1
    have hc : 0 ≤ 0 ∧ 0 < 0 + 1 := by omega
    rw [if_pos hc] at h0
    rw [List.getD_eq_getElem?_getD]
    cases hm : memcpy [item] 0 st rb.head 1 with
    | nil => rw [hm] at hl; simp at hl
    | cons y ys =>
      rw [hm] at h0
      simp only [List.getElem?_cons_zero, Nat.sub_self, Nat.add_zero] at h0
      rw [← h0]; rfl
  unfold RingBuffer_enGetItem
  simp only [hst, Option.isNone_some, Bool.and_false, Bool.false_eq_true, if_false, hadd, hnext,
    Option.getD_some, hcopy]

/-- The cursor after one step and `min len (ic - 1)` further steps. -/
theorem cursor_step_min (h n len ic : Nat) (hpos : 0 < ic) :
    ((h + 1) % n + min len (ic - 1)) % n = (h + min (len + 1) ic) % n := by
  rw [Nat.add_mod, Nat.mod_mod, ← Nat.add_mod]
  exact congrArg (fun a => a % n) (by omega)

/-- Repeated single gets on a valid instance: the items are the first `len` logical items and
the read cursor moves by their number. -/
theorem repeated_get_eq (dbg : Bool) (len : Nat) :
    ∀ (rb : RingBuffer_t), valid rb →
      repeated_get dbg rb len =
        ({ rb with head := (rb.head + min len (item_count rb)) % rb.size },
          (contents rb).take len) := by
  induction len with
  | zero =>
    intro rb hv
    obtain ⟨h2, hN, hh, ht, _⟩ := hv
    rw [Nat.zero_min, Nat.add_zero, Nat.mod_eq_of_lt hh, List.take_zero]
    rfl
  | succ len ih =>
    intro rb hv
    obtain ⟨st, hst, _⟩ := valid_data rb hv
    have hG := RingBuffer_enGetItem_eq dbg rb st 0 hv hst
    have hic := item_count_eq rb hv
    unfold repeated_get
    by_cases he : rb.head = rb.tail
    · have h0 : item_count rb = 0 := by
        rw [hic, if_pos (Nat.le_of_eq he), he, Nat.sub_self]
      have hnil : contents rb = [] :=
        List.eq_nil_of_length_eq_zero (by rw [contents_length, h0])
      have hh := hv.2.2.1
      rw [if_pos he] at hG
      rw [hG, if_neg (fun h => RingBuffer_Error_t.noConfusion h), h0, Nat.min_zero,
        Nat.add_zero, Nat.mod_eq_of_lt hh, hnil, List.take_nil]
    · have hpos : 0 < item_count rb := by
        have hh := hv.2.2.1
        have ht := hv.2.2.2.1
        split_ifs at hic <;> omega
      rw [if_neg he] at hG
      have hv1 := valid_get rb 1 hv
      have hc1 := contents_get rb 1 hv hpos
      have hl1 : item_count ({ rb with head := (rb.head + 1) % rb.size } : RingBuffer_t) =
          item_count rb - 1 := by
        rw [← contents_length, hc1, List.length_drop, contents_length]
      have hI := ih _ hv1
      have h0 := contents_getElem? rb 0
      have hh := hv.2.2.1
      rw [if_pos hpos, hst, Option.getD_some, Nat.add_zero, Nat.mod_eq_of_lt hh] at h0
      have hcons : contents rb = st.getD rb.head 0 :: (contents rb).drop 1 := by
        cases hc : contents rb with
        | nil => rw [hc] at h0; exact absurd h0 (by simp)
        | cons y ys =>
          rw [hc, List.getElem?_cons_zero] at h0
          rw [Option.some.inj h0]
          rfl
      rw [hG, if_pos rfl, hI, hl1, hc1]
      show (({ rb with head := ((rb.head + 1) % rb.size + min len (item_count rb - 1)) %
          rb.size } : RingBuffer_t), st.getD rb.head 0 :: ((contents rb).drop 1).take len) = _
      rw [cursor_step_min rb.head rb.size len (item_count rb) hpos]
      conv_rhs => rw [hcons]
      rw [List.take_succ_cons]

/-- C37: get_many is equivalent to repeated get.  For every valid state, `len ≥ 1` and an
output array of at least `len` cells, the instance after `RingBuffer_enGetItems` equals the
instance after calling `RingBuffer_enGetItem` repeatedly, stopping after `len` items or at the
first `EMPTY`; the reported count equals the number of successful single gets, and the first
`count` output items are the items of the single gets, in order. -/
theorem getItems_refines_repeated_get (dbg : Bool) (rb : RingBuffer_t)
    (out : List RingBuffer_Item_t) (len c : Nat) (hv : valid rb) (hlen : 1 ≤ len)
    (hout : len ≤ out.length) :
    (RingBuffer_enGetItems dbg rb out len c).ring_buffer = (repeated_get dbg rb len).1 ∧
      (RingBuffer_enGetItems dbg rb out len c).counter = (repeated_get dbg rb len).2.length ∧
      (RingBuffer_enGetItems dbg rb out len c).items.take
          (RingBuffer_enGetItems dbg rb out len c).counter = (repeated_get dbg rb len).2 := by
  obtain ⟨st, hst, _⟩ := valid_data rb hv
  have ho := output_get rb st out (min len (item_count rb)) hv hst (Nat.min_le_right _ _)
    (Nat.le_trans (Nat.min_le_left _ _) hout)
  rw [repeated_get_eq dbg len rb hv,
    RingBuffer_enGetItems_eq dbg rb st out len c hv hst (check_of_pos dbg len hlen)]
  have hh := hv.2.2.1
  have htk : (contents rb).take (min len (item_count rb)) = (contents rb).take len := by
    by_cases hle : len ≤ item_count rb
    · rw [Nat.min_eq_left hle]
    · have hl : (contents rb).length ≤ len := by rw [contents_length]; omega
      rw [Nat.min_eq_right (by omega), List.take_of_length_le hl,
        List.take_of_length_le (by rw [contents_length])]
  by_cases hf : item_count rb = 0
  · have hnil : contents rb = [] :=
      List.eq_nil_of_length_eq_zero (by rw [contents_length, hf])
    rw [if_pos hf, hf, Nat.min_zero, Nat.add_zero, Nat.mod_eq_of_lt hh, hnil, List.take_nil]
    exact ⟨rfl, rfl, rfl⟩
  · rw [if_neg hf]
    refine ⟨rfl, ?_, ?_⟩
    · show min len (item_count rb) = ((contents rb).take len).length
      rw [List.length_take, contents_length]
    · show (getOutput out st rb.size rb.head (min len (item_count rb))).take
        (min len (item_count rb)) = (contents rb).take len
      rw [ho, htk]

/-- Witness of C37: four items asked from a five slot buffer that holds three, across the
end of the storage. -/
theorem getItems_refines_repeated_get_witness :
    valid ⟨some [1, 2, 3, 4, 5], 5, 3, 1⟩ ∧
    (repeated_get true ⟨some [1, 2, 3, 4, 5], 5, 3, 1⟩ 4).2 = [4, 5, 1] ∧
    (RingBuffer_enGetItems true ⟨some [1, 2, 3, 4, 5], 5, 3, 1⟩ [0, 0, 0, 0] 4 0).ring_buffer =
      (repeated_get true ⟨some [1, 2, 3, 4, 5], 5, 3, 1⟩ 4).1 ∧
    (RingBuffer_enGetItems true ⟨some [1, 2, 3, 4, 5], 5, 3, 1⟩ [0, 0, 0, 0] 4 0).items.take
      (RingBuffer_enGetItems true ⟨some [1, 2, 3, 4, 5], 5, 3, 1⟩ [0, 0, 0, 0] 4 0).counter =
      (repeated_get true ⟨some [1, 2, 3, 4, 5], 5, 3, 1⟩ 4).2 :=
  ⟨by decide, by decide,
    (getItems_refines_repeated_get true ⟨some [1, 2, 3, 4, 5], 5, 3, 1⟩ [0, 0, 0, 0] 4 0
      (by decide) (by decide) (by decide)).1,
    (getItems_refines_repeated_get true ⟨some [1, 2, 3, 4, 5], 5, 3, 1⟩ [0, 0, 0, 0] 4 0
      (by decide) (by decide) (by decide)).2.2⟩

/-! ## Block counts, round trip and counter width (C38 to C40) -/

/-- The block counts are the totals cut at the end of the storage, over the cursors. -/
theorem block_counts_arith (n h t ic fc : Nat) (hh : h < n) (ht : t < n)
    (hic : ic = if h ≤ t then t - h else t + n - h) (hfc : fc = n - 1 - ic) :
    (if h < t then t - h else if h > t then n - h else 0) = min ic (n - h) ∧
      (if h ≤ t then (if h = 0 then n - t - 1 else n - t) else h - t - 1) = min fc (n - t) := by
  subst hfc
  split_ifs at hic ⊢ <;> omega

/-- A transfer that ends before the end of the storage is one copy. -/
theorem putStorage_one_segment (st items : List RingBuffer_Item_t) (n t k : Nat)
    (hk : t + k ≤ n) : putStorage st items n t k = memcpy st t items 0 k := by
  have h1 : min (n - t) k = k := by omega
  have h2 : k - (n - t) = 0 := by omega
  unfold putStorage
  rw [h1, h2, memcpy_zero]

/-- C38: for every valid state the block read count is `min item_count (N - head)` and the
block write count is `min free_count (N - tail)`, so neither exceeds its total; and when the
block write count is positive, `RingBuffer_enPutItems` and `RingBuffer_enAdvance` with that
length return `NONE`, report that length and touch the single segment
`[tail, tail + count)`, which ends at or before the end of the storage (the put is one copy). -/
theorem block_counts_spec (dbg : Bool) (rb : RingBuffer_t) (items : List RingBuffer_Item_t)
    (c₀ c₁ c₂ c₃ : Nat) (hv : valid rb) :
    (RingBuffer_enBlockReadCount dbg rb c₀).counter = min (item_count rb) (rb.size - rb.head) ∧
    (RingBuffer_enBlockWriteCount dbg rb c₁).counter =
      min (free_count rb) (rb.size - rb.tail) ∧
    (RingBuffer_enBlockReadCount dbg rb c₀).counter ≤ item_count rb ∧
    (RingBuffer_enBlockWriteCount dbg rb c₁).counter ≤ free_count rb ∧
    (0 < (RingBuffer_enBlockWriteCount dbg rb c₁).counter →
      rb.tail + (RingBuffer_enBlockWriteCount dbg rb c₁).counter ≤ rb.size ∧
      RingBuffer_enPutItems dbg rb items (RingBuffer_enBlockWriteCount dbg rb c₁).counter c₂ =
        ⟨RING_BUFFER_ERROR_NONE,
          { rb with
            data := rb.data.map (fun st => memcpy st rb.tail items 0
              (RingBuffer_enBlockWriteCount dbg rb c₁).counter),
            tail := (rb.tail + (RingBuffer_enBlockWriteCount dbg rb c₁).counter) % rb.size },
          (RingBuffer_enBlockWriteCount dbg rb c₁).counter⟩ ∧
      RingBuffer_enAdvance dbg rb (RingBuffer_enBlockWriteCount dbg rb c₁).counter c₃ =
        ⟨RING_BUFFER_ERROR_NONE,
          { rb with
            tail := (rb.tail + (RingBuffer_enBlockWriteCount dbg rb c₁).counter) % rb.size },
          (RingBuffer_enBlockWriteCount dbg rb c₁).counter⟩) := by
  obtain ⟨st, hst, _⟩ := valid_data rb hv
  have hR := (RingBuffer_enBlockRead_eq dbg rb 0 c₀ hv).2
  have hW := (RingBuffer_enBlockWrite_eq dbg rb 0 c₁ hv).2
  have hic := item_count_eq rb hv
  have hfc := free_count_eq rb hv
  have hv' := hv
  obtain ⟨h2, hN, hh, ht, _⟩ := hv
  obtain ⟨a1, a2⟩ :=
    block_counts_arith rb.size rb.head rb.tail (item_count rb) (free_count rb) hh ht hic hfc
  rw [hR, hW]
  show _ = _ ∧ _ = _ ∧ (if rb.head < rb.tail then rb.tail - rb.head
      else if rb.head > rb.tail then rb.size - rb.head else 0) ≤ _ ∧
    (if rb.head ≤ rb.tail then (if rb.head = 0 then rb.size - rb.tail - 1
      else rb.size - rb.tail) else rb.head - rb.tail - 1) ≤ _ ∧
    (0 < (if rb.head ≤ rb.tail then (if rb.head = 0 then rb.size - rb.tail - 1
      else rb.size - rb.tail) else rb.head - rb.tail - 1) → _)
  rw [a1, a2]
  generalize hk : min (free_count rb) (rb.size - rb.tail) = k
  have hk1 : k ≤ free_count rb := by omega
  have hk2 : rb.tail + k ≤ rb.size := by omega
  refine ⟨rfl, rfl, Nat.min_le_left _ _, hk1, ?_⟩
  intro hpos
  have hmin : min k (free_count rb) = k := Nat.min_eq_left hk1
  refine ⟨hk2, ?_, ?_⟩
  · rw [RingBuffer_enPutItems_eq dbg rb st items k c₂ hv' hst (check_of_pos dbg k hpos),
      if_neg (by omega), if_neg (by omega), hmin,
      putStorage_one_segment st items rb.size rb.tail k hk2, hst]
    rfl
  · exact (advance_no_wrap dbg rb k c₃ hv' hpos hk1 (by omega)).1

/-- Witness of C38: a ten slot buffer with `head = 3`, `tail = 8` has four free slots, two of
them before the end of the storage. -/
theorem block_counts_spec_witness :
    valid ⟨some (List.replicate 10 0), 10, 3, 8⟩ ∧
    (RingBuffer_enBlockWriteCount true ⟨some (List.replicate 10 0), 10, 3, 8⟩ 0).counter =
      min (free_count ⟨some (List.replicate 10 0), 10, 3, 8⟩) (10 - 8) ∧
    8 + (RingBuffer_enBlockWriteCount true ⟨some (List.replicate 10 0), 10, 3, 8⟩ 0).counter ≤
      10 :=
  ⟨by decide,
    (block_counts_spec true ⟨some (List.replicate 10 0), 10, 3, 8⟩ [1, 2] 0 0 0 0
      (by decide)).2.1,
    ((block_counts_spec true ⟨some (List.replicate 10 0), 10, 3, 8⟩ [1, 2] 0 0 0 0
      (by decide)).2.2.2.2 (by decide)).1⟩

/-- Normal forms of a put of `k ≤ free_count` items followed by a get of `k` items. -/
theorem put_get_normal (dbg : Bool) (rb : RingBuffer_t) (st items out : List RingBuffer_Item_t)
    (k c c' : Nat) (hv : valid rb) (hst : rb.data = some st) (hk1 : 1 ≤ k)
    (hk2 : k ≤ free_count rb) (hitems : k ≤ items.length) (hout : k ≤ out.length) :
    RingBuffer_enPutItems dbg rb items k c =
        ⟨RING_BUFFER_ERROR_NONE,
          ⟨some (putStorage st items rb.size rb.tail k), rb.size, rb.head,
            (rb.tail + k) % rb.size⟩, k⟩ ∧
      RingBuffer_enGetItems dbg
          ⟨some (putStorage st items rb.size rb.tail k), rb.size, rb.head,
            (rb.tail + k) % rb.size⟩ out k c' =
        ⟨RING_BUFFER_ERROR_NONE,
          ⟨some (putStorage st items rb.size rb.tail k), rb.size, (rb.head + k) % rb.size,
            (rb.tail + k) % rb.size⟩,
          getOutput out (putStorage st items rb.size rb.tail k) rb.size rb.head k, k⟩ ∧
      (getOutput out (putStorage st items rb.size rb.tail k) rb.size rb.head k).take k =
        (contents rb ++ items.take k).take k := by
  have hchk := check_of_pos dbg k hk1
  have hv1 := valid_put rb st items k hv hst
  have hc1 := contents_put rb st items k hv hst hk2 hitems
  have hl1 := congrArg List.length hc1
  rw [contents_length, List.length_append, contents_length, List.length_take,
    Nat.min_eq_left hitems] at hl1
  have ho := output_get _ (putStorage st items rb.size rb.tail k) out k hv1 rfl
    (by rw [hl1]; omega) hout
  refine ⟨?_, ?_, ?_⟩
  · rw [RingBuffer_enPutItems_eq dbg rb st items k c hv hst hchk, if_neg (by omega),
      Nat.min_eq_left hk2, if_neg (by omega)]
  · rw [RingBuffer_enGetItems_eq dbg _ (putStorage st items rb.size rb.tail k) out k c' hv1 rfl
      hchk, hl1, if_neg (by omega), Nat.min_eq_left (by omega), if_neg (by omega)]
  · rw [← hc1]; exact ho

/-- C39: round trip from an empty buffer.  For every valid empty state (`head = tail`) and
every `k` with `1 ≤ k ≤ N - 1`, a put of `k` items followed by a get of `k` items returns those
`k` items in the same order, both calls return `NONE` with count `k`, and the buffer is empty
again with `head = tail = (h + k) mod N`. -/
theorem round_trip_empty (dbg : Bool) (rb : RingBuffer_t) (items out : List RingBuffer_Item_t)
    (k c c' c'' : Nat) (hv : valid rb) (he : rb.head = rb.tail) (hk1 : 1 ≤ k)
    (hk2 : k ≤ rb.size - 1) (hitems : k ≤ items.length) (hout : k ≤ out.length) :
    (RingBuffer_enPutItems dbg rb items k c).error = RING_BUFFER_ERROR_NONE ∧
    (RingBuffer_enPutItems dbg rb items k c).counter = k ∧
    (RingBuffer_enGetItems dbg (RingBuffer_enPutItems dbg rb items k c).ring_buffer
      out k c').error = RING_BUFFER_ERROR_NONE ∧
    (RingBuffer_enGetItems dbg (RingBuffer_enPutItems dbg rb items k c).ring_buffer
      out k c').counter = k ∧
    (RingBuffer_enGetItems dbg (RingBuffer_enPutItems dbg rb items k c).ring_buffer
      out k c').items.take k = items.take k ∧
    (RingBuffer_enGetItems dbg (RingBuffer_enPutItems dbg rb items k c).ring_buffer
      out k c').ring_buffer.head = (rb.head + k) % rb.size ∧
    (RingBuffer_enGetItems dbg (RingBuffer_enPutItems dbg rb items k c).ring_buffer
      out k c').ring_buffer.tail = (rb.head + k) % rb.size ∧
    (RingBuffer_enIsEmpty dbg
      (RingBuffer_enGetItems dbg (RingBuffer_enPutItems dbg rb items k c).ring_buffer
        out k c').ring_buffer c'').counter = 1 ∧
    item_count (RingBuffer_enGetItems dbg (RingBuffer_enPutItems dbg rb items k c).ring_buffer
      out k c').ring_buffer = 0 := by
  obtain ⟨st, hst, _⟩ := valid_data rb hv
  have hic := item_count_eq rb hv
  have hfc := free_count_eq rb hv
  have h0 : item_count rb = 0 := by
    rw [hic, if_pos (Nat.le_of_eq he), he, Nat.sub_self]
  have hfree : k ≤ free_count rb := by rw [hfc, h0]; exact hk2
  have hnil : contents rb = [] := List.eq_nil_of_length_eq_zero (by rw [contents_length, h0])
  obtain ⟨hp, hg, ho⟩ := put_get_normal dbg rb st items out k c c' hv hst hk1 hfree hitems hout
  have hv2 : valid ⟨some (putStorage st items rb.size rb.tail k), rb.size,
      (rb.head + k) % rb.size, (rb.tail + k) % rb.size⟩ :=
    valid_get _ k (valid_put rb st items k hv hst)
  have hE := RingBuffer_enIsEmpty_eq dbg _ c'' hv2
  have hic2 := item_count_eq _ hv2
  rw [hp, hg, hE, hic2]
  refine ⟨rfl, rfl, rfl, rfl, ?_, rfl, ?_, ?_, ?_⟩
  · show (getOutput out _ rb.size rb.head k).take k = _
    rw [ho, hnil, List.nil_append, List.take_take, Nat.min_self]
  · show (rb.tail + k) % rb.size = _
    rw [he]
  · show (if (rb.head + k) % rb.size = (rb.tail + k) % rb.size then 1 else 0) = 1
    rw [he, if_pos rfl]
  · show (if (rb.head + k) % rb.size ≤ (rb.tail + k) % rb.size then
        (rb.tail + k) % rb.size - (rb.head + k) % rb.size
      else (rb.tail + k) % rb.size + rb.size - (rb.head + k) % rb.size) = 0
    rw [he, if_pos (Nat.le_refl _), Nat.sub_self]

/-- Witness of C39: three items through an empty four slot buffer with `head = tail = 2`;
both cursors wrap to slot 1. -/
theorem round_trip_empty_witness :
    valid ⟨some [0, 0, 0, 0], 4, 2, 2⟩ ∧
    (RingBuffer_enGetItems true
      (RingBuffer_enPutItems true ⟨some [0, 0, 0, 0], 4, 2, 2⟩ [5, 6, 7] 3 0).ring_buffer
      [0, 0, 0] 3 0).items.take 3 = [5, 6, 7].take 3 ∧
    (RingBuffer_enGetItems true
      (RingBuffer_enPutItems true ⟨some [0, 0, 0, 0], 4, 2, 2⟩ [5, 6, 7] 3 0).ring_buffer
      [0, 0, 0] 3 0).ring_buffer.head = (2 + 3) % 4 :=
  ⟨by decide,
    (round_trip_empty true ⟨some [0, 0, 0, 0], 4, 2, 2⟩ [5, 6, 7] [0, 0, 0] 3 0 0 0
      (by decide) (by decide) (by decide) (by decide) (by decide) (by decide)).2.2.2.2.1,
    (round_trip_empty true ⟨some [0, 0, 0, 0], 4, 2, 2⟩ [5, 6, 7] [0, 0, 0] 3 0 0 0
      (by decide) (by decide) (by decide) (by decide) (by decide) (by decide)).2.2.2.2.2.1⟩

/-- C40: with 32 bit counters and `N ≤ 2 ^ 31`, on every valid state the sum
`head + min count item_count` of `RingBuffer_enSkipItems` and the sum `head + offset`
(`offset < item_count`) of `RingBuffer_enPeekItems` are below `2 ^ 32` and below `2 N`, so the
wrapping addition is exact and the single conditional subtraction of `N` yields
`(head + k) mod N`, which is the head after a skip; and the `tail + N - head` of
`RingBuffer_enItemCount`, evaluated modulo `2 ^ 32`, is the exact `(tail - head) mod N`. -/
theorem counters_exact (dbg : Bool) (rb : RingBuffer_t) (count offset c : Nat) (hv : valid rb)
    (hsz : rb.size ≤ 2147483648) :
    (rb.head + MIN (item_count rb) count < 4294967296 ∧
      rb.head + MIN (item_count rb) count < 2 * rb.size ∧
      MIN (item_count rb) count = min count (item_count rb) ∧
      cadd rb.head (MIN (item_count rb) count) = rb.head + min count (item_count rb) ∧
      (if cadd rb.head (MIN (item_count rb) count) ≥ rb.size then
          csub (cadd rb.head (MIN (item_count rb) count)) rb.size
        else cadd rb.head (MIN (item_count rb) count)) =
        (rb.head + min count (item_count rb)) % rb.size ∧
      (1 ≤ count → 0 < item_count rb →
        (RingBuffer_enSkipItems dbg rb count c).ring_buffer.head =
          (rb.head + min count (item_count rb)) % rb.size)) ∧
    (offset < item_count rb →
      rb.head + offset < 4294967296 ∧ rb.head + offset < 2 * rb.size ∧
      cadd rb.head offset = rb.head + offset ∧
      (if cadd rb.head offset ≥ rb.size then csub (cadd rb.head offset) rb.size
        else cadd rb.head offset) = (rb.head + offset) % rb.size) ∧
    (rb.tail < rb.head →
      (csub (cadd rb.tail rb.size) rb.head : Int) =
        ((rb.tail : Int) - (rb.head : Int)) % (rb.size : Int)) ∧
    (((RingBuffer_enItemCount dbg rb c).counter : Int) =
      ((rb.tail : Int) - (rb.head : Int)) % (rb.size : Int)) := by
  have hic := item_count_eq rb hv
  have hib := item_count_le rb hv
  have hIC := RingBuffer_enItemCount_eq dbg rb c hv
  have hv' := hv
  obtain ⟨h2, hN, hh, ht, _⟩ := hv
  obtain ⟨_, m2⟩ := count_eq_mod rb.size rb.head rb.tail hh ht
  have hM : MIN (item_count rb) count = min count (item_count rb) := by
    rw [MIN_eq_min, Nat.min_comm]
  refine ⟨?_, ?_, ?_, ?_⟩
  · rw [hM]
    generalize hk : min count (item_count rb) = k
    have hk1 : k ≤ item_count rb := by omega
    have hno : rb.head + k < 4294967296 := by omega
    have h2n : rb.head + k < 2 * rb.size := by omega
    have hadd := cadd_eq_add rb.head k hno
    refine ⟨hno, h2n, rfl, hadd, ?_, ?_⟩
    · rw [hadd]; exact wrap_eq_mod (rb.head + k) rb.size h2n hno
    · intro h1 hpos
      rw [RingBuffer_enSkipItems_eq dbg rb count c hv' (check_of_pos dbg count h1)
        (by rw [hk]; exact hno), if_neg (by omega), hk]
  · intro hoff
    have hno : rb.head + offset < 4294967296 := by omega
    have h2n : rb.head + offset < 2 * rb.size := by omega
    have hadd := cadd_eq_add rb.head offset hno
    refine ⟨hno, h2n, hadd, ?_⟩
    rw [hadd]; exact wrap_eq_mod (rb.head + offset) rb.size h2n hno
  · intro hlt
    have e : csub (cadd rb.tail rb.size) rb.head = rb.tail + rb.size - rb.head := by
      rw [cadd_eq_add rb.tail rb.size (by omega), csub_eq_sub _ _ (by omega) (by omega)]
    rw [e, ← m2, if_neg (by omega)]
  · rw [hIC]
    show ((item_count rb : Nat) : Int) = _
    rw [hic]; exact m2

/-- Witness of C40: a ten slot buffer with `head = 7`, `tail = 2` (five items), a skip of 4
and an offset of 4. -/
theorem counters_exact_witness :
    valid ⟨some (List.replicate 10 0), 10, 7, 2⟩ ∧
    (RingBuffer_enSkipItems true ⟨some (List.replicate 10 0), 10, 7, 2⟩ 4 0).ring_buffer.head =
      (7 + min 4 (item_count ⟨some (List.replicate 10 0), 10, 7, 2⟩)) % 10 ∧
    cadd 7 4 = 7 + 4 :=
  ⟨by decide,
    (counters_exact true ⟨some (List.replicate 10 0), 10, 7, 2⟩ 4 4 0 (by decide)
      (by decide)).1.2.2.2.2.2 (by decide) (by decide),
    ((counters_exact true ⟨some (List.replicate 10 0), 10, 7, 2⟩ 4 4 0 (by decide)
      (by decide)).2.1 (by decide)).2.2.1⟩

end RingBuffer
